import Mathlib

/-!
Verification development for the figure-grouping and page-layout engine in
src/Controller/select_image.py.

Modelling conventions:
* Python floats are modelled as exact fractions (structure Frac below), i.e.
  real-number semantics.  All float arithmetic appearing in the source
  (+, -, *, /, comparisons, max/min, int()) is mirrored on Frac.
* Python ints are modelled as Lean Int; int() truncation toward zero is
  Int.tdiv via Frac.pyInt.
* Python strings are modelled as List Char; Python dicts (which preserve
  insertion order) are modelled as association lists with
  update-in-place-or-append semantics.
* External engines (the re module's matching of the three fixed regex
  patterns, PIL font metrics, the filesystem) are modelled as explicit
  oracle parameters; the same oracle field is used at every call site of
  the same pattern, mirroring that the same regex is evaluated there.
-/

set_option maxRecDepth 20000

namespace SelectImage



/-- Exact fraction standing for a Python float value: numerator, positive
denominator, no normalisation (so all operations are kernel-computable). -/
structure Frac where
  num : Int
  den : Int
  den_pos : 0 < den

namespace Frac

def ofInt (n : Int) : Frac := ⟨n, 1, Int.zero_lt_one⟩

/-- Literal helper: F n d is the fraction n/d (d must be positive, else 0/1
is substituted; all uses in this file have positive d). -/
def F (n d : Int) : Frac := if h : 0 < d then ⟨n, d, h⟩ else ⟨n, 1, Int.zero_lt_one⟩

/-- Interpretation of a Frac as a rational number. -/
def toRat (a : Frac) : ℚ := (a.num : ℚ) / (a.den : ℚ)

protected def add (a b : Frac) : Frac :=
  ⟨a.num * b.den + b.num * a.den, a.den * b.den, mul_pos a.den_pos b.den_pos⟩

protected def sub (a b : Frac) : Frac :=
  ⟨a.num * b.den - b.num * a.den, a.den * b.den, mul_pos a.den_pos b.den_pos⟩

protected def mul (a b : Frac) : Frac :=
  ⟨a.num * b.num, a.den * b.den, mul_pos a.den_pos b.den_pos⟩

protected def neg (a : Frac) : Frac := ⟨-a.num, a.den, a.den_pos⟩

protected def inv (a : Frac) : Frac :=
  if h : 0 < a.num then ⟨a.den, a.num, h⟩
  else if h2 : a.num < 0 then ⟨-a.den, -a.num, by omega⟩
  else ofInt 0

/-- Division; division by zero (which would raise in Python and never occurs
on the modelled execution paths) yields 0. -/
protected def div (a b : Frac) : Frac := a.mul b.inv

/-- Boolean comparison a ≤ b (value-level, as for Python floats). -/
protected def le (a b : Frac) : Bool := decide (a.num * b.den ≤ b.num * a.den)

/-- Boolean comparison a < b. -/
protected def lt (a b : Frac) : Bool := decide (a.num * b.den < b.num * a.den)

/-- Value equality test (Python ==). -/
protected def beq (a b : Frac) : Bool := decide (a.num * b.den = b.num * a.den)

/-- Python max(x, y): returns y only when y > x. -/
protected def fmax (a b : Frac) : Frac := if a.lt b then b else a

/-- Python min(x, y): returns y only when y < x. -/
protected def fmin (a b : Frac) : Frac := if b.lt a then b else a

/-- Python int() applied to a float: truncation toward zero. -/
def pyInt (a : Frac) : Int := a.num.tdiv a.den

/-- Python abs() on a float. -/
def fabs (a : Frac) : Frac := if a.lt (ofInt 0) then a.neg else a

end Frac

open Frac (F ofInt)

instance : DecidableEq Frac := fun a b =>
  decidable_of_iff (a.num = b.num ∧ a.den = b.den) (by cases a; cases b; simp)

/-- Bounding box [x0, y0, x1, y1] in document coordinates (a well-formed
4-element bbox list of the source). -/
structure BBox where
  x0 : Frac
  y0 : Frac
  x1 : Frac
  y1 : Frac
deriving DecidableEq

/-- Source: _horizontal_overlap (select_image.py lines 208-213). -/
def horizontal_overlap (a b : BBox) : Frac :=
  let inter := (ofInt 0).fmax ((a.x1.fmin b.x1).sub (a.x0.fmax b.x0))
  let denom := (ofInt 1).fmax ((a.x1.sub a.x0).fmin (b.x1.sub b.x0))
  inter.div denom

/-- Source: _vertical_distance (lines 903-909); the len<4 guard is handled at
each call site (all call sites pass well-formed 4-element bboxes). -/
def vertical_distance (b1 b2 : BBox) : Frac := b2.y0.sub b1.y1

/-- Source: _width_similarity (lines 912-920). -/
def width_similarity (b1 b2 : BBox) : Frac :=
  let w1 := b1.x1.sub b1.x0
  let w2 := b2.x1.sub b2.x0
  if w1.beq (ofInt 0) || w2.beq (ofInt 0) then ofInt 0
  else (ofInt 1).sub ((Frac.fabs (w1.sub w2)).div (w1.fmax w2))

/-- Source: _height_similarity (lines 923-931). -/
def height_similarity (b1 b2 : BBox) : Frac :=
  let h1 := b1.y1.sub b1.y0
  let h2 := b2.y1.sub b2.y0
  if h1.beq (ofInt 0) || h2.beq (ofInt 0) then ofInt 0
  else (ofInt 1).sub ((Frac.fabs (h1.sub h2)).div (h1.fmax h2))

/-- Source: _bbox_union (lines 934-942); the input list holds the already
validated 4-element bboxes. -/
def bbox_union : List BBox → Option BBox
  | [] => none
  | b :: bs =>
    some (bs.foldl
      (fun acc c => ⟨acc.x0.fmin c.x0, acc.y0.fmin c.y0, acc.x1.fmax c.x1, acc.y1.fmax c.y1⟩) b)

/-- Source: _bbox_vertical_gap (lines 945-950). -/
def bbox_vertical_gap (a b : BBox) : Frac :=
  if a.y1.le b.y0 then b.y0.sub a.y1
  else if b.y1.le a.y0 then a.y0.sub b.y1
  else ofInt 0

/-- Source: _bbox_horizontal_gap (lines 953-958). -/
def bbox_horizontal_gap (a b : BBox) : Frac :=
  if a.x1.le b.x0 then b.x0.sub a.x1
  else if b.x1.le a.x0 then a.x0.sub b.x1
  else ofInt 0

/-- Source: _should_merge_group_bboxes (lines 961-985); both arguments are
well-formed bboxes at the call site. -/
def should_merge_group_bboxes (a b : BBox) (page_w page_h : Frac) : Bool :=
  let pw := (ofInt 1).fmax page_w
  let ph := (ofInt 1).fmax page_h
  let vgap := bbox_vertical_gap a b
  let hgap := bbox_horizontal_gap a b
  let hover := horizontal_overlap a b
  let y_inter := (ofInt 0).fmax ((a.y1.fmin b.y1).sub (a.y0.fmax b.y0))
  let y_denom := (ofInt 1).fmax ((a.y1.sub a.y0).fmin (b.y1.sub b.y0))
  let yover := y_inter.div y_denom
  if vgap.le (ph.mul (F 18 100)) && ((F 12 100).le hover || hgap.le (pw.mul (F 8 100))) then
    true
  else if hgap.le (pw.mul (F 8 100)) && ((F 12 100).le yover || vgap.le (ph.mul (F 10 100))) then
    true
  else if vgap.beq (ofInt 0) && hgap.beq (ofInt 0) then true
  else false

/-- A figure element of the content manifest (parse_content_items output:
page_idx, bbox, img_path, image_caption). -/
structure FigItem where
  page_idx : Int
  bbox : BBox
  img_path : List Char
  image_caption : List (List Char)
deriving DecidableEq

/-- A caption element of the content manifest (parse_content_items output:
page_idx, bbox, text; the img_path field is never read by the matcher or
grouper and is omitted). -/
structure CapItem where
  page_idx : Int
  bbox : BBox
  text : List Char
deriving DecidableEq

/-- The Frac-level score computed inside match_figures_to_captions:
dist - overlap * 10.0. -/
def scoreFrac (fig : FigItem) (cap : CapItem) : Frac :=
  (cap.bbox.y0.sub fig.bbox.y1).sub ((horizontal_overlap fig.bbox cap.bbox).mul (ofInt 10))

/-- The body of the inner loop of match_figures_to_captions (lines 223-236):
skip captions on another page, above the figure bottom, or with horizontal
overlap below 0.2; otherwise keep the caption of strictly smaller score. -/
def matchStep (fig : FigItem) (best : Option (CapItem × Frac)) (cap : CapItem) :
    Option (CapItem × Frac) :=
  if cap.page_idx ≠ fig.page_idx then best
  else if cap.bbox.y0.lt fig.bbox.y1 then best
  else if (horizontal_overlap fig.bbox cap.bbox).lt (F 1 5) then best
  else
    match best with
    | none => some (cap, scoreFrac fig cap)
    | some (b, bs) =>
      if (scoreFrac fig cap).lt bs then some (cap, scoreFrac fig cap) else some (b, bs)

/-- Source: match_figures_to_captions (lines 216-239).  Returns the
insertion-ordered dict {figure index ↦ matched caption}; the final
`if best` test is the Option.map. -/
def match_figures_to_captions (figures : List FigItem) (captions : List CapItem) :
    List (Nat × CapItem) :=
  figures.enum.filterMap (fun p =>
    (captions.foldl (matchStep p.2) none).map (fun bc => (p.1, bc.1)))

/-- The candidate filter of match_figures_to_captions, stated at the level
of rational values: same page, caption top at or below figure bottom,
horizontal overlap at least 0.2. -/
def caption_candidate (fig : FigItem) (cap : CapItem) : Prop :=
  cap.page_idx = fig.page_idx ∧ fig.bbox.y1.toRat ≤ cap.bbox.y0.toRat ∧
    (1 : ℚ) / 5 ≤ (horizontal_overlap fig.bbox cap.bbox).toRat

instance (fig : FigItem) (cap : CapItem) : Decidable (caption_candidate fig cap) := by
  unfold caption_candidate
  infer_instance

/-- The matcher score, at the level of rational values:
vertical gap minus ten times the horizontal overlap. -/
def caption_score (fig : FigItem) (cap : CapItem) : ℚ :=
  (cap.bbox.y0.toRat - fig.bbox.y1.toRat) - (horizontal_overlap fig.bbox cap.bbox).toRat * 10

/-- Concrete first figure for the C5 witness and C10 example: page 0,
bbox [0, 0, 10, 10]. -/
def figEx1 : FigItem :=
  ⟨0, ⟨ofInt 0, ofInt 0, ofInt 10, ofInt 10⟩, [], []⟩

/-- Concrete second figure for the C10 example: page 0, bbox [0, 12, 10, 20]. -/
def figEx2 : FigItem :=
  ⟨0, ⟨ofInt 0, ofInt 12, ofInt 10, ofInt 20⟩, [], []⟩

/-- Concrete caption lying below both example figures: page 0,
bbox [0, 30, 10, 32]. -/
def capEx : CapItem :=
  ⟨0, ⟨ofInt 0, ofInt 30, ofInt 10, ofInt 32⟩, []⟩

/-- A non-degenerate bbox of width 1/2: [0, 0, 1/2, 1]. -/
def halfBox : BBox := ⟨ofInt 0, ofInt 0, F 1 2, ofInt 1⟩

/-- The unit bbox [0, 0, 1, 1]. -/
def unitBox : BBox := ⟨ofInt 0, ofInt 0, ofInt 1, ofInt 1⟩

/-! ### Caption validator (purify_caption, extract_figure_number) -/

/-- Python str whitespace (space, tab, newline, carriage return, vertical
tab, form feed), as stripped by str.strip(). -/
def pyIsSpace (c : Char) : Bool :=
  c = ' ' || c = '\t' || c = '\n' || c = '\r' || c = '\x0b' || c = '\x0c'

/-- Python str.strip(): remove leading and trailing whitespace. -/
def pyStrip (s : List Char) : List Char :=
  ((s.dropWhile pyIsSpace).reverse.dropWhile pyIsSpace).reverse

/-- Oracle for the external regex engine (module re) on the three fixed
patterns used by purify_caption / extract_figure_number.  figSearch models
re.search of the numbered pattern (Figure|Fig.?|图|Table|表)\s*(\d+): it
yields the character index of the match start together with the parsed
group-1 number, and the same field is consulted at every occurrence of that
pattern in the source.  looseStart models re.search of the anchored loose
pattern, capsHeading re.match of an all-caps heading line, numHeading
re.match of a numbered section heading line. -/
structure TextOracle where
  figSearch : List Char → Option (Nat × Nat)
  looseStart : List Char → Bool
  capsHeading : List Char → Bool
  numHeading : List Char → Bool

/-- Sanity of the regex oracle: the numbered figure pattern contains at
least one mandatory character, so it can never match inside the empty
string. -/
def TextOracle.Sane (o : TextOracle) : Prop :=
  ∀ s p, o.figSearch s = some p → s ≠ []

/-- Source: the line-truncation loop of purify_caption (lines 869-892):
stop at a blank line followed by a capitalised long line, at a section
heading, or after five kept lines. -/
def purifyLoop (o : TextOracle) (acc : List (List Char)) :
    List (List Char) → List (List Char)
  | [] => acc
  | l :: rest =>
    let line := pyStrip l
    if line.isEmpty then
      match rest with
      | [] => acc
      | nl :: _ =>
        let next_line := pyStrip nl
        if !next_line.isEmpty && (next_line.headD ' ').isUpper
            && decide (next_line.length > 10) then acc
        else purifyLoop o acc rest
    else if o.capsHeading line || o.numHeading line then acc
    else
      let acc2 := acc ++ [line]
      if acc2.length ≥ 5 then acc2 else purifyLoop o acc2 rest

/-- Source: purify_caption (lines 837-900). -/
def purify_caption (o : TextOracle) (text0 : List Char) : List Char × Bool :=
  if text0.isEmpty then ([], false)
  else
    let text1 := pyStrip text0
    let hasFig := (o.figSearch text1).isSome
    if !hasFig && !(o.looseStart text1) then ([], false)
    else
      let text2 := match o.figSearch text1 with
        | some pr => text1.drop pr.1
        | none => text1
      let lines := text2.splitOn '\n'
      let purified_lines := purifyLoop o [] lines
      let purified := pyStrip (List.intercalate ['\n'] purified_lines)
      if (o.figSearch purified).isSome then (purified, true) else ([], false)

/-- Source: extract_figure_number (lines 819-834): the int() of group 1 of
the same numbered pattern. -/
def extract_figure_number (o : TextOracle) (caption : List Char) : Option Nat :=
  if caption.isEmpty then none
  else (o.figSearch caption).map (fun pr => pr.2)

/-- A trivial regex oracle under which nothing matches. -/
def noMatchOracle : TextOracle :=
  ⟨fun _ => none, fun _ => false, fun _ => false, fun _ => false⟩

/-! ### Caption typesetter (wrap_lines) -/

/-- Python str.rstrip(): remove trailing whitespace. -/
def pyRstrip (s : List Char) : List Char := (s.reverse.dropWhile pyIsSpace).reverse

/-- Python str.split() with no separator: words are maximal runs of
non-whitespace, empties discarded (accumulator formulation, equivalent to
the run-based description). -/
def pySplitAux : List Char → List Char → List (List Char)
  | [], cur => if cur.isEmpty then [] else [cur.reverse]
  | c :: rest, cur =>
    if pyIsSpace c then
      if cur.isEmpty then pySplitAux rest [] else cur.reverse :: pySplitAux rest []
    else pySplitAux rest (c :: cur)

def pySplit (s : List Char) : List (List Char) := pySplitAux s []

/-- Python list slicing lines[:k] (k may be negative, counting from the
end). -/
def pySlice {α : Type} (l : List α) (k : Int) : List α :=
  if 0 ≤ k then l.take k.toNat else l.take ((l.length : Int) + k).toNat

/-- The three-dot ellipsis appended by wrap_lines on truncation. -/
def ellipsisChars : List Char := ['.', '.', '.']

/-- Python " ".join. -/
def joinSpace (ws : List (List Char)) : List Char := List.intercalate [' '] ws

/-- Source: the character-chopping while loop of wrap_lines (lines
1078-1083): last = last[:-1].rstrip() until last + "..." fits or last is
empty, then append the ellipsis (the bare ellipsis when last is empty).
Each iteration strictly shortens last, so fuel = length + 1 never runs out;
the fuel-0 branch repeats the loop-exit result. -/
def truncLastAux (m : List Char → Int) (mw : Int) : Nat → List Char → List Char
  | 0, last => if last.isEmpty then ellipsisChars else last ++ ellipsisChars
  | fuel + 1, last =>
    if mw < m (last ++ ellipsisChars) ∧ last ≠ [] then
      truncLastAux m mw fuel (pyRstrip last.dropLast)
    else if last.isEmpty then ellipsisChars else last ++ ellipsisChars

def truncLast (m : List Char → Int) (mw : Int) (last : List Char) : List Char :=
  truncLastAux m mw (last.length + 1) last

/-- Source: the word-accumulation loop of wrap_lines (lines 1062-1072).
State: produced lines, current words, truncated flag; the loop breaks when
a new line would start at or beyond max_lines. -/
def wrapLoop (m : List Char → Int) (mw ml : Int) :
    List (List Char) → List (List Char) → List (List Char) →
      List (List Char) × List (List Char) × Bool
  | [], lines, current => (lines, current, false)
  | w :: rest, lines, current =>
    let test := joinSpace (current ++ [w])
    if m test ≤ mw then wrapLoop m mw ml rest lines (current ++ [w])
    else
      let lines2 := if current.isEmpty then lines else lines ++ [joinSpace current]
      if ml ≤ (lines2.length : Int) then (lines2, [w], true)
      else wrapLoop m mw ml rest lines2 [w]

/-- Source: the post-loop part of wrap_lines (lines 1073-1084): append the
pending words when room remains happens before this step; here, clip to
max_lines and rewrite the last line on truncation. -/
def wrapFinish (m : List Char → Int) (mw ml : Int) (lines2 : List (List Char))
    (truncated1 : Bool) : List (List Char) × Bool :=
  let sliced := decide (ml < (lines2.length : Int))
  let lines3 := if sliced then pySlice lines2 ml else lines2
  let truncated2 := truncated1 || sliced
  if truncated2 && !lines3.isEmpty then
    (lines3.dropLast ++ [truncLast m mw (lines3.getLastD [])], truncated2)
  else (lines3, truncated2)

/-- Source: wrap_lines (lines 1053-1084), with the font-metrics engine
(draw.textbbox width) abstracted as the oracle m.  Returns the lines
together with the final truncated flag. -/
def wrap_lines_core (m : List Char → Int) (text : List Char) (mw ml : Int) :
    List (List Char) × Bool :=
  let words := pySplit (text.map (fun c => if c = '\n' then ' ' else c))
  if words.isEmpty then ([], false)
  else
    let r := wrapLoop m mw ml words [] []
    let lines2 := if !r.2.1.isEmpty && decide ((r.1.length : Int) < ml) then
        r.1 ++ [joinSpace r.2.1]
      else r.1
    wrapFinish m mw ml lines2 r.2.2

/-- Source: wrap_lines as seen by callers (the list of lines only). -/
def wrap_lines (m : List Char → Int) (text : List Char) (mw ml : Int) :
    List (List Char) :=
  (wrap_lines_core m text mw ml).1

/-- A simple concrete font-metrics oracle: every character is six pixels
wide. -/
def sixPerChar (s : List Char) : Int := 6 * s.length

/-! ### Page packers (pack_tiles_hybrid, pack_tiles_masonry) -/

/-- A PIL image as far as the packers are concerned: its pixel size. -/
structure Tile where
  w : Int
  h : Int
deriving DecidableEq

/-- The RenderConfig fields read by the packers and the caption bar
renderer (the remaining fields steer pipeline stages modelled elsewhere). -/
structure RenderCfg where
  caption_max_lines : Int
  caption_bar_padding : Int
  masonry_columns : Int
  masonry_padding_frac : Frac
  masonry_gutter_frac : Frac
  masonry_target_fill : Frac
  masonry_scale_max : Frac
  tiles_per_page : Int
  wide_threshold : Frac
  caption_image_spacing : Int

/-- The dataclass defaults of RenderConfig (lines 24-51). -/
def defaultCfg : RenderCfg :=
  ⟨3, 10, 2, F 3 100, F 15 100, F 96 100, F 5 4, 3, F 13 10, 0⟩

/-- Font metrics oracle: pixel width (draw.textbbox[2]) and line height
(draw.textbbox[3]) of a rendered string under the loaded caption font. -/
structure FontOracle where
  width : List Char → Int
  lineHeight : List Char → Int

/-- Source: render_caption_bar (lines 1087-1106), giving the bar height;
the produced bar image has exactly the requested width.  None when the
text or the wrapped line list is empty. -/
def render_caption_bar (fo : FontOracle) (cfg : RenderCfg) (text : List Char)
    (width : Int) : Option Int :=
  if text.isEmpty then none
  else
    let max_width := max 1 (width - cfg.caption_bar_padding * 2)
    let lines := wrap_lines fo.width text max_width cfg.caption_max_lines
    if lines.isEmpty then none
    else
      let text_h := (lines.map fo.lineHeight).sum + ((lines.length : Int) - 1) * 2
      some (text_h + cfg.caption_bar_padding * 2)

/-- caption_spacing: cfg.caption_image_spacing if positive else the gutter
(computed identically at every use site in the source). -/
def cap_spacing (cfg : RenderCfg) (gutter : Int) : Int :=
  if 0 < cfg.caption_image_spacing then cfg.caption_image_spacing else gutter

/-- Planned caption block height (bar height + spacing) or 0, as computed
in the packing loop of pack_tiles_hybrid. -/
def plan_bar_h (fo : FontOracle) (cfg : RenderCfg) (gutter : Int) (caption : List Char)
    (w : Int) : Int :=
  if caption.isEmpty then 0
  else
    match render_caption_bar fo cfg caption w with
    | some bh => bh + cap_spacing cfg gutter
    | none => 0

/-- Source: scaled_size inside pack_tiles_hybrid (lines 1392-1402). -/
def scaled_size (img : Tile) (target_w : Frac) : Int × Int :=
  let scale := target_w.div (ofInt img.w)
  let w := max 1 (Frac.pyInt ((ofInt img.w).mul scale))
  let h := max 1 (Frac.pyInt ((ofInt img.h).mul scale))
  if target_w.lt (ofInt w) then
    (Frac.pyInt target_w, max 1 (Frac.pyInt ((ofInt img.h).mul scale)))
  else (w, h)

/-- One recorded tile blit onto a page: position and size actually pasted,
together with the source tile size and the planned layout size it came
from (srcW/srcH/planW/planH are bookkeeping for the statements, not data
the code stores). -/
structure Paste where
  x : Int
  y : Int
  w : Int
  h : Int
  srcW : Int
  srcH : Int
  planW : Int
  planH : Int
deriving DecidableEq

/-- An entry of the `current` list of pack_tiles_hybrid. -/
structure HybridItem where
  tile : Tile
  caption : List Char
  x : Frac
  y : Frac
  w : Int
  h : Int

/-- Per-page layout statistics (tiles, fill_ratio, height_used). -/
structure Stat where
  tiles : Nat
  fill : Frac
  height_used : Frac

/-- Source: lines 1472-1486 of flush_page: when the planned size exceeds
the free space, shrink both dimensions by the common factor
min(max_w/w_plan, max_h/h_plan of the exceeded directions). -/
def shrink_to_fit (w_plan h_plan max_w max_h : Int) : Int × Int :=
  if max_w < w_plan ∨ max_h < h_plan then
    let scale_w := if max_w < w_plan then (ofInt max_w).div (ofInt w_plan) else ofInt 1
    let scale_h := if max_h < h_plan then (ofInt max_h).div (ofInt h_plan) else ofInt 1
    let scale := scale_w.fmin scale_h
    (max 1 (Frac.pyInt ((ofInt w_plan).mul scale)),
      max 1 (Frac.pyInt ((ofInt h_plan).mul scale)))
  else (w_plan, h_plan)

/-- The integer core of the per-item body of flush_page (lines 1442-1528),
parameterised by the already-computed caption bar height (barOpt is the
result of the single deterministic render_caption_bar call at the item's
planned width): reserve caption space, shrink proportionally when the plan
exceeds the free space, blit the tile, then place the caption bar below,
re-blitting the tile with a reduced height if the bar would overflow the
bottom edge.  Returns the tile blits (in order) and the content area
contribution. -/
def renderItemCore (canvas_w canvas_h caption_spacing : Int) (capEmpty : Bool)
    (barOpt : Option Int) (x_final y_final w_plan h_plan srcW srcH : Int) :
    List Paste × Int :=
  let caption_space :=
    if capEmpty then 0
    else
      match barOpt with
      | some bh => bh + caption_spacing
      | none => 0
  let max_w := canvas_w - x_final
  let max_h_for_image := canvas_h - y_final - caption_space
  let wf_hf := shrink_to_fit w_plan h_plan max_w max_h_for_image
  let w_final := wf_hf.1
  let h_final := wf_hf.2
  if 0 < w_final ∧ 0 < h_final then
    let paste1 : Paste := ⟨x_final, y_final, w_final, h_final, srcW, srcH, w_plan, h_plan⟩
    let tile_area := w_final * h_final
    if capEmpty then ([paste1], tile_area)
    else
      match barOpt with
      | none => ([paste1], tile_area)
      | some barH =>
        let caption_y := y_final + h_final + caption_spacing
        if canvas_h < caption_y + barH then
          let max_caption_y := canvas_h - barH
          if y_final < max_caption_y then
            let h_final2 := max 1 (max_caption_y - y_final - caption_spacing)
            let paste2 : Paste :=
              ⟨x_final, y_final, w_final, h_final2, srcW, srcH, w_plan, h_plan⟩
            let caption_y2 := y_final + h_final2 + caption_spacing
            let caption_x :=
              if canvas_w < x_final + w_plan then max 0 (canvas_w - w_plan) else x_final
            if caption_y2 + barH ≤ canvas_h ∧ caption_x + w_plan ≤ canvas_w then
              ([paste1, paste2], tile_area + w_plan * barH)
            else ([paste1, paste2], tile_area)
          else ([paste1], tile_area)
        else
          let caption_x :=
            if canvas_w < x_final + w_plan then max 0 (canvas_w - w_plan) else x_final
          if caption_y + barH ≤ canvas_h ∧ caption_x + w_plan ≤ canvas_w then
            ([paste1], tile_area + w_plan * barH)
          else ([paste1], tile_area)
  else ([], 0)

/-- Source: the per-item body of flush_page (lines 1442-1528): position
clamping and the caption bar call feeding renderItemCore. -/
def renderItem (fo : FontOracle) (cfg : RenderCfg) (canvas_w canvas_h padding gutter : Int)
    (voffset : Frac) (p : HybridItem) : List Paste × Int :=
  renderItemCore canvas_w canvas_h (cap_spacing cfg gutter) p.caption.isEmpty
    (render_caption_bar fo cfg p.caption p.w)
    (max 0 (Frac.pyInt (p.x.add (ofInt padding))))
    (max 0 (Frac.pyInt ((p.y.add (ofInt padding)).add voffset)))
    p.w p.h p.tile.w p.tile.h

/-- Source: flush_page of pack_tiles_hybrid (lines 1409-1531): vertical
centring offset for single-tile pages, then the per-item rendering; yields
the page's tile blits and its statistics entry (None when current is
empty, in which case no page is appended). -/
def flush_page (fo : FontOracle) (cfg : RenderCfg) (canvas_w canvas_h padding gutter : Int)
    (current : List HybridItem) (used_h : Frac) : Option (List Paste × Stat) :=
  if current.isEmpty then none
  else
    let caption_spacing := cap_spacing cfg gutter
    let tch :=
      match current.getLast? with
      | none => ofInt 0
      | some last =>
        let lch :=
          if last.caption.isEmpty then 0
          else
            match render_caption_bar fo cfg last.caption last.w with
            | some bh => bh + caption_spacing
            | none => 0
        (last.y.add (ofInt last.h)).add (ofInt lch)
    let voffset :=
      if current.length = 1 ∧ (ofInt 0).lt tch then
        let ah := canvas_h - 2 * padding
        if tch.lt ((ofInt ah).mul (F 4 5)) then
          (ofInt 0).fmax (((ofInt ah).sub tch).div (ofInt 2))
        else ofInt 0
      else ofInt 0
    let rendered := current.map (renderItem fo cfg canvas_w canvas_h padding gutter voffset)
    let pastes := (rendered.map Prod.fst).flatten
    let area := (rendered.map Prod.snd).sum
    let fill :=
      if canvas_w * canvas_h = 0 then ofInt 0
      else (ofInt area).div (ofInt (canvas_w * canvas_h))
    some (pastes, ⟨current.length, fill, used_h⟩)

/-- The mutable loop state of pack_tiles_hybrid. -/
structure HybridState where
  pages : List (List Paste)
  stats : List Stat
  current : List HybridItem
  used_h : Frac
  pending : Option (Tile × List Char)

/-- flush_page() as invoked from the loop: append the rendered page. -/
def hybridFlush (fo : FontOracle) (cfg : RenderCfg) (canvas_w canvas_h padding gutter : Int)
    (st : HybridState) : HybridState :=
  match flush_page fo cfg canvas_w canvas_h padding gutter st.current st.used_h with
  | none => st
  | some (pg, s) => { st with pages := st.pages ++ [pg], stats := st.stats ++ [s] }

/-- The by-height pagination check used before each placement: if
used_h + total_h > available_h and used_h > 0, flush, clear current and
reset used_h. -/
def maybeFlush (fo : FontOracle) (cfg : RenderCfg)
    (canvas_w canvas_h padding gutter available_h : Int) (st : HybridState)
    (total_h : Int) : HybridState :=
  if (ofInt available_h).lt (st.used_h.add (ofInt total_h)) ∧ (ofInt 0).lt st.used_h then
    let f := hybridFlush fo cfg canvas_w canvas_h padding gutter st
    { f with current := [], used_h := ofInt 0 }
  else st

/-- Placing the pending narrow tile alone, centred on its own row (the
wide-tile branch lines 1540-1559 without the width clamp, and the final
pending block lines 1616-1634 with it). -/
def placePendingAlone (fo : FontOracle) (cfg : RenderCfg)
    (canvas_w canvas_h padding gutter available_w available_h : Int) (col_w : Frac)
    (clampW : Bool) (st : HybridState) (ptile : Tile) (pcap : List Char) : HybridState :=
  let wh := scaled_size ptile col_w
  let w := if clampW then min wh.1 (Frac.pyInt col_w) else wh.1
  let h := wh.2
  let bar_h := plan_bar_h fo cfg gutter pcap w
  let total_h := h + bar_h
  let st2 := maybeFlush fo cfg canvas_w canvas_h padding gutter available_h st total_h
  let x := (ofInt 0).fmax (((ofInt available_w).sub (ofInt w)).div (ofInt 2))
  { st2 with
    current := st2.current ++ [⟨ptile, pcap, x, st2.used_h, w, h⟩],
    used_h := st2.used_h.add (ofInt (total_h + gutter)),
    pending := none }

/-- Source: the main loop body of pack_tiles_hybrid (lines 1535-1613). -/
def hybridStep (fo : FontOracle) (cfg : RenderCfg)
    (canvas_w canvas_h padding gutter available_w available_h : Int) (col_w : Frac)
    (st : HybridState) (tile : Tile) (caption : List Char) : HybridState :=
  let ratio := (ofInt tile.w).div ((ofInt 1).fmax (ofInt tile.h))
  if cfg.wide_threshold.le ratio then
    let st1 :=
      match st.pending with
      | none => st
      | some (ptile, pcap) =>
        placePendingAlone fo cfg canvas_w canvas_h padding gutter available_w available_h
          col_w false st ptile pcap
    let wh := scaled_size tile (ofInt available_w)
    let w := min wh.1 available_w
    let h := wh.2
    let bar_h := plan_bar_h fo cfg gutter caption w
    let total_h := h + bar_h
    let st2 := maybeFlush fo cfg canvas_w canvas_h padding gutter available_h st1 total_h
    { st2 with
      current := st2.current ++ [⟨tile, caption, ofInt 0, st2.used_h, w, h⟩],
      used_h := st2.used_h.add (ofInt (total_h + gutter)) }
  else
    match st.pending with
    | none => { st with pending := some (tile, caption) }
    | some (ptile, pcap) =>
      let wh1 := scaled_size ptile col_w
      let w1 := min wh1.1 (Frac.pyInt col_w)
      let h1 := wh1.2
      let wh2 := scaled_size tile col_w
      let w2 := min wh2.1 (Frac.pyInt col_w)
      let h2 := wh2.2
      let bar_h1 := plan_bar_h fo cfg gutter pcap w1
      let bar_h2 := plan_bar_h fo cfg gutter caption w2
      let row_h := max (h1 + bar_h1) (h2 + bar_h2)
      let st2 := maybeFlush fo cfg canvas_w canvas_h padding gutter available_h st row_h
      { st2 with
        current := st2.current ++
          [⟨ptile, pcap, ofInt 0, st2.used_h, w1, h1⟩,
            ⟨tile, caption, col_w.add (ofInt gutter), st2.used_h, w2, h2⟩],
        used_h := st2.used_h.add (ofInt (row_h + gutter)),
        pending := none }

/-- Source: pack_tiles_hybrid (lines 1377-1637); the returned pages are
the ordered tile blits of each flushed canvas. -/
def pack_tiles_hybrid (fo : FontOracle) (cfg : RenderCfg) (tiles : List Tile)
    (captions : List (List Char)) (canvas_w canvas_h : Int) :
    List (List Paste) × List Stat :=
  if tiles.isEmpty then ([], [])
  else
    let padding := max 1 (Frac.pyInt ((ofInt canvas_w).mul cfg.masonry_padding_frac))
    let gutter := max 1 (Frac.pyInt ((ofInt canvas_w).mul cfg.masonry_gutter_frac))
    let available_w := max 1 (canvas_w - 2 * padding)
    let available_h := max 1 (canvas_h - 2 * padding)
    let col_w := ((ofInt available_w).sub (ofInt gutter)).div (ofInt 2)
    let init : HybridState := ⟨[], [], [], ofInt 0, none⟩
    let stepped := tiles.enum.foldl
      (fun st p =>
        hybridStep fo cfg canvas_w canvas_h padding gutter available_w available_h col_w
          st p.2 (captions.getD p.1 []))
      init
    let fin :=
      match stepped.pending with
      | none => stepped
      | some (ptile, pcap) =>
        placePendingAlone fo cfg canvas_w canvas_h padding gutter available_w available_h
          col_w true stepped ptile pcap
    let last := hybridFlush fo cfg canvas_w canvas_h padding gutter fin
    (last.pages, last.stats)

/-- Source: choose_columns (lines 1373-1374). -/
def choose_columns (cfg : RenderCfg) : Int := max 1 cfg.masonry_columns

/-- A placement of layout_page inside pack_tiles_masonry. -/
structure MItem where
  x : Frac
  y : Frac
  w : Int
  h : Int
  tile : Tile

/-- Python min(range(cols), key=col_heights.__getitem__): the first index
of minimal height. -/
def argminIdx (l : List Frac) : Nat :=
  ((l.enum.foldl
      (fun acc p =>
        match acc with
        | none => some p
        | some b => if p.2.lt b.2 then some p else some b)
      none).map Prod.fst).getD 0

/-- Python max over a list of floats (first maximal element). -/
def listMax (l : List Frac) : Frac :=
  match l with
  | [] => ofInt 0
  | x :: xs => xs.foldl Frac.fmax x

/-- Source: the per-tile body of layout_page (lines 2178-2204). -/
def layoutStep (col_w : Frac) (available_h gutter : Int) (scale : Frac)
    (st : List Frac × List MItem) (tile : Tile) : List Frac × List MItem :=
  let col_heights := st.1
  let base_scale := col_w.div (ofInt tile.w)
  let height_scale :=
    if 0 < tile.h then (ofInt available_h).div (ofInt tile.h) else base_scale
  let width_scale := base_scale.mul (scale.fmin (ofInt 1))
  let height_scale_unconstrained := base_scale.mul scale
  let scale_fit := (width_scale.fmin height_scale_unconstrained).fmin height_scale
  let tw := max 1 (Frac.pyInt ((ofInt tile.w).mul scale_fit))
  let th := max 1 (Frac.pyInt ((ofInt tile.h).mul scale_fit))
  let twths :=
    if col_w.lt (ofInt tw) then
      let sf := col_w.div (ofInt tile.w)
      (Frac.pyInt col_w, max 1 (Frac.pyInt ((ofInt tile.h).mul sf)), sf)
    else (tw, th, scale_fit)
  let tw := twths.1
  let th := twths.2.1
  let col_idx := argminIdx col_heights
  let y := col_heights.getD col_idx (ofInt 0)
  let colStart := (ofInt (col_idx : Int)).mul (col_w.add (ofInt gutter))
  let x0 := (ofInt 0).fmax (colStart.add ((col_w.sub (ofInt tw)).div (ofInt 2)))
  let x := x0.fmin ((colStart.add col_w).sub (ofInt tw))
  (col_heights.set col_idx ((col_heights.getD col_idx (ofInt 0)).add (ofInt (th + gutter))),
    st.2 ++ [⟨x, y, tw, th, tile⟩])

/-- Source: layout_page of pack_tiles_masonry (lines 2175-2205). -/
def layout_page (col_w : Frac) (available_h gutter : Int) (cols : Nat)
    (page_tiles : List Tile) (scale : Frac) : List MItem × List Frac :=
  let r := page_tiles.foldl (layoutStep col_w available_h gutter scale)
    (List.replicate cols (ofInt 0), [])
  (r.2, r.1)

/-- Source: the per-page body of the while loop of pack_tiles_masonry
(lines 2207-2251): natural layout, optional upscale toward the target
fill, the single-tile page override, and the clamped rendering. -/
def masonryPage (cfg : RenderCfg) (canvas_w canvas_h padding gutter available_w available_h : Int)
    (col_w : Frac) (cols : Nat) (page_tiles : List Tile) : List Paste × Stat :=
  let lp := layout_page col_w available_h gutter cols page_tiles (ofInt 1)
  let placements := lp.1
  let col_heights := lp.2
  let h_used := if col_heights.isEmpty then ofInt 0 else listMax col_heights
  let ph :=
    if (ofInt 0).lt h_used then
      let target := cfg.masonry_target_fill.mul (ofInt available_h)
      if h_used.lt target then
        let scale := cfg.masonry_scale_max.fmin (target.div h_used)
        let lp2 := layout_page col_w available_h gutter cols page_tiles scale
        let h2 := if lp2.2.isEmpty then h_used else listMax lp2.2
        (lp2.1, h2)
      else (placements, h_used)
    else (placements, h_used)
  let placements := ph.1
  let h_used := ph.2
  let ph2 :=
    match page_tiles, placements with
    | [tile], _ :: _ =>
      let scale_fit := ((ofInt available_w).div (ofInt tile.w)).fmin
        ((ofInt available_h).div (ofInt tile.h))
      let tw := max 1 (Frac.pyInt ((ofInt tile.w).mul scale_fit))
      let th := max 1 (Frac.pyInt ((ofInt tile.h).mul scale_fit))
      ([(⟨((ofInt available_w).sub (ofInt tw)).div (ofInt 2),
          ((ofInt available_h).sub (ofInt th)).div (ofInt 2), tw, th, tile⟩ : MItem)],
        (ofInt th))
    | _, _ => (placements, h_used)
  let placements := ph2.1
  let h_used := ph2.2
  let rendered := placements.filterMap (fun p =>
    let x_final := max 0 (Frac.pyInt (p.x.add (ofInt padding)))
    let y_final := max 0 (Frac.pyInt (p.y.add (ofInt padding)))
    let w_final := min p.w (canvas_w - x_final)
    let h_final := min p.h (canvas_h - y_final)
    if 0 < w_final ∧ 0 < h_final then
      some (⟨x_final, y_final, w_final, h_final, p.tile.w, p.tile.h, p.w, p.h⟩ : Paste)
    else none)
  let area := (rendered.map (fun q => q.w * q.h)).sum
  let fill :=
    if canvas_w * canvas_h = 0 then ofInt 0
    else (ofInt area).div (ofInt (canvas_w * canvas_h))
  (rendered, ⟨placements.length, fill, h_used⟩)

/-- The paging while loop (lines 2207-2209), fuelled by the tile count:
every round consumes at least one tile since per_page ≥ 1, so the fuel
never runs out on the modelled executions. -/
def masonryLoop (cfg : RenderCfg)
    (canvas_w canvas_h padding gutter available_w available_h : Int) (col_w : Frac)
    (cols per_page : Nat) : Nat → List Tile → List (List Paste) × List Stat
  | _, [] => ([], [])
  | 0, _ => ([], [])
  | fuel + 1, ts =>
    let page_tiles := ts.take per_page
    let r := masonryPage cfg canvas_w canvas_h padding gutter available_w available_h
      col_w cols page_tiles
    let rest := masonryLoop cfg canvas_w canvas_h padding gutter available_w available_h
      col_w cols per_page fuel (ts.drop per_page)
    (r.1 :: rest.1, r.2 :: rest.2)

/-- Source: pack_tiles_masonry (lines 2159-2253). -/
def pack_tiles_masonry (cfg : RenderCfg) (tiles : List Tile) (canvas_w canvas_h : Int) :
    List (List Paste) × List Stat :=
  if tiles.isEmpty then ([], [])
  else
    let padding := max 1 (Frac.pyInt ((ofInt canvas_w).mul cfg.masonry_padding_frac))
    let gutter := max 1 (Frac.pyInt ((ofInt canvas_w).mul cfg.masonry_gutter_frac))
    let cols := (choose_columns cfg).toNat
    let available_w := max 1 (canvas_w - 2 * padding - gutter * ((cols : Int) - 1))
    let col_w := (ofInt available_w).div (ofInt (cols : Int))
    let available_h := max 1 (canvas_h - 2 * padding)
    let per_page := (max 1 cfg.tiles_per_page).toNat
    masonryLoop cfg canvas_w canvas_h padding gutter available_w available_h col_w cols
      per_page tiles.length tiles

/-- Rendered size relation: both rendered dimensions arise from the planned
dimensions by one common scale factor, truncated toward zero and clamped to
a minimum of one pixel; the height may be further reduced (caption
overflow re-blit). -/
def RenderRel (p : Paste) : Prop :=
  ∃ s : Frac, p.w = max 1 (Frac.pyInt ((ofInt p.planW).mul s)) ∧
    p.h ≤ max 1 (Frac.pyInt ((ofInt p.planH).mul s))

/-- Planned size relation for the hybrid packer: the planned height is the
source height under one scale factor (floored, min 1); the planned width
is the same scaled width clamped by a row/column width, except in the
degenerate case where the target width collapses below one pixel. -/
def PlanRel (p : Paste) : Prop :=
  ∃ (s : Frac) (wcap : Int),
    p.planH = max 1 (Frac.pyInt ((ofInt p.srcH).mul s)) ∧
    (p.planW = min (max 1 (Frac.pyInt ((ofInt p.srcW).mul s))) wcap ∨ p.planW ≤ 0)

/-- Masonry size relation: both planned dimensions share one scale factor,
truncated toward zero; the width is clamped to a minimum of one pixel
except in the column-overflow branch, where the truncated column width is
taken as is; rendering clamps each dimension against the canvas border. -/
def MasonryRel (canvas_w canvas_h : Int) (p : Paste) : Prop :=
  ∃ s : Frac,
    (p.planW = max 1 (Frac.pyInt ((ofInt p.srcW).mul s)) ∨
      p.planW = Frac.pyInt ((ofInt p.srcW).mul s)) ∧
    p.planH = max 1 (Frac.pyInt ((ofInt p.srcH).mul s)) ∧
    p.w = min p.planW (canvas_w - p.x) ∧ p.h = min p.planH (canvas_h - p.y)

/-- Shape of a masonry placement: width and height arise from the tile
size by one common scale factor (the width possibly without the one-pixel
clamp, in the column-overflow branch of layoutStep). -/
def MShape (q : MItem) : Prop :=
  ∃ s : Frac,
    (q.w = max 1 (Frac.pyInt ((ofInt q.tile.w).mul s)) ∨
      q.w = Frac.pyInt ((ofInt q.tile.w).mul s)) ∧
    q.h = max 1 (Frac.pyInt ((ofInt q.tile.h).mul s))

/-- Shape of a hybrid `current` entry: the entry height is the scaled tile
height (floored, min one pixel), and the entry width is the matching
scaled width clamped by some row or column cap, unless it degenerated to a
non-positive value. -/
def PlanShape (item : HybridItem) : Prop :=
  ∃ (s : Frac) (wcap : Int),
    item.h = max 1 (Frac.pyInt ((ofInt item.tile.h).mul s)) ∧
    (item.w = min (max 1 (Frac.pyInt ((ofInt item.tile.w).mul s))) wcap ∨ item.w ≤ 0)

/-- A font oracle reporting zero everywhere (captions are empty in the
concrete runs below, so it is never consulted). -/
def zeroFont : FontOracle := ⟨fun _ => 0, fun _ => 0⟩

/-- Loop invariant of pack_tiles_hybrid: flushed pages satisfy the render
and plan relations, pending current entries have the plan shape, and a
pending narrow tile has positive width. -/
def HInv (st : HybridState) : Prop :=
  (∀ pg ∈ st.pages, ∀ p ∈ pg, RenderRel p ∧ PlanRel p) ∧
  (∀ item ∈ st.current, PlanShape item) ∧
  (∀ pc ∈ st.pending, 0 < (Prod.fst pc).w)

/-! ### Figure grouping (group_figures_by_proximity) -/

/-- Python str.strip(ch): remove the given character from both ends. -/
def stripChar (ch : Char) (s : List Char) : List Char :=
  ((s.dropWhile (· = ch)).reverse.dropWhile (· = ch)).reverse

/-- Source: _normalize_path (lines 721-727): empty stays empty, backslashes
become slashes, then slashes are stripped from both ends. -/
def normalize_path (p : List Char) : List Char :=
  if p.isEmpty then []
  else stripChar '/' (p.map (fun c => if c = '\\' then '/' else c))

/-- pathlib Path(p).name for plain POSIX paths: the last component after
splitting on slashes, with empty and "." components dropped. -/
def pathName (s : List Char) : List Char :=
  ((s.splitOn '/').filter (fun comp => !comp.isEmpty && decide (comp ≠ ['.']))).getLastD []

/-- Python dict assignment d[k] = v on an insertion-ordered association
list: replace in place, else append. -/
def dictSet {K V : Type} [DecidableEq K] : List (K × V) → K → V → List (K × V)
  | [], k, v => [(k, v)]
  | (k', v') :: rest, k, v =>
    if k = k' then (k', v) :: rest else (k', v') :: dictSet rest k v

/-- Python d.setdefault(k, []).append(v) on an insertion-ordered
association list of buckets. -/
def dictAppend {K V : Type} [DecidableEq K] : List (K × List V) → K → V → List (K × List V)
  | [], k, v => [(k, [v])]
  | (k', vs) :: rest, k, v =>
    if k = k' then (k', vs ++ [v]) :: rest else (k', vs) :: dictAppend rest k v

/-- Python d.get(k) / k in d on an insertion-ordered association list. -/
def dictGet {K V : Type} [DecidableEq K] : List (K × V) → K → Option V
  | [], _ => none
  | (k', v) :: rest, k => if k = k' then some v else dictGet rest k

/-- A markdown image entry as consumed by group_figures_by_proximity: the
dict fields the grouper reads. -/
structure MdEntry where
  heading : List Char
  caption : List Char
  figure_bbox : Option BBox
  figure_page_idx : Option Int
  caption_bbox : Option BBox
  img_path : List Char
  image_rel : List Char
deriving DecidableEq

/-- The per-entry record entry_fig built by group_figures_by_proximity
(lines 287-302), after all enrichment mutations. -/
structure EntryFig where
  entry : MdEntry
  entry_idx : Nat
  figure_idx : Option Nat
  figure_bbox : Option BBox
  page_idx : Option Int
  caption : List Char
  caption_bbox : Option BBox
  caption_valid : Bool
  figure_number : Option Nat
  img_path : List Char
  has_caption : Bool
deriving DecidableEq

/-- The caption-related mutable state of one entry_fig during enrichment. -/
structure CapState where
  caption : List Char
  caption_bbox : Option BBox
  valid : Bool
  has : Bool
deriving DecidableEq

/-- Source: the figure_by_path construction (lines 269-277): map each
non-empty normalized img_path to its figure (dict assignment overwrites);
the figure is recorded by its enumeration index (fig["_index"]). -/
def figure_by_path (figures : List FigItem) : List (List Char × Nat) :=
  figures.enum.foldl
    (fun m p =>
      if p.2.img_path.isEmpty then m
      else
        let np := normalize_path p.2.img_path
        if np.isEmpty then m else dictSet m np p.1)
    []

/-- Source: the matching loop over figure_by_path.items() (lines 304-315):
the first figure whose normalized path equals the entry's, or whose file
name equals the entry's file name (both non-empty). -/
def findMatchedFigure (efname np : List Char) : List (List Char × Nat) → Option Nat
  | [] => none
  | (fp, i) :: rest =>
    if np = fp then some i
    else if !efname.isEmpty && !(pathName fp).isEmpty && efname = pathName fp then some i
    else findMatchedFigure efname np rest

/-- Source: the image_caption fallback loop (lines 323-335): the purified
text of the first list member with non-blank strip that purifies as
valid. -/
def firstValidImageCaption (o : TextOracle) : List (List Char) → Option (List Char)
  | [] => none
  | c :: rest =>
    let cs := pyStrip c
    if cs.isEmpty then firstValidImageCaption o rest
    else
      let pv := purify_caption o cs
      if pv.2 then some pv.1 else firstValidImageCaption o rest

/-- A figure item unusable as a default (never reached: indices stored in
figure_by_path are valid positions of the figures list). -/
def defaultFig : FigItem := ⟨0, ⟨ofInt 0, ofInt 0, ofInt 0, ofInt 0⟩, [], []⟩

/-- Lines 283-287 and 292-302: the markdown caption purified (blank raw
captions count as invalid). -/
def enrichBase (o : TextOracle) (entry : MdEntry) : CapState :=
  let raw := pyStrip entry.caption
  let pv := if !raw.isEmpty then purify_caption o raw else ([], false)
  ⟨pv.1, entry.caption_bbox, pv.2, pv.2⟩

/-- Lines 322-336: fall back to the matched figure's image_caption list
when the current caption is untrusted. -/
def enrichS1 (o : TextOracle) (fig : FigItem) (base : CapState) : CapState :=
  if !base.valid then
    match firstValidImageCaption o fig.image_caption with
    | some pc => (⟨pc, some fig.bbox, true, true⟩ : CapState)
    | none => base
  else base

/-- Lines 338-350: override with the spatially matched caption when it is
valid and the current caption is untrusted or carries the same number. -/
def enrichS2 (o : TextOracle) (matched : List (Nat × CapItem)) (fi : Nat)
    (s1 : CapState) : CapState :=
  match dictGet matched fi with
  | none => s1
  | some cap =>
    let pv2 := purify_caption o cap.text
    if pv2.2 then
      if !s1.valid ||
          decide (extract_figure_number o s1.caption = extract_figure_number o pv2.1)
      then (⟨pv2.1, some cap.bbox, true, true⟩ : CapState)
      else s1
    else s1

def enrichCore (o : TextOracle) (figures : List FigItem) (fbp : List (List Char × Nat))
    (matched : List (Nat × CapItem)) (entry : MdEntry) :
    Option Nat × Option BBox × Option Int × List Char × CapState :=
  let mfig :=
    if entry.image_rel.isEmpty then none
    else findMatchedFigure (pathName entry.image_rel) (normalize_path entry.image_rel) fbp
  match mfig with
  | none =>
    (none, entry.figure_bbox, entry.figure_page_idx, entry.img_path, enrichBase o entry)
  | some fi =>
    let fig := figures.getD fi defaultFig
    (some fi, some fig.bbox, some fig.page_idx, fig.img_path,
      enrichS2 o matched fi (enrichS1 o fig (enrichBase o entry)))

/-- The figure number parsed from the final trusted caption state
(lines 351-354). -/
def capNumber (o : TextOracle) (cs : CapState) : Option Nat :=
  if !cs.caption.isEmpty && cs.valid then extract_figure_number o cs.caption else none

def enrichEntry (o : TextOracle) (figures : List FigItem) (fbp : List (List Char × Nat))
    (matched : List (Nat × CapItem)) (i : Nat) (entry : MdEntry) : EntryFig :=
  let fstate := enrichCore o figures fbp matched entry
  let cs := fstate.2.2.2.2
  ⟨entry, i, fstate.1, fstate.2.1, fstate.2.2.1, cs.caption, cs.caption_bbox, cs.valid,
    capNumber o cs, fstate.2.2.2.1, cs.has⟩

/-- The enriched entry_figures list (lines 265-355): the spatial match, the
path index, and one enriched record per entry in order. -/
def entryFigures (o : TextOracle) (entries : List MdEntry) (figures : List FigItem)
    (captions : List CapItem) : List EntryFig :=
  let matched :=
    if figures.isEmpty || captions.isEmpty then []
    else match_figures_to_captions figures captions
  let fbp := figure_by_path figures
  entries.enum.map (fun p => enrichEntry o figures fbp matched p.1 p.2)

/-- Stable insertion step: x is placed before the first element it
compares less-or-equal to. -/
def insertLe {α : Type} (le : α → α → Bool) (x : α) : List α → List α
  | [] => [x]
  | y :: ys => if le x y then x :: y :: ys else y :: insertLe le x ys

/-- Python list.sort(key=...) as a stable ascending sort under a total
preorder le (the unique stable sorted permutation, here by structural
insertion). -/
def pySort {α : Type} (le : α → α → Bool) : List α → List α
  | [] => []
  | x :: xs => insertLe le x (pySort le xs)

/-- The stage-0/2 sort key (lines 368, 430): the bbox top edge if a bbox
is present, else 0. -/
def sortKeyY (e : EntryFig) : Frac :=
  match e.figure_bbox with
  | some b => b.y0
  | none => ofInt 0

/-- The stage-3 sort key (line 524): the bbox left edge if present, else 0. -/
def sortKeyX (e : EntryFig) : Frac :=
  match e.figure_bbox with
  | some b => b.x0
  | none => ofInt 0

/-- Source: the per-page scan of stage 0 (lines 367-397): in top-to-bottom
order, remember the last numbered bbox, reset on a trusted caption, and
assign the remembered number to close captionless neighbours; returns the
(entry_idx, number) assignments of the page. -/
def stage0Page (pes : List EntryFig) : List (Nat × Nat) :=
  let sorted := pySort (fun a b => (sortKeyY a).le (sortKeyY b)) pes
  let page_max_y := sorted.foldl
    (fun m e =>
      match e.figure_bbox with
      | some b => m.fmax b.y1
      | none => m)
    (ofInt 0)
  let page_height := if (ofInt 0).lt page_max_y then page_max_y else ofInt 1000
  let max_vert_gap := page_height.mul (F 18 100)
  (sorted.foldl
    (fun (st : Option (Nat × BBox) × List (Nat × Nat)) e =>
      match e.figure_bbox with
      | none => st
      | some bbox =>
        match e.figure_number with
        | some n => (some (n, bbox), st.2)
        | none =>
          if e.caption_valid then (none, st.2)
          else
            match st.1 with
            | some (n, lb) =>
              let vd := vertical_distance lb bbox
              if (ofInt 0).le vd && vd.le max_vert_gap &&
                  (F 18 100).le (horizontal_overlap lb bbox) then
                (st.1, st.2 ++ [(e.entry_idx, n)])
              else st
            | none => st)
    (none, []))
  |>.2

/-- Source: stage 0 (lines 357-397): bucket by page (None counting as 0),
collect each page's number assignments, and apply them to the shared
entry_fig records (identified by their unique entry_idx). -/
def stage0Assigns (efs : List EntryFig) : List (Nat × Nat) :=
  let bpa := efs.foldl (fun m e => dictAppend m (e.page_idx.getD 0) e)
    ([] : List (Int × List EntryFig))
  bpa.foldl (fun acc pr => acc ++ stage0Page pr.2) []

def stage0 (efs : List EntryFig) : List EntryFig :=
  efs.map (fun e =>
    match dictGet (stage0Assigns efs) e.entry_idx with
    | some n => { e with figure_number := some n }
    | none => e)

/-- A stage-1 tuple key (page, number) or a stage-2/3 synthesized integer
key of groups_by_number. -/
def GroupKey : Type := (Int × Nat) ⊕ Nat

instance : DecidableEq GroupKey := by
  unfold GroupKey
  infer_instance

/-- Source: stage 1 (lines 399-412): entries with a figure_number are
appended to the (page, number) bucket, the rest to ungrouped, in order. -/
def stage1 (efs : List EntryFig) :
    List (GroupKey × List EntryFig) × List EntryFig :=
  efs.foldl
    (fun st e =>
      match e.figure_number with
      | some num => (dictAppend st.1 (Sum.inl (e.page_idx.getD 0, num)) e, st.2)
      | none => (st.1, st.2 ++ [e]))
    ([], [])

/-- Source: the stage-2 merge decision (lines 451-480): vertical distance
below one tenth of the assumed 1000 page height, width similarity above
0.8, and a caption on the absorbing side (candidate with caption, both
with the candidate's caption lower, or current with caption only). -/
def stage2Merge (cur : EntryFig) (cb : BBox) (cand : EntryFig) (candb : BBox) : Bool :=
  let vd := vertical_distance cb candb
  let ws := width_similarity cb candb
  if vd.lt ((ofInt 1000).mul (F 1 10)) && (F 4 5).lt ws then
    let ccb := cand.caption_bbox.getD ⟨ofInt 0, ofInt 0, ofInt 0, ofInt 0⟩
    if (!cur.has_caption && cand.has_caption) ||
        (cur.has_caption && cand.has_caption && cb.y1.lt ccb.y0) then true
    else if cur.has_caption && !cand.has_caption then true
    else false
  else false

/-- Source: the stage-2 inner while loop (lines 443-484): skip candidates
without a bbox, absorb matching candidates into the group (the absorbed
one becoming current), stop at the first failing candidate, which the
outer loop takes up next. -/
def stage2Inner (cur : EntryFig) (cb : BBox) (grp : List EntryFig) :
    List EntryFig → List EntryFig × List EntryFig
  | [] => (grp, [])
  | cand :: rest =>
    match cand.figure_bbox with
    | none => stage2Inner cur cb grp rest
    | some candb =>
      if stage2Merge cur cb cand candb then stage2Inner cand candb (grp ++ [cand]) rest
      else (grp, cand :: rest)

/-- Source: the stage-2 outer while loop (lines 433-506): fuelled by the
list length (the loop consumes at least the current entry per round);
yields the groups of more than one member in discovery order. -/
def stage2Outer : Nat → List EntryFig → List (List EntryFig)
  | 0, _ => []
  | _, [] => []
  | fuel + 1, e :: rest =>
    match e.figure_bbox with
    | none => stage2Outer fuel rest
    | some b =>
      let gr := stage2Inner e b [e] rest
      (if 1 < gr.1.length then [gr.1] else []) ++ stage2Outer fuel gr.2

/-- Source: stage 2 (lines 414-506): bucket the ungrouped entries by page
(None pages keyed as None), and for every page with more than one entry
register each discovered group under the key len(groups_by_number) +
len(by_page) + 1000 and erase its members from ungrouped. -/
def stage2 (gbn0 : List (GroupKey × List EntryFig)) (ung0 : List EntryFig) :
    List (GroupKey × List EntryFig) × List EntryFig :=
  let by_page := ung0.foldl (fun m e => dictAppend m e.page_idx e)
    ([] : List (Option Int × List EntryFig))
  by_page.foldl
    (fun st pr =>
      if pr.2.length ≤ 1 then st
      else
        let sorted := pySort (fun a b => (sortKeyY a).le (sortKeyY b)) pr.2
        let groups := stage2Outer sorted.length sorted
        groups.foldl
          (fun st2 grp =>
            (dictSet st2.1 (Sum.inr (st2.1.length + by_page.length + 1000)) grp,
              grp.foldl (fun u g => u.erase g) st2.2))
          st)
    (gbn0, ung0)

/-- Source: the stage-3 merge decision (lines 539-561): horizontal gap
strictly between 0 and five percent of the assumed 800 page width, height
similarity above 0.8, and exactly one side with a caption. -/
def stage3Merge (cur : EntryFig) (cb : BBox) (cand : EntryFig) (candb : BBox) : Bool :=
  let hd := candb.x0.sub cb.x1
  let hs := height_similarity cb candb
  if (ofInt 0).lt hd && hd.lt ((ofInt 800).mul (F 5 100)) && (F 4 5).lt hs then
    if (cur.has_caption && !cand.has_caption) || (!cur.has_caption && cand.has_caption) then
      true
    else false
  else false

/-- Source: the stage-3 inner while loop (lines 528-564). -/
def stage3Inner (cur : EntryFig) (cb : BBox) (grp : List EntryFig) :
    List EntryFig → List EntryFig × List EntryFig
  | [] => (grp, [])
  | cand :: rest =>
    match cand.figure_bbox with
    | none => stage3Inner cur cb grp rest
    | some candb =>
      if stage3Merge cur cb cand candb then stage3Inner cand candb (grp ++ [cand]) rest
      else (grp, cand :: rest)

/-- Source: the stage-3 outer while loop (lines 517-576). -/
def stage3Outer : Nat → List EntryFig → List (List EntryFig)
  | 0, _ => []
  | _, [] => []
  | fuel + 1, e :: rest =>
    match e.figure_bbox with
    | none => stage3Outer fuel rest
    | some b =>
      let gr := stage3Inner e b [e] rest
      (if 1 < gr.1.length then [gr.1] else []) ++ stage3Outer fuel gr.2

/-- Source: stage 3 (lines 508-576): like stage 2, over the remaining
ungrouped entries sorted left to right, with synthesized keys
len(groups_by_number) + len(remaining_by_page) + 2000. -/
def stage3 (gbn0 : List (GroupKey × List EntryFig)) (ung0 : List EntryFig) :
    List (GroupKey × List EntryFig) × List EntryFig :=
  let by_page := ung0.foldl (fun m e => dictAppend m e.page_idx e)
    ([] : List (Option Int × List EntryFig))
  by_page.foldl
    (fun st pr =>
      if pr.2.length ≤ 1 then st
      else
        let sorted := pySort (fun a b => (sortKeyX a).le (sortKeyX b)) pr.2
        let groups := stage3Outer sorted.length sorted
        groups.foldl
          (fun st2 grp =>
            (dictSet st2.1 (Sum.inr (st2.1.length + by_page.length + 2000)) grp,
              grp.foldl (fun u g => u.erase g) st2.2))
          st)
    (gbn0, ung0)

/-- A group identifier: the f"{page}-{number}" / raw integer id of a keyed
group, the len+3000 id of a leftover singleton, or the f"p{page}-m{comp}"
id of a stage-4 merged group. -/
inductive GroupId where
  | keyed (k : GroupKey)
  | single (n : Nat)
  | merged (page : Int) (comp : Nat)
deriving DecidableEq

/-- A figure group as returned by group_figures_by_proximity. -/
structure FigureGroup where
  group_id : GroupId
  images : List EntryFig
  caption : List Char
  caption_bbox : Option BBox
  page_idx : Option Int
deriving DecidableEq

/-- Source: the caption pick of the result building (lines 588-597): the
first non-blank caption, preferring any later one that has a bbox and lies
strictly lower than the current pick. -/
def groupCaptionPick (ges : List EntryFig) : List Char × Option BBox :=
  ges.foldl
    (fun st e =>
      let ec := pyStrip e.caption
      if ec.isEmpty then st
      else
        let cap_y :=
          match e.caption_bbox with
          | some cb => cb.y0
          | none => ofInt 0
        if st.1.isEmpty ||
            (e.caption_bbox.isSome &&
              (match st.2 with
               | none => true
               | some gb => gb.y0.lt cap_y)) then (ec, e.caption_bbox)
        else st)
    ([], none)

/-- Source: the group page pick (lines 599-600): the first member whose
page_idx is not None, else None. -/
def groupPagePick (ges : List EntryFig) : Option Int :=
  ges.foldl
    (fun gp e =>
      match gp with
      | some _ => gp
      | none => e.page_idx)
    none

/-- Source: the result building (lines 579-619): one group per
groups_by_number bucket in insertion order, then the leftover ungrouped
entries as singleton groups with ids len(result_groups) + 3000. -/
def buildResults (gbn : List (GroupKey × List EntryFig)) (ung : List EntryFig) :
    List FigureGroup :=
  let keyed := gbn.map (fun pr =>
    let cp := groupCaptionPick pr.2
    (⟨GroupId.keyed pr.1, pr.2, cp.1, cp.2, groupPagePick pr.2⟩ : FigureGroup))
  ung.foldl
    (fun acc e =>
      acc ++ [⟨GroupId.single (acc.length + 3000), [e], e.caption, e.caption_bbox,
        e.page_idx⟩])
    keyed

/-- The bbox union of a group's images (lines 635-641). -/
def groupUnion (g : FigureGroup) : Option BBox :=
  bbox_union (g.images.filterMap (fun img => img.figure_bbox))

/-- Source: the find of the union-find (lines 650-654), fuelled path
compression: while parent[x] != x, set parent[x] to its grandparent and
move there; returns the root and the compressed parent array. -/
def ufFind : Nat → List Nat → Nat → Nat × List Nat
  | 0, par, x => (x, par)
  | fuel + 1, par, x =>
    let px := par.getD x x
    if px = x then (x, par)
    else
      let gp := par.getD px px
      ufFind fuel (par.set x gp) gp

/-- Source: the union of the union-find (lines 656-659). -/
def ufUnion (par : List Nat) (a b : Nat) : List Nat :=
  let fa := ufFind par.length par a
  let fb := ufFind fa.2.length fa.2 b
  if fa.1 ≠ fb.1 then fb.2.set fb.1 fa.1 else fb.2

/-- Source: the caption pick of a merged group (lines 676-691): prefer the
lowest caption that has a full bbox, else the first non-blank caption. -/
def mergedCaptionPick (images : List EntryFig) : List Char × Option BBox :=
  images.foldl
    (fun st img =>
      let ic := pyStrip img.caption
      if ic.isEmpty then st
      else
        match img.caption_bbox with
        | some cb =>
          if (match st.2 with
              | none => true
              | some bb => bb.y0.lt cb.y0) then (ic, some cb)
          else st
        | none => if st.1.isEmpty then (ic, none) else st)
    ([], none)

/-- Source: the per-page body of stage 4 (lines 630-703): pages with one
group pass through; otherwise the groups' bbox unions are merged by the
union-find under _should_merge_group_bboxes and each component becomes one
group with the concatenated images. -/
def stage4Page (page : Int) (gs : List FigureGroup) : List FigureGroup :=
  if gs.length ≤ 1 then gs
  else
    let gb := gs.map groupUnion
    let page_w := gb.foldl
      (fun m ub =>
        match ub with
        | some b => m.fmax b.x1
        | none => m)
      (ofInt 0)
    let page_h := gb.foldl
      (fun m ub =>
        match ub with
        | some b => m.fmax b.y1
        | none => m)
      (ofInt 0)
    let parent1 := (List.range gs.length).foldl
      (fun par i =>
        (List.range gs.length).foldl
          (fun par2 j =>
            if i < j then
              match gb.getD i none, gb.getD j none with
              | some bi, some bj =>
                if should_merge_group_bboxes bi bj page_w page_h then ufUnion par2 i j
                else par2
              | _, _ => par2
            else par2)
          par)
      (List.range gs.length)
    let comps := ((List.range gs.length).foldl
      (fun (st : List Nat × List (Nat × List Nat)) i =>
        let f := ufFind st.1.length st.1 i
        (f.2, dictAppend st.2 f.1 i))
      (parent1, [])).2
    comps.enum.map (fun pr =>
      let images := pr.2.2.foldl
        (fun acc i => acc ++ (gs.getD i ⟨GroupId.single 0, [], [], none, none⟩).images) []
      let bc := mergedCaptionPick images
      (⟨GroupId.merged page (pr.1 + 1), images, bc.1, bc.2, some page⟩ : FigureGroup))

/-- Source: stage 4 (lines 623-703): bucket the result groups by page
(None counting as 0) and merge each page. -/
def stage4 (result_groups : List FigureGroup) : List FigureGroup :=
  let gbp := result_groups.foldl (fun m g => dictAppend m (g.page_idx.getD 0) g)
    ([] : List (Int × List FigureGroup))
  gbp.foldl (fun acc pr => acc ++ stage4Page pr.1 pr.2) []

/-- Source: _group_sort_key (lines 705-713): (page or 0, union y0, union
x0) with a zero box for groups without any bbox. -/
def groupSortLe (a b : FigureGroup) : Bool :=
  let ua := (groupUnion a).getD ⟨ofInt 0, ofInt 0, ofInt 0, ofInt 0⟩
  let ub := (groupUnion b).getD ⟨ofInt 0, ofInt 0, ofInt 0, ofInt 0⟩
  let pa := a.page_idx.getD 0
  let pb := b.page_idx.getD 0
  decide (pa < pb) ||
    (decide (pa = pb) &&
      (ua.y0.lt ub.y0 || (ua.y0.beq ub.y0 && ua.x0.le ub.x0)))

/-- Source: group_figures_by_proximity (lines 252-718): enrichment, stage
0 number propagation, stage 1 strong binding, stage 2/3 proximity
binding, result building, stage 4 connected merging, final sort. -/
def group_figures_by_proximity (o : TextOracle) (entries : List MdEntry)
    (figures : List FigItem) (captions : List CapItem) : List FigureGroup :=
  if entries.isEmpty then []
  else
    let efs0 := stage0 (entryFigures o entries figures captions)
    let s1 := stage1 efs0
    let s2 := stage2 s1.1 s1.2
    let s3 := stage3 s2.1 s2.2
    pySort groupSortLe (stage4 (buildResults s3.1 s3.2))

/-- A trustworthy caption state: when it claims a caption, the caption is
a valid purify_caption output. -/
def GoodCap (o : TextOracle) (cs : CapState) : Prop :=
  cs.has = true → cs.valid = true ∧
    ∃ t, cs.caption = (purify_caption o t).1 ∧ (purify_caption o t).2 = true

/-- A concrete regex oracle for the witnesses: the numbered figure
pattern matches at position 0 with number 7 on any text of at least three
characters, and the other patterns never match. -/
def threeCharOracle : TextOracle :=
  ⟨fun s => if 3 ≤ s.length then some (0, 7) else none,
   fun _ => false, fun _ => false, fun _ => false⟩

/-- First witness entry: caption "Fig7", bbox [0,0,10,10], page 2. -/
def wE1 : MdEntry :=
  ⟨[], ['F', 'i', 'g', '7'], some ⟨ofInt 0, ofInt 0, ofInt 10, ofInt 10⟩, some 2, none, [], []⟩

/-- Second witness entry: caption "Fig7b", bbox [0,20,10,30], page 2. -/
def wE2 : MdEntry :=
  ⟨[], ['F', 'i', 'g', '7', 'b'], some ⟨ofInt 0, ofInt 20, ofInt 10, ofInt 30⟩, some 2, none,
    [], []⟩

/-- Third witness entry: no caption, bbox [0,40,10,50], page 3. -/
def wE3 : MdEntry :=
  ⟨[], [], some ⟨ofInt 0, ofInt 40, ofInt 10, ofInt 50⟩, some 3, none, [], []⟩

/-- The witness entry list. -/
def wEntries : List MdEntry := [wE1, wE2, wE3]

/-- A filler record for indexed reads in the witnesses. -/
def wDummyEF : EntryFig :=
  ⟨⟨[], [], none, none, none, [], []⟩, 0, none, none, none, [], none, false, none, [], false⟩

/-- The first two enriched witness records. -/
def wEF0 : EntryFig := (entryFigures threeCharOracle wEntries [] []).getD 0 wDummyEF

def wEF1 : EntryFig := (entryFigures threeCharOracle wEntries [] []).getD 1 wDummyEF

/-! ### Figure composition and the per-group loop (compose_figure_group,
process_paper) -/

/-- A PIL image as far as compose/process are concerned: its pixel size
and an abstract content identifier supplied by the image oracle. -/
structure PImg where
  w : Int
  h : Int
  content : Nat
deriving DecidableEq

/-- Oracle for the filesystem and the PIL raster operations: opening the
resolved path (none when the file is missing or unreadable),
strip_embedded_caption, add_image_padding, the pixel contents produced by
resize and by pasting onto a fresh canvas, and the is_text_like
classifier. -/
structure PilOracle where
  openImage : List Char → Option PImg
  stripContent : MdEntry → PImg → PImg
  padImage : PImg → PImg
  resizeContent : PImg → Int → Int → Nat
  composeContent : List PImg → Nat
  textLike : PImg → Bool

/-- PIL resize always yields exactly the requested size. -/
def pilResize (po : PilOracle) (img : PImg) (w h : Int) : PImg :=
  ⟨w, h, po.resizeContent img w h⟩

/-- The errors raised by compose_figure_group (lines 1147, 1162, 1166,
1197). -/
inductive ComposeError where
  | no_images
  | no_path
  | not_found
  | no_valid_images
deriving DecidableEq

/-- Source: the image path fallback chain (lines 1160, 1181):
entry_fig["img_path"] or entry["img_path"] or entry.get("image_rel", ""). -/
def composePath (ef : EntryFig) : List Char :=
  if !ef.img_path.isEmpty then ef.img_path
  else if !ef.entry.img_path.isEmpty then ef.entry.img_path
  else ef.entry.image_rel

/-- Loading one member in the multi-image branch (lines 1179-1194): skip
on empty path, missing file or open failure, else strip the embedded
caption and add padding. -/
def loadMember (po : PilOracle) (ef : EntryFig) : Option PImg :=
  let p := composePath ef
  if p.isEmpty then none
  else (po.openImage p).map (fun f => po.padImage (po.stripContent ef.entry f))

/-- Python max over a non-empty int list (max of an empty one raises and
is modelled as 0, unreachable here). -/
def intMax : List Int → Int
  | [] => 0
  | x :: xs => xs.foldl max x

/-- Source: compose_figure_group (lines 1129-1304): singleton groups are
loaded directly (erroring on a missing path or file), pairs are loaded
leniently, erroring only when no member loads, and are stacked, placed
side by side or laid out as a grid depending on the size similarity;
groups of more than two members are truncated to their first member. -/
def compose_figure_group (po : PilOracle) (group : FigureGroup) :
    Except ComposeError (PImg × List Char) :=
  let images := group.images
  if images.isEmpty then .error .no_images
  else
    let images := if 2 < images.length then images.take 1 else images
    if images.length = 1 then
      match images with
      | [] => .error .no_images
      | ef :: _ =>
        let p := composePath ef
        if p.isEmpty then .error .no_path
        else
          match po.openImage p with
          | none => .error .not_found
          | some fig0 =>
            .ok (po.padImage (po.stripContent ef.entry fig0), group.caption)
    else
      let subfigs := images.filterMap (loadMember po)
      let sizes := subfigs.map (fun f => (f.w, f.h))
      if subfigs.isEmpty then .error .no_valid_images
      else if subfigs.length = 1 then
        .ok (subfigs.getD 0 ⟨0, 0, 0⟩, group.caption)
      else
        let wh1 := sizes.getD 0 (0, 0)
        let wh2 := sizes.getD 1 (0, 0)
        let width_sim :=
          if 0 < max wh1.1 wh2.1 then
            (ofInt 1).sub ((Frac.fabs ((ofInt wh1.1).sub (ofInt wh2.1))).div
              (ofInt (max wh1.1 wh2.1)))
          else ofInt 0
        let height_sim :=
          if 0 < max wh1.2 wh2.2 then
            (ofInt 1).sub ((Frac.fabs ((ofInt wh1.2).sub (ofInt wh2.2))).div
              (ofInt (max wh1.2 wh2.2)))
          else ofInt 0
        if subfigs.length = 2 && (F 4 5).lt width_sim then
          let target_w := max wh1.1 wh2.1
          let scale1 := if 0 < wh1.1 then (ofInt target_w).div (ofInt wh1.1) else ofInt 1
          let scale2 := if 0 < wh2.1 then (ofInt target_w).div (ofInt wh2.1) else ofInt 1
          let new_h1 := Frac.pyInt ((ofInt wh1.2).mul scale1)
          let new_h2 := Frac.pyInt ((ofInt wh2.2).mul scale2)
          let img1 := pilResize po (subfigs.getD 0 ⟨0, 0, 0⟩) target_w new_h1
          let img2 := pilResize po (subfigs.getD 1 ⟨0, 0, 0⟩) target_w new_h2
          .ok (⟨target_w, new_h1 + 10 + new_h2, po.composeContent [img1, img2]⟩,
            group.caption)
        else if subfigs.length = 2 && (F 4 5).lt height_sim then
          let target_h := max wh1.2 wh2.2
          let scale1 := if 0 < wh1.2 then (ofInt target_h).div (ofInt wh1.2) else ofInt 1
          let scale2 := if 0 < wh2.2 then (ofInt target_h).div (ofInt wh2.2) else ofInt 1
          let new_w1 := Frac.pyInt ((ofInt wh1.1).mul scale1)
          let new_w2 := Frac.pyInt ((ofInt wh2.1).mul scale2)
          let img1 := pilResize po (subfigs.getD 0 ⟨0, 0, 0⟩) new_w1 target_h
          let img2 := pilResize po (subfigs.getD 1 ⟨0, 0, 0⟩) new_w2 target_h
          .ok (⟨new_w1 + 10 + new_w2, target_h, po.composeContent [img1, img2]⟩,
            group.caption)
        else
          let n := subfigs.length
          let sq := Nat.sqrt n
          let cols0 := sq + (if sq * sq = n then 0 else 1)
          let cols := max 2 (min cols0 3)
          let rows := (n + cols - 1) / cols
          let target_h := intMax (sizes.map Prod.snd)
          let scaled := (subfigs.zip sizes).map (fun fs =>
            let scale := if 0 < fs.2.2 then (ofInt target_h).div (ofInt fs.2.2) else ofInt 1
            let new_w := Frac.pyInt ((ofInt fs.2.1).mul scale)
            pilResize po fs.1 new_w target_h)
          let scaled_widths := scaled.map (fun f => f.w)
          let row_widths := (List.range rows).map (fun r =>
            let s := r * cols
            let e := min (s + cols) n
            ((scaled_widths.drop s).take (e - s)).sum + ((e : Int) - s - 1) * 10)
          let total_w := if row_widths.isEmpty then 0 else intMax row_widths
          let total_h := (rows : Int) * target_h + ((rows : Int) - 1) * 10
          .ok (⟨total_w, total_h, po.composeContent scaled⟩, group.caption)

/-- The keyword-list fields of RenderConfig read by keep_entry. -/
structure KeepCfg where
  results_only : Bool
  heading_positive : List (List Char)
  heading_negative : List (List Char)
  caption_positive : List (List Char)
  caption_negative : List (List Char)

/-- Python str.lower() (sufficient for the ASCII keyword lists). -/
def pyToLower (s : List Char) : List Char := s.map Char.toLower

/-- k occurs at the start of t. -/
def startsWithSub : List Char → List Char → Bool
  | [], _ => true
  | _ :: _, [] => false
  | c :: k, d :: t => c = d && startsWithSub k t

/-- Python substring containment k in t. -/
def containsSub (k : List Char) : List Char → Bool
  | [] => k.isEmpty
  | c :: rest => startsWithSub k (c :: rest) || containsSub k rest

/-- Source: has_keyword (lines 814-816). -/
def has_keyword (text : List Char) (keywords : List (List Char)) : Bool :=
  keywords.any (fun k => containsSub k (pyToLower text))

/-- The keep/skip reasons recorded by keep_entry and the group loop. -/
inductive Reason where
  | all_figures
  | caption_positive
  | heading_positive
  | heading_negative
  | no_results_signal
  | group_compose_error
  | text_like
deriving DecidableEq

/-- Source: keep_entry (lines 988-1004). -/
def keep_entry (cfg : KeepCfg) (entry : MdEntry) : Bool × Reason :=
  let heading_pos := has_keyword entry.heading cfg.heading_positive
  let heading_neg := has_keyword entry.heading cfg.heading_negative
  let caption_pos := has_keyword entry.caption cfg.caption_positive
  let caption_neg := has_keyword entry.caption cfg.caption_negative
  if !cfg.results_only then (true, .all_figures)
  else if caption_pos then (true, .caption_positive)
  else if heading_pos && !caption_neg then (true, .heading_positive)
  else if heading_neg && !caption_pos then (false, .heading_negative)
  else (false, .no_results_signal)

/-- One matched_meta record (lines 2340-2350). -/
structure MetaItem where
  group_id : GroupId
  image_rel : List Char
  image_rels : List (List Char)
  heading : List Char
  caption : List Char
  keep_reason : Reason
  num_subfigures : Nat
deriving DecidableEq

/-- The loop state of the per-group stage of process_paper. -/
structure ProcState where
  tiles : List PImg
  captions_list : List (List Char)
  skipped : List (Reason × Nat)
  matched_meta : List MetaItem
  used : Nat
deriving DecidableEq

/-- skipped[reason] = skipped.get(reason, 0) + 1. -/
def bumpCount (m : List (Reason × Nat)) (r : Reason) : List (Reason × Nat) :=
  dictSet m r ((dictGet m r).getD 0 + 1)

/-- Source: the per-group loop body of process_paper (lines 2302-2351):
empty groups are passed over, kept groups are composed, text-like tiles
and compose failures are counted under skipped, and surviving tiles are
appended together with their re-purified caption and metadata. -/
def processGroup (o : TextOracle) (po : PilOracle) (kc : KeepCfg) (st : ProcState)
    (group : FigureGroup) : ProcState :=
  let group_images := group.images
  if group_images.isEmpty then st
  else
    let first_entry := (group_images.headD wDummyEF).entry
    let kr := keep_entry kc first_entry
    if !kr.1 then { st with skipped := bumpCount st.skipped kr.2 }
    else
      match compose_figure_group po group with
      | .error _ => { st with skipped := bumpCount st.skipped Reason.group_compose_error }
      | .ok fc =>
        if po.textLike fc.1 then { st with skipped := bumpCount st.skipped Reason.text_like }
        else
          let pv := purify_caption o fc.2
          let purified := if pv.2 then pv.1 else []
          let image_rels := group_images.map (fun img => img.entry.image_rel)
          { st with
            tiles := st.tiles ++ [fc.1],
            captions_list := st.captions_list ++ [purified],
            matched_meta := st.matched_meta ++
              [⟨group.group_id, image_rels.headD [], image_rels, first_entry.heading,
                purified, kr.2, group_images.length⟩],
            used := st.used + 1 }

/-- Source: the group loop of process_paper (lines 2295-2351). -/
def process_groups (o : TextOracle) (po : PilOracle) (kc : KeepCfg)
    (groups : List FigureGroup) : ProcState :=
  groups.foldl (processGroup o po kc) ⟨[], [], [], [], 0⟩

/-- Two loop states that agree everywhere except for one extra
group_compose_error count in the second. -/
def SkipRel (st st2 : ProcState) : Prop :=
  st2.tiles = st.tiles ∧ st2.captions_list = st.captions_list ∧
  st2.matched_meta = st.matched_meta ∧ st2.used = st.used ∧
  ∀ r, (dictGet st2.skipped r).getD 0 =
    (dictGet st.skipped r).getD 0 + (if r = Reason.group_compose_error then 1 else 0)

/-- A PIL oracle on which every open fails. -/
def wPilNone : PilOracle :=
  ⟨fun _ => none, fun _ f => f, fun f => f, fun _ _ _ => 0, fun _ => 0, fun _ => false⟩

/-- A keep configuration with results_only off: every group is kept. -/
def wKeepAll : KeepCfg := ⟨false, [], [], [], []⟩

/-- A one-image group whose member has no usable path. -/
def wGroupBad : FigureGroup := ⟨GroupId.single 0, [wDummyEF], [], none, none⟩

namespace Frac

theorem toRat_ofInt (n : Int) : (ofInt n).toRat = (n : ℚ) := by
  simp [ofInt, toRat]

theorem den_cast_ne (a : Frac) : (a.den : ℚ) ≠ 0 := by
  exact_mod_cast a.den_pos.ne'

theorem den_cast_pos (a : Frac) : (0 : ℚ) < (a.den : ℚ) := by
  exact_mod_cast a.den_pos

theorem toRat_add (a b : Frac) : (a.add b).toRat = a.toRat + b.toRat := by
  have ha := a.den_cast_ne
  have hb := b.den_cast_ne
  unfold Frac.add toRat
  push_cast
  field_simp
  try ring

theorem toRat_sub (a b : Frac) : (a.sub b).toRat = a.toRat - b.toRat := by
  have ha := a.den_cast_ne
  have hb := b.den_cast_ne
  unfold Frac.sub toRat
  push_cast
  field_simp
  try ring

theorem toRat_mul (a b : Frac) : (a.mul b).toRat = a.toRat * b.toRat := by
  have ha := a.den_cast_ne
  have hb := b.den_cast_ne
  unfold Frac.mul toRat
  push_cast
  field_simp
  try ring

theorem toRat_neg (a : Frac) : (a.neg).toRat = -a.toRat := by
  unfold Frac.neg toRat
  push_cast
  ring

theorem toRat_inv (a : Frac) (h : a.toRat ≠ 0) : (a.inv).toRat = a.toRat⁻¹ := by
  have hd := a.den_cast_ne
  have hnum : a.num ≠ 0 := by
    intro h0
    apply h
    unfold toRat
    rw [h0]
    simp
  unfold Frac.inv
  by_cases hpos : 0 < a.num
  · simp only [hpos, dif_pos]
    unfold toRat
    rw [inv_div]
  · have hneg : a.num < 0 := by omega
    simp only [hpos, dif_neg, dif_pos, hneg, not_false_iff]
    unfold toRat
    push_cast
    rw [inv_div]
    ring

theorem toRat_div (a b : Frac) (h : b.toRat ≠ 0) : (a.div b).toRat = a.toRat / b.toRat := by
  unfold Frac.div
  rw [toRat_mul, toRat_inv b h, div_eq_mul_inv]

theorem le_iff (a b : Frac) : a.le b = true ↔ a.toRat ≤ b.toRat := by
  unfold Frac.le toRat
  rw [decide_eq_true_iff, div_le_div_iff a.den_cast_pos b.den_cast_pos]
  constructor
  · intro h; exact_mod_cast h
  · intro h; exact_mod_cast h

theorem lt_iff (a b : Frac) : a.lt b = true ↔ a.toRat < b.toRat := by
  unfold Frac.lt toRat
  rw [decide_eq_true_iff, div_lt_div_iff a.den_cast_pos b.den_cast_pos]
  constructor
  · intro h; exact_mod_cast h
  · intro h; exact_mod_cast h

theorem beq_iff (a b : Frac) : a.beq b = true ↔ a.toRat = b.toRat := by
  unfold Frac.beq toRat
  rw [decide_eq_true_iff, div_eq_div_iff a.den_cast_ne b.den_cast_ne]
  constructor
  · intro h; exact_mod_cast h
  · intro h; exact_mod_cast h

theorem lt_eq_false_iff (a b : Frac) : a.lt b = false ↔ b.toRat ≤ a.toRat := by
  rw [← not_lt, ← lt_iff]
  cases h : a.lt b <;> simp [h]

theorem le_eq_false_iff (a b : Frac) : a.le b = false ↔ b.toRat < a.toRat := by
  rw [← not_le, ← le_iff]
  cases h : a.le b <;> simp [h]

theorem toRat_fmax (a b : Frac) : (a.fmax b).toRat = max a.toRat b.toRat := by
  unfold Frac.fmax
  by_cases h : a.lt b = true
  · rw [if_pos h]
    rw [lt_iff] at h
    exact (max_eq_right h.le).symm
  · have h2 : b.toRat ≤ a.toRat := by
      rw [← lt_eq_false_iff]
      exact Bool.not_eq_true _ ▸ (Bool.eq_false_iff.mpr h)
    rw [if_neg h]
    exact (max_eq_left h2).symm

theorem toRat_fmin (a b : Frac) : (a.fmin b).toRat = min a.toRat b.toRat := by
  unfold Frac.fmin
  by_cases h : b.lt a = true
  · rw [if_pos h]
    rw [lt_iff] at h
    exact (min_eq_right h.le).symm
  · have h2 : a.toRat ≤ b.toRat := by
      rw [← lt_eq_false_iff]
      exact Bool.not_eq_true _ ▸ (Bool.eq_false_iff.mpr h)
    rw [if_neg h]
    exact (min_eq_left h2).symm

theorem toRat_fabs (a : Frac) : (fabs a).toRat = |a.toRat| := by
  unfold fabs
  by_cases h : a.lt (ofInt 0) = true
  · rw [if_pos h, toRat_neg]
    rw [lt_iff, toRat_ofInt] at h
    push_cast at h
    rw [abs_of_neg h]
  · have h2 : (ofInt 0).toRat ≤ a.toRat := by
      rw [← lt_eq_false_iff]
      exact Bool.not_eq_true _ ▸ (Bool.eq_false_iff.mpr h)
    rw [toRat_ofInt] at h2
    push_cast at h2
    rw [if_neg h, abs_of_nonneg h2]

end Frac

theorem horizontal_overlap_toRat (a b : BBox) :
    (horizontal_overlap a b).toRat =
      max 0 (min a.x1.toRat b.x1.toRat - max a.x0.toRat b.x0.toRat) /
      max 1 (min (a.x1.toRat - a.x0.toRat) (b.x1.toRat - b.x0.toRat)) := by
  unfold horizontal_overlap
  have hden : ((ofInt 1).fmax ((a.x1.sub a.x0).fmin (b.x1.sub b.x0))).toRat ≠ 0 := by
    rw [Frac.toRat_fmax, Frac.toRat_ofInt]
    push_cast
    exact ne_of_gt (lt_of_lt_of_le one_pos (le_max_left 1 _))
  rw [Frac.toRat_div _ _ hden, Frac.toRat_fmax, Frac.toRat_fmax, Frac.toRat_ofInt,
    Frac.toRat_ofInt, Frac.toRat_sub, Frac.toRat_fmin, Frac.toRat_fmin,
    Frac.toRat_fmax, Frac.toRat_sub, Frac.toRat_sub]
  push_cast
  try rfl

theorem scoreFrac_toRat (fig : FigItem) (cap : CapItem) :
    (scoreFrac fig cap).toRat = caption_score fig cap := by
  unfold scoreFrac caption_score
  rw [Frac.toRat_sub, Frac.toRat_sub, Frac.toRat_mul, Frac.toRat_ofInt]
  push_cast
  ring

theorem F_one_fifth_toRat : (F 1 5).toRat = 1 / 5 := by
  unfold Frac.F Frac.toRat
  norm_num

/-- One matchStep applied to an existing selection keeps some selection
with a score that does not increase. -/
theorem matchStep_mono (fig : FigItem) (cap b : CapItem) (bs : Frac) :
    ∃ b' bs', matchStep fig (some (b, bs)) cap = some (b', bs') ∧ bs'.toRat ≤ bs.toRat := by
  unfold matchStep
  by_cases h1 : cap.page_idx ≠ fig.page_idx
  · rw [if_pos h1]; exact ⟨b, bs, rfl, le_refl _⟩
  · rw [if_neg h1]
    by_cases h2 : cap.bbox.y0.lt fig.bbox.y1 = true
    · rw [if_pos h2]; exact ⟨b, bs, rfl, le_refl _⟩
    · rw [Bool.not_eq_true] at h2
      rw [h2, if_neg Bool.false_ne_true]
      by_cases h3 : (horizontal_overlap fig.bbox cap.bbox).lt (F 1 5) = true
      · rw [if_pos h3]; exact ⟨b, bs, rfl, le_refl _⟩
      · rw [Bool.not_eq_true] at h3
        rw [h3, if_neg Bool.false_ne_true]
        simp only []
        by_cases h4 : (scoreFrac fig cap).lt bs = true
        · rw [if_pos h4]
          exact ⟨cap, scoreFrac fig cap, rfl, ((Frac.lt_iff _ _).mp h4).le⟩
        · rw [Bool.not_eq_true] at h4
          rw [h4, if_neg Bool.false_ne_true]
          exact ⟨b, bs, rfl, le_refl _⟩

/-- One matchStep applied to a passing candidate yields a selection whose
score is at most the candidate's score. -/
theorem matchStep_found (fig : FigItem) (cap : CapItem) (acc : Option (CapItem × Frac))
    (hcand : caption_candidate fig cap) :
    ∃ b bs, matchStep fig acc cap = some (b, bs) ∧ bs.toRat ≤ (scoreFrac fig cap).toRat := by
  obtain ⟨hpage, hbelow, hover⟩ := hcand
  unfold matchStep
  rw [if_neg (by simp [hpage])]
  have h2 : cap.bbox.y0.lt fig.bbox.y1 = false := by
    rw [Frac.lt_eq_false_iff]; exact hbelow
  rw [h2, if_neg Bool.false_ne_true]
  have h3 : (horizontal_overlap fig.bbox cap.bbox).lt (F 1 5) = false := by
    rw [Frac.lt_eq_false_iff, F_one_fifth_toRat]; exact hover
  rw [h3, if_neg Bool.false_ne_true]
  match acc with
  | none => exact ⟨cap, scoreFrac fig cap, rfl, le_refl _⟩
  | some (b0, s0) =>
    simp only []
    by_cases h4 : (scoreFrac fig cap).lt s0 = true
    · rw [if_pos h4]; exact ⟨cap, scoreFrac fig cap, rfl, le_refl _⟩
    · rw [Bool.not_eq_true] at h4
      rw [h4, if_neg Bool.false_ne_true]
      refine ⟨b0, s0, rfl, ?_⟩
      rw [← Frac.lt_eq_false_iff]
      exact h4

/-- A matchStep result is either the unchanged accumulator or the passing
candidate paired with its own score. -/
theorem matchStep_prov (fig : FigItem) (cap : CapItem) (acc : Option (CapItem × Frac))
    (b : CapItem) (bs : Frac) (h : matchStep fig acc cap = some (b, bs)) :
    acc = some (b, bs) ∨ (b = cap ∧ caption_candidate fig cap ∧ bs = scoreFrac fig cap) := by
  unfold matchStep at h
  by_cases h1 : cap.page_idx ≠ fig.page_idx
  · rw [if_pos h1] at h; exact Or.inl h
  · rw [if_neg h1] at h
    rw [not_not] at h1
    by_cases h2 : cap.bbox.y0.lt fig.bbox.y1 = true
    · rw [if_pos h2] at h; exact Or.inl h
    · rw [Bool.not_eq_true] at h2
      rw [h2, if_neg Bool.false_ne_true] at h
      by_cases h3 : (horizontal_overlap fig.bbox cap.bbox).lt (F 1 5) = true
      · rw [if_pos h3] at h; exact Or.inl h
      · rw [Bool.not_eq_true] at h3
        rw [h3, if_neg Bool.false_ne_true] at h
        have hcand : caption_candidate fig cap :=
          ⟨h1, (Frac.lt_eq_false_iff _ _).mp h2,
            F_one_fifth_toRat ▸ (Frac.lt_eq_false_iff _ _).mp h3⟩
        match acc, h with
        | none, h =>
          rcases Prod.mk.injEq .. ▸ Option.some.inj h with ⟨hb, hbs⟩
          exact Or.inr ⟨hb.symm, hcand, hbs.symm⟩
        | some (b0, s0), h =>
          simp only [] at h
          by_cases h4 : (scoreFrac fig cap).lt s0 = true
          · rw [if_pos h4] at h
            rcases Prod.mk.injEq .. ▸ Option.some.inj h with ⟨hb, hbs⟩
            exact Or.inr ⟨hb.symm, hcand, hbs.symm⟩
          · rw [Bool.not_eq_true] at h4
            rw [h4, if_neg Bool.false_ne_true] at h
            exact Or.inl h

/-- Once the fold has selected some caption, it keeps a selection and the
selected score never increases. -/
theorem matchFold_mono (fig : FigItem) :
    ∀ (caps : List CapItem) (b : CapItem) (bs : Frac),
      ∃ b' bs', caps.foldl (matchStep fig) (some (b, bs)) = some (b', bs') ∧
        bs'.toRat ≤ bs.toRat := by
  intro caps
  induction caps with
  | nil => intro b bs; exact ⟨b, bs, rfl, le_refl _⟩
  | cons c rest ih =>
    intro b bs
    rw [List.foldl_cons]
    obtain ⟨b1, s1, hstep, hle1⟩ := matchStep_mono fig c b bs
    rw [hstep]
    obtain ⟨b', bs', hfold, hle⟩ := ih b1 s1
    exact ⟨b', bs', hfold, le_trans hle hle1⟩

/-- If some candidate occurs in the list, the fold ends with a selection
whose score is at most that candidate's score. -/
theorem matchFold_found (fig : FigItem) :
    ∀ (caps : List CapItem) (acc : Option (CapItem × Frac)) (c : CapItem),
      c ∈ caps → caption_candidate fig c →
      ∃ b bs, caps.foldl (matchStep fig) acc = some (b, bs) ∧
        bs.toRat ≤ (scoreFrac fig c).toRat := by
  intro caps
  induction caps with
  | nil => intro acc c hc; exact absurd hc (List.not_mem_nil c)
  | cons d rest ih =>
    intro acc c hc hcand
    rcases List.mem_cons.mp hc with hdc | hmem
    · subst hdc
      rw [List.foldl_cons]
      obtain ⟨b1, s1, hstep, hle1⟩ := matchStep_found fig c acc hcand
      rw [hstep]
      obtain ⟨b', bs', hfold, hle⟩ := matchFold_mono fig rest b1 s1
      exact ⟨b', bs', hfold, le_trans hle hle1⟩
    · rw [List.foldl_cons]
      exact ih (matchStep fig acc d) c hmem hcand

/-- Provenance: a selected caption either was already in the accumulator or
is a list member passing the filter, carrying its own score. -/
theorem matchFold_prov (fig : FigItem) :
    ∀ (caps : List CapItem) (acc : Option (CapItem × Frac)) (b : CapItem) (bs : Frac),
      caps.foldl (matchStep fig) acc = some (b, bs) →
      acc = some (b, bs) ∨ (b ∈ caps ∧ caption_candidate fig b ∧ bs = scoreFrac fig b) := by
  intro caps
  induction caps with
  | nil => intro acc b bs h; exact Or.inl h
  | cons d rest ih =>
    intro acc b bs h
    rw [List.foldl_cons] at h
    rcases ih (matchStep fig acc d) b bs h with hstep | ⟨hmem, hcand, hbs⟩
    · rcases matchStep_prov fig d acc b bs hstep with hacc | ⟨hb, hcand, hbs⟩
      · exact Or.inl hacc
      · subst hb
        exact Or.inr ⟨List.mem_cons_self _ _, hcand, hbs⟩
    · exact Or.inr ⟨List.mem_cons_of_mem d hmem, hcand, hbs⟩

/-- C5: for every image element and every caption list, a caption returned
by match_figures_to_captions for figure i is a member of the caption list
satisfying the filter (same page, caption top at or above nothing less than
the image bottom, horizontal overlap at least 0.2), and among all list
members satisfying the filter it minimizes
score = vertical_gap - 10 * horizontal_overlap. -/
theorem C5_matcher_filter_and_argmin
    (figures : List FigItem) (captions : List CapItem) (i : Nat) (fig : FigItem)
    (cap : CapItem) (hfig : figures.get? i = some fig)
    (hmatch : (i, cap) ∈ match_figures_to_captions figures captions) :
    cap ∈ captions ∧ caption_candidate fig cap ∧
      ∀ c' ∈ captions, caption_candidate fig c' →
        caption_score fig cap ≤ caption_score fig c' := by
  unfold match_figures_to_captions at hmatch
  obtain ⟨p, hp_mem, hp_eq⟩ := List.mem_filterMap.mp hmatch
  obtain ⟨bc, hbest, hpair⟩ := Option.map_eq_some'.mp hp_eq
  have hi : p.1 = i := congrArg Prod.fst hpair
  have hcap : bc.1 = cap := congrArg Prod.snd hpair
  have hfig2 : p.2 = fig := by
    have hmem2 : (p.1, p.2) ∈ figures.enum := hp_mem
    have := List.mk_mem_enum_iff_getElem?.mp hmem2
    rw [hi, ← List.get?_eq_getElem?, hfig] at this
    exact (Option.some.inj this).symm
  rcases matchFold_prov p.2 captions none bc.1 bc.2
      (by rw [hbest]) with hnone | ⟨hmem, hcand, hbs⟩
  · exact absurd hnone (by simp)
  · rw [hfig2] at hcand hbs hbest
    rw [hcap] at hmem hcand hbs
    refine ⟨hmem, hcand, ?_⟩
    intro c' hc' hcand'
    obtain ⟨b2, s2, hfold2, hle2⟩ := matchFold_found fig captions none c' hc' hcand'
    rw [hbest] at hfold2
    have hs2 : bc.2 = s2 := congrArg Prod.snd (Option.some.inj hfold2)
    rw [← scoreFrac_toRat, ← hbs, hs2]
    rw [scoreFrac_toRat] at hle2
    exact hle2

theorem C5_matcher_filter_and_argmin_witness :
    capEx ∈ [capEx] ∧ caption_candidate figEx1 capEx ∧
      ∀ c' ∈ [capEx], caption_candidate figEx1 c' →
        caption_score figEx1 capEx ≤ caption_score figEx1 c' :=
  C5_matcher_filter_and_argmin [figEx1] [capEx] 0 figEx1 capEx (by rfl) (by decide)

/-- C10: match_figures_to_captions assigns at most one caption per image
(the returned association has no duplicate image index), but it does not
reserve captions: on the concrete input figEx1, figEx2, capEx both images
are matched to the very same caption element. -/
theorem C10_matching_not_injective :
    (∀ (figures : List FigItem) (captions : List CapItem),
        ((match_figures_to_captions figures captions).map Prod.fst).Nodup) ∧
      match_figures_to_captions [figEx1, figEx2] [capEx] = [(0, capEx), (1, capEx)] := by
  constructor
  · intro figures captions
    have hsub : ((match_figures_to_captions figures captions).map Prod.fst).Sublist
        (figures.enum.map Prod.fst) := by
      unfold match_figures_to_captions
      generalize figures.enum = l
      induction l with
      | nil => exact List.Sublist.refl _
      | cons a t ih =>
        rw [List.filterMap_cons, List.map_cons]
        rcases hfa : (captions.foldl (matchStep a.2) none) with _ | bc
        · simpa using ih.cons a.1
        · simpa using ih.cons₂ a.1
    exact (List.nodup_enum_map_fst figures).sublist hsub
  · decide

theorem halfBox_vals : halfBox.x0.toRat = 0 ∧ halfBox.y0.toRat = 0 ∧
    halfBox.x1.toRat = 1/2 ∧ halfBox.y1.toRat = 1 := by
  unfold halfBox Frac.F ofInt Frac.toRat
  norm_num

/-- C6 counterexample: halfBox is non-degenerate (x0 < x1 and y0 < y1) yet
_horizontal_overlap(halfBox, halfBox) = (1/2) / max(1, 1/2) = 1/2, not 1.0,
because the denominator is clamped below by 1. -/
theorem C6_overlap_self_counterexample :
    halfBox.x0.toRat < halfBox.x1.toRat ∧ halfBox.y0.toRat < halfBox.y1.toRat ∧
      (horizontal_overlap halfBox halfBox).toRat ≠ 1 := by
  obtain ⟨h0, h1, h2, h3⟩ := halfBox_vals
  refine ⟨by rw [h0, h2]; norm_num, by rw [h1, h3]; norm_num, ?_⟩
  rw [horizontal_overlap_toRat, h0, h2]
  norm_num

/-- C6 amended: _horizontal_overlap(a, a) equals 1.0 for every bbox a whose
width is at least 1 (the denominator clamp max(1, ·) makes boxes thinner
than one unit return their own width instead), and _horizontal_overlap is
symmetric for all bbox pairs. -/
theorem C6_overlap_self_unit_width_and_symm (a b : BBox) :
    ((1:ℚ) ≤ a.x1.toRat - a.x0.toRat → (horizontal_overlap a a).toRat = 1) ∧
      (horizontal_overlap a b).toRat = (horizontal_overlap b a).toRat := by
  constructor
  · intro hw
    rw [horizontal_overlap_toRat, min_self, max_self, min_self]
    have h0 : (0:ℚ) ≤ a.x1.toRat - a.x0.toRat := le_trans zero_le_one hw
    rw [max_eq_right h0, max_eq_right hw]
    exact div_self (by linarith)
  · rw [horizontal_overlap_toRat, horizontal_overlap_toRat,
      min_comm b.x1.toRat a.x1.toRat, max_comm b.x0.toRat a.x0.toRat,
      min_comm (b.x1.toRat - b.x0.toRat) (a.x1.toRat - a.x0.toRat)]

theorem C6_overlap_self_unit_width_and_symm_witness :
    (1:ℚ) ≤ unitBox.x1.toRat - unitBox.x0.toRat ∧
      (horizontal_overlap unitBox unitBox).toRat = 1 ∧
      (horizontal_overlap unitBox halfBox).toRat = (horizontal_overlap halfBox unitBox).toRat := by
  have hw : (1:ℚ) ≤ unitBox.x1.toRat - unitBox.x0.toRat := by
    unfold unitBox ofInt Frac.toRat
    norm_num
  exact ⟨hw, (C6_overlap_self_unit_width_and_symm unitBox halfBox).1 hw,
    (C6_overlap_self_unit_width_and_symm unitBox halfBox).2⟩

/-- C7: whenever purify_caption reports is_valid = false it returns the
empty string as the purified text, for every input text and every
behaviour of the regex engine. -/
theorem C7_invalid_caption_is_empty (o : TextOracle) (text0 : List Char)
    (h : (purify_caption o text0).2 = false) : (purify_caption o text0).1 = [] := by
  unfold purify_caption at h ⊢
  by_cases h1 : text0.isEmpty
  · rw [if_pos h1]
  · rw [if_neg h1] at h ⊢
    dsimp only at h ⊢
    by_cases h2 : (!(o.figSearch (pyStrip text0)).isSome &&
        !(o.looseStart (pyStrip text0))) = true
    · rw [if_pos h2]
    · rw [Bool.not_eq_true] at h2
      rw [h2, if_neg Bool.false_ne_true] at h ⊢
      by_cases h3 : (o.figSearch (pyStrip (List.intercalate ['\n']
          (purifyLoop o [] ((match o.figSearch (pyStrip text0) with
            | some pr => (pyStrip text0).drop pr.1
            | none => pyStrip text0).splitOn '\n'))))).isSome = true
      · rw [if_pos h3] at h
        exact absurd h (by simp)
      · rw [Bool.not_eq_true] at h3
        rw [h3, if_neg Bool.false_ne_true]

theorem C7_invalid_caption_is_empty_witness :
    (purify_caption noMatchOracle ['a']).2 = false ∧
      (purify_caption noMatchOracle ['a']).1 = [] :=
  ⟨by decide, C7_invalid_caption_is_empty noMatchOracle ['a'] (by decide)⟩

/-- purify_caption returns is_valid = true only with a purified text on
which the numbered figure pattern matches; with a sane regex engine the
subsequent extract_figure_number therefore yields a number. -/
theorem purify_valid_extract (o : TextOracle) (hs : o.Sane) (t : List Char)
    (hv : (purify_caption o t).2 = true) :
    ∃ n, extract_figure_number o (purify_caption o t).1 = some n := by
  unfold purify_caption at hv ⊢
  by_cases h1 : t.isEmpty
  · rw [if_pos h1] at hv
    exact absurd hv (by simp)
  · rw [if_neg h1] at hv ⊢
    dsimp only at hv ⊢
    by_cases h2 : (!(o.figSearch (pyStrip t)).isSome && !(o.looseStart (pyStrip t))) = true
    · rw [if_pos h2] at hv
      exact absurd hv (by simp)
    · rw [Bool.not_eq_true] at h2
      rw [h2, if_neg Bool.false_ne_true] at hv ⊢
      by_cases h3 : (o.figSearch (pyStrip (List.intercalate ['\n']
          (purifyLoop o [] ((match o.figSearch (pyStrip t) with
            | some pr => (pyStrip t).drop pr.1
            | none => pyStrip t).splitOn '\n'))))).isSome = true
      · rw [if_pos h3]
        obtain ⟨pr, hpr⟩ := Option.isSome_iff_exists.mp h3
        have hne := hs _ pr hpr
        unfold extract_figure_number
        rw [if_neg (by simpa using hne), hpr]
        exact ⟨pr.2, rfl⟩
      · rw [Bool.not_eq_true] at h3
        rw [h3, if_neg Bool.false_ne_true] at hv
        exact absurd hv (by simp)

theorem pyRstrip_length_le (s : List Char) : (pyRstrip s).length ≤ s.length := by
  unfold pyRstrip
  rw [List.length_reverse]
  calc (s.reverse.dropWhile pyIsSpace).length ≤ s.reverse.length :=
        (List.dropWhile_sublist pyIsSpace).length_le
    _ = s.length := List.length_reverse s

/-- C8 counterexample: with the six-pixels-per-character metric, text
"aa bb", max_width 1 and max_lines 1, wrap_lines truncates and returns the
bare ellipsis as its last line, whose measured width 18 exceeds max_width 1
(the chop loop ran out of characters before "..." fitted). -/
theorem C8_truncated_line_can_exceed_max_width :
    wrap_lines_core sixPerChar ['a', 'a', ' ', 'b', 'b'] 1 1 = ([ellipsisChars], true) ∧
      1 < sixPerChar ellipsisChars := by
  constructor
  · decide
  · decide

/-- The chop loop always yields a line ending in the ellipsis, and that
line fits max_width unless it is the bare ellipsis. -/
theorem truncLastAux_spec (m : List Char → Int) (mw : Int) :
    ∀ (fuel : Nat) (last : List Char), last.length < fuel →
      (∃ stem, truncLastAux m mw fuel last = stem ++ ellipsisChars) ∧
        (m (truncLastAux m mw fuel last) ≤ mw ∨
          truncLastAux m mw fuel last = ellipsisChars) := by
  intro fuel
  induction fuel with
  | zero => intro last h; omega
  | succ n ih =>
    intro last hlen
    unfold truncLastAux
    by_cases hc : mw < m (last ++ ellipsisChars) ∧ last ≠ []
    · rw [if_pos hc]
      apply ih
      have h1 : last.length ≠ 0 := fun h0 => hc.2 (List.length_eq_zero.mp h0)
      calc (pyRstrip last.dropLast).length ≤ last.dropLast.length := pyRstrip_length_le _
        _ = last.length - 1 := List.length_dropLast last
        _ < n := by omega
    · rw [if_neg hc]
      by_cases he : last.isEmpty
      · rw [if_pos he]
        exact ⟨⟨[], rfl⟩, Or.inr rfl⟩
      · rw [if_neg he]
        refine ⟨⟨last, rfl⟩, Or.inl ?_⟩
        rcases not_and_or.mp hc with h1 | h2
        · exact not_lt.mp h1
        · exact absurd (show last.isEmpty = true by rw [not_not.mp h2]; rfl) he

theorem truncLast_spec (m : List Char → Int) (mw : Int) (last : List Char) :
    (∃ stem, truncLast m mw last = stem ++ ellipsisChars) ∧
      (m (truncLast m mw last) ≤ mw ∨ truncLast m mw last = ellipsisChars) :=
  truncLastAux_spec m mw (last.length + 1) last (Nat.lt_succ_self _)

/-- The finishing step returns at most max_lines lines (for non-negative
max_lines) and, on truncation with a non-empty result, ends with an
ellipsis-suffixed line that fits unless it is the bare ellipsis. -/
theorem wrapFinish_spec (m : List Char → Int) (mw ml : Int) (hml : 0 ≤ ml)
    (lines2 : List (List Char)) (t1 : Bool) :
    (((wrapFinish m mw ml lines2 t1).1.length : Int) ≤ ml) ∧
      ((wrapFinish m mw ml lines2 t1).2 = true → (wrapFinish m mw ml lines2 t1).1 ≠ [] →
        (∃ stem, (wrapFinish m mw ml lines2 t1).1.getLastD [] = stem ++ ellipsisChars) ∧
          (m ((wrapFinish m mw ml lines2 t1).1.getLastD []) ≤ mw ∨
            (wrapFinish m mw ml lines2 t1).1.getLastD [] = ellipsisChars)) := by
  unfold wrapFinish
  dsimp only
  by_cases hs : ml < (lines2.length : Int)
  · rw [decide_eq_true hs]
    have hlen3 : ((pySlice lines2 ml).length : Int) ≤ ml := by
      unfold pySlice
      rw [if_pos hml]
      calc ((lines2.take ml.toNat).length : Int) ≤ (ml.toNat : Int) := by
            exact_mod_cast List.length_take_le _ _
        _ = ml := Int.toNat_of_nonneg hml
    rw [if_pos rfl, Bool.or_true, Bool.true_and]
    by_cases he : (pySlice lines2 ml).isEmpty
    · rw [he]
      rw [if_neg (by simp)]
      refine ⟨hlen3, ?_⟩
      intro _ hne
      exact absurd (List.isEmpty_iff.mp he) hne
    · have hef : (pySlice lines2 ml).isEmpty = false := Bool.eq_false_iff.mpr he
      rw [hef]
      simp only [Bool.not_false]
      rw [if_pos trivial]
      constructor
      · rw [List.length_append, List.length_dropLast]
        simp only [List.length_cons, List.length_nil]
        have hpos : 0 < (pySlice lines2 ml).length := by
          rcases Nat.eq_zero_or_pos (pySlice lines2 ml).length with h0 | h0
          · exact absurd (by rw [List.length_eq_zero.mp h0]; rfl) he
          · exact h0
        omega
      · intro _ _
        rw [List.getLastD_concat]
        exact truncLast_spec m mw _
  · rw [decide_eq_false hs, if_neg Bool.false_ne_true, Bool.or_false]
    have hlen3 : ((lines2.length : Int)) ≤ ml := by omega
    by_cases ht : (t1 && !lines2.isEmpty) = true
    · rw [if_pos ht]
      constructor
      · rw [List.length_append, List.length_dropLast]
        simp only [List.length_cons, List.length_nil]
        have hne : ¬lines2.isEmpty = true := by
          intro h
          rw [h] at ht
          simp at ht
        have hpos : 0 < lines2.length := by
          rcases Nat.eq_zero_or_pos lines2.length with h0 | h0
          · exact absurd (by rw [List.length_eq_zero.mp h0]; rfl) hne
          · exact h0
        omega
      · intro _ _
        rw [List.getLastD_concat]
        exact truncLast_spec m mw _
    · rw [if_neg ht]
      refine ⟨hlen3, ?_⟩
      intro htr hne
      exfalso
      rw [Bool.not_eq_true, Bool.and_eq_false_iff] at ht
      rcases ht with ht | ht
      · exact Bool.false_ne_true (ht.symm.trans (show t1 = true from htr))
      · apply hne
        rw [Bool.not_eq_false'] at ht
        exact List.isEmpty_iff.mp ht

/-- C8 amended: for every font metric, text, max_width and every
non-negative max_lines, wrap_lines returns at most max_lines lines, and
whenever truncation occurs with a non-empty result the last line is the
(possibly empty) kept prefix suffixed with the ellipsis; its measured
width is at most max_width except when it is the bare ellipsis, which is
emitted even if the ellipsis alone exceeds max_width. -/
theorem C8_wrap_lines_amended (m : List Char → Int) (text : List Char) (mw ml : Int)
    (hml : 0 ≤ ml) :
    ((wrap_lines m text mw ml).length : Int) ≤ ml ∧
      ((wrap_lines_core m text mw ml).2 = true → wrap_lines m text mw ml ≠ [] →
        (∃ stem, (wrap_lines m text mw ml).getLastD [] = stem ++ ellipsisChars) ∧
          (m ((wrap_lines m text mw ml).getLastD []) ≤ mw ∨
            (wrap_lines m text mw ml).getLastD [] = ellipsisChars)) := by
  unfold wrap_lines wrap_lines_core
  by_cases hw : (pySplit (text.map (fun c => if c = '\n' then ' ' else c))).isEmpty
  · rw [if_pos hw]
    exact ⟨by simpa using hml, by intro h; simp at h⟩
  · rw [if_neg hw]
    dsimp only
    exact wrapFinish_spec m mw ml hml _ _

theorem C8_wrap_lines_amended_witness :
    ((wrap_lines sixPerChar ['a', 'a', ' ', 'b', 'b'] 1 1).length : Int) ≤ 1 ∧
      ((wrap_lines_core sixPerChar ['a', 'a', ' ', 'b', 'b'] 1 1).2 = true →
        wrap_lines sixPerChar ['a', 'a', ' ', 'b', 'b'] 1 1 ≠ [] →
        (∃ stem, (wrap_lines sixPerChar ['a', 'a', ' ', 'b', 'b'] 1 1).getLastD [] =
            stem ++ ellipsisChars) ∧
          (sixPerChar ((wrap_lines sixPerChar ['a', 'a', ' ', 'b', 'b'] 1 1).getLastD []) ≤ 1 ∨
            (wrap_lines sixPerChar ['a', 'a', ' ', 'b', 'b'] 1 1).getLastD [] =
              ellipsisChars)) :=
  C8_wrap_lines_amended sixPerChar ['a', 'a', ' ', 'b', 'b'] 1 1 (by decide)

/-- pyInt computes the floor for non-negative values and the ceiling for
negative values (truncation toward zero). -/
theorem Frac.pyInt_eq (a : Frac) :
    a.pyInt = if 0 ≤ a.toRat then ⌊a.toRat⌋ else ⌈a.toRat⌉ := by
  have hd := a.den_pos
  have hdq := a.den_cast_pos
  have hcast : (a.den : ℚ) = ((a.den.toNat : ℕ) : ℚ) := by
    exact_mod_cast (congrArg (fun z : ℤ => (z : ℚ)) (Int.toNat_of_nonneg hd.le)).symm
  by_cases hn : 0 ≤ a.num
  · have h1 : 0 ≤ a.toRat := by
      unfold Frac.toRat
      positivity
    rw [if_pos h1]
    unfold Frac.pyInt Frac.toRat
    rw [Int.tdiv_eq_ediv hn hd.le, hcast, Rat.floor_intCast_div_natCast,
      Int.toNat_of_nonneg hd.le]
  · push_neg at hn
    have h1 : ¬ 0 ≤ a.toRat := by
      unfold Frac.toRat
      rw [not_le]
      apply div_neg_of_neg_of_pos _ hdq
      exact_mod_cast hn
    rw [if_neg h1]
    unfold Frac.pyInt Frac.toRat
    rw [show ⌈(a.num : ℚ) / (a.den : ℚ)⌉ = -⌊-((a.num : ℚ) / (a.den : ℚ))⌋ by
      rw [Int.floor_neg]; ring]
    rw [← neg_div, show -((a.num : ℚ)) = ((-a.num : ℤ) : ℚ) by push_cast; ring]
    rw [hcast, Rat.floor_intCast_div_natCast, Int.toNat_of_nonneg hd.le]
    rw [show a.num.tdiv a.den = -((-a.num).tdiv a.den) by rw [Int.neg_tdiv]; ring]
    rw [Int.tdiv_eq_ediv (by omega) hd.le]

theorem Frac.pyInt_congr (a b : Frac) (h : a.toRat = b.toRat) : a.pyInt = b.pyInt := by
  rw [Frac.pyInt_eq, Frac.pyInt_eq, h]

theorem Frac.pyInt_ofInt (n : Int) : (ofInt n).pyInt = n := by
  unfold Frac.pyInt ofInt
  simp

theorem Frac.one_le_toRat_of_one_le_pyInt (a : Frac) (h : 1 ≤ a.pyInt) : 1 ≤ a.toRat := by
  rw [Frac.pyInt_eq] at h
  by_cases h0 : 0 ≤ a.toRat
  · rw [if_pos h0] at h
    have := Int.le_floor.mp h
    exact_mod_cast this
  · rw [if_neg h0] at h
    push_neg at h0
    have : ⌈a.toRat⌉ ≤ 0 := Int.ceil_le.mpr (by exact_mod_cast h0.le)
    omega

theorem Frac.cast_pyInt_le (a : Frac) (h : 0 ≤ a.toRat) : (a.pyInt : ℚ) ≤ a.toRat := by
  rw [Frac.pyInt_eq, if_pos h]
  exact Int.floor_le _

/-- Cancelled scaling: the value of w * (t / w) is t (for nonzero w). -/
theorem mul_div_self_toRat (w : Int) (t : Frac) (hw : w ≠ 0) :
    ((ofInt w).mul (t.div (ofInt w))).toRat = t.toRat := by
  have hwq : ((ofInt w).toRat) ≠ 0 := by
    rw [Frac.toRat_ofInt]
    exact_mod_cast hw
  rw [Frac.toRat_mul, Frac.toRat_div _ _ hwq, Frac.toRat_ofInt]
  field_simp

/-- C2: evaluating pack_tiles_hybrid at the failing input: one 50 x 50
tile, no caption, canvas 100 x 1 under the default configuration blits the
clamped 1 x 1 tile at (30, 3): its bottom edge 3 + 1 = 4 exceeds
canvas_h = 1, contradicting the claimed in-bounds packer invariant (the
padding 3 already exceeds the canvas height). -/
theorem C2_hybrid_out_of_bounds_on_small_canvas :
    (pack_tiles_hybrid zeroFont defaultCfg [⟨50, 50⟩] [[]] 100 1).1 =
      [[⟨30, 3, 1, 1, 50, 50, 39, 39⟩]] ∧ ¬((3 : Int) + 1 ≤ 1) :=
  ⟨by decide, by decide⟩

/-- C3 counterexample: one wide 70 x 50 tile, no caption, canvas 100 x 60,
default configuration: the planned 94 x 67 tile is shrunk to fit the free
57-pixel height and rendered as 79 x 57, and no single scale factor s
satisfies 79 = 70 s and 57 = 50 s exactly (integer truncation makes the
two dimensions scale differently). -/
theorem C3_render_not_exact_common_factor :
    (pack_tiles_hybrid zeroFont defaultCfg [⟨70, 50⟩] [[]] 100 60).1 =
      [[⟨3, 3, 79, 57, 70, 50, 94, 67⟩]] ∧
      ¬∃ s : ℚ, (79 : ℚ) = 70 * s ∧ (57 : ℚ) = 50 * s := by
  refine ⟨by decide, ?_⟩
  rintro ⟨s, h1, h2⟩
  have hs : s = 79 / 70 := by linarith
  rw [hs] at h2
  norm_num at h2

theorem pyInt_mul_one (n : Int) : Frac.pyInt ((ofInt n).mul (ofInt 1)) = n := by
  rw [Frac.pyInt_congr ((ofInt n).mul (ofInt 1)) (ofInt n)
    (by rw [Frac.toRat_mul, Frac.toRat_ofInt, Frac.toRat_ofInt]; push_cast; ring)]
  exact Frac.pyInt_ofInt n

/-- Both rendered dimensions produced by shrink_to_fit arise from the plan
under one common scale factor with floor-and-min-1 rounding, provided both
results are positive. -/
theorem shrink_to_fit_spec (w h mw mh : Int)
    (hw : 0 < (shrink_to_fit w h mw mh).1) (hh : 0 < (shrink_to_fit w h mw mh).2) :
    ∃ s : Frac, (shrink_to_fit w h mw mh).1 = max 1 (Frac.pyInt ((ofInt w).mul s)) ∧
      (shrink_to_fit w h mw mh).2 = max 1 (Frac.pyInt ((ofInt h).mul s)) := by
  unfold shrink_to_fit at hw hh ⊢
  by_cases hc : mw < w ∨ mh < h
  · rw [if_pos hc]
    exact ⟨((if mw < w then (ofInt mw).div (ofInt w) else ofInt 1).fmin
      (if mh < h then (ofInt mh).div (ofInt h) else ofInt 1)), rfl, rfl⟩
  · rw [if_neg hc] at hw hh ⊢
    refine ⟨ofInt 1, ?_, ?_⟩
    · rw [pyInt_mul_one]
      omega
    · rw [pyInt_mul_one]
      omega

/-- scaled_size: the height always is the source height under the scale
target/width with floor-and-min-1 rounding; the width either is the
matching scaled width or collapses to a non-positive value (the
target_w < 1 degenerate clamp). -/
theorem scaled_size_spec (t : Tile) (target : Frac) (ht : 0 < t.w) :
    (scaled_size t target).2 =
        max 1 (Frac.pyInt ((ofInt t.h).mul (target.div (ofInt t.w)))) ∧
      ((scaled_size t target).1 =
          max 1 (Frac.pyInt ((ofInt t.w).mul (target.div (ofInt t.w)))) ∨
        (scaled_size t target).1 ≤ 0) := by
  unfold scaled_size
  dsimp only
  by_cases hcl : target.lt
      (ofInt (max 1 (Frac.pyInt ((ofInt t.w).mul (target.div (ofInt t.w)))))) = true
  · rw [if_pos hcl]
    refine ⟨rfl, Or.inr ?_⟩
    by_contra hpos
    push_neg at hpos
    have h1 : 1 ≤ Frac.pyInt target := hpos
    have h2 : 1 ≤ target.toRat := Frac.one_le_toRat_of_one_le_pyInt target h1
    have hval : ((ofInt t.w).mul (target.div (ofInt t.w))).toRat = target.toRat :=
      mul_div_self_toRat t.w target (by omega)
    have h3 : Frac.pyInt ((ofInt t.w).mul (target.div (ofInt t.w))) = Frac.pyInt target :=
      Frac.pyInt_congr _ _ hval
    have h4 : max 1 (Frac.pyInt ((ofInt t.w).mul (target.div (ofInt t.w)))) =
        Frac.pyInt target := by omega
    rw [Frac.lt_iff] at hcl
    rw [h4, Frac.toRat_ofInt] at hcl
    have h5 : (Frac.pyInt target : ℚ) ≤ target.toRat :=
      Frac.cast_pyInt_le target (by linarith)
    linarith
  · rw [if_neg hcl]
    exact ⟨rfl, Or.inl rfl⟩

/-- Every tile blit of renderItemCore keeps the bookkeeping fields of its
item and its rendered size is a common-factor rounding of the plan. -/
theorem renderItemCore_spec (canvas_w canvas_h csp : Int) (ce : Bool) (bar : Option Int)
    (xf yf wp hp sw sh : Int) (paste : Paste)
    (hmem : paste ∈ (renderItemCore canvas_w canvas_h csp ce bar xf yf wp hp sw sh).1) :
    paste.srcW = sw ∧ paste.srcH = sh ∧ paste.planW = wp ∧ paste.planH = hp ∧
      RenderRel paste := by
  rcases bar with _ | barH
  · by_cases hce : ce = true
    all_goals
      unfold renderItemCore at hmem
      dsimp only at hmem
      first
        | simp only [if_pos hce] at hmem
        | simp only [if_neg hce] at hmem
      split at hmem
      · rename_i hg
        obtain ⟨s, hs1, hs2⟩ := shrink_to_fit_spec _ _ _ _ hg.1 hg.2
        rcases List.mem_singleton.mp hmem with h
        rw [h]
        exact ⟨rfl, rfl, rfl, rfl, s, hs1, le_of_eq hs2⟩
      · exact absurd hmem (List.not_mem_nil paste)
  · by_cases hce : ce = true
    · unfold renderItemCore at hmem
      dsimp only at hmem
      simp only [if_pos hce] at hmem
      split at hmem
      · rename_i hg
        obtain ⟨s, hs1, hs2⟩ := shrink_to_fit_spec _ _ _ _ hg.1 hg.2
        rcases List.mem_singleton.mp hmem with h
        rw [h]
        exact ⟨rfl, rfl, rfl, rfl, s, hs1, le_of_eq hs2⟩
      · exact absurd hmem (List.not_mem_nil paste)
    · unfold renderItemCore at hmem
      dsimp only at hmem
      simp only [if_neg hce] at hmem
      split at hmem
      · rename_i hg
        obtain ⟨s, hs1, hs2⟩ := shrink_to_fit_spec _ _ _ _ hg.1 hg.2
        split at hmem
        · rename_i hov
          split at hmem
          · rename_i hroom
            have hh2 : max 1 (canvas_h - barH - yf - csp) ≤
                (shrink_to_fit wp hp (canvas_w - xf)
                  (canvas_h - yf - (barH + csp))).2 := by
              have h2 := hg.2
              omega
            split at hmem
            all_goals split at hmem
            all_goals
              rcases List.mem_cons.mp hmem with h | h
              · rw [h]
                exact ⟨rfl, rfl, rfl, rfl, s, hs1, le_of_eq hs2⟩
              · rcases List.mem_singleton.mp h with h2
                rw [h2]
                exact ⟨rfl, rfl, rfl, rfl, s, hs1, le_trans hh2 (le_of_eq hs2)⟩
          · rcases List.mem_singleton.mp hmem with h
            rw [h]
            exact ⟨rfl, rfl, rfl, rfl, s, hs1, le_of_eq hs2⟩
        · split at hmem
          all_goals split at hmem
          all_goals
            rcases List.mem_singleton.mp hmem with h
            rw [h]
            exact ⟨rfl, rfl, rfl, rfl, s, hs1, le_of_eq hs2⟩
      · exact absurd hmem (List.not_mem_nil paste)

/-- Invariant preservation along a left fold. -/
theorem foldl_inv {α σ : Type} (P : σ → Prop) (f : σ → α → σ) :
    ∀ (l : List α) (s : σ), P s → (∀ a ∈ l, ∀ t, P t → P (f t a)) → P (l.foldl f s) := by
  intro l
  induction l with
  | nil => exact fun s hs _ => hs
  | cons a l ih =>
    intro s hs hstep
    exact ih (f s a) (hstep a (List.mem_cons_self a l) s hs)
      (fun b hb t htp => hstep b (List.mem_cons_of_mem a hb) t htp)

/-- Every placement produced by one layoutStep is either an old placement
or has the common-scale shape. -/
theorem layoutStep_mem (col_w : Frac) (ah g : Int) (scale : Frac)
    (st : List Frac × List MItem) (tile : Tile) (hw : 0 < tile.w) (q : MItem)
    (hq : q ∈ (layoutStep col_w ah g scale st tile).2) :
    q ∈ st.2 ∨ MShape q := by
  unfold layoutStep at hq
  dsimp only at hq
  rcases List.mem_append.mp hq with h | h
  · exact Or.inl h
  · right
    repeat' split at h
    all_goals dsimp only at h
    all_goals rcases List.mem_singleton.mp h with rfl
    all_goals
      first
        | exact ⟨_, Or.inl rfl, rfl⟩
        | exact ⟨col_w.div (ofInt tile.w),
            Or.inr ((Frac.pyInt_congr _ _
              (mul_div_self_toRat tile.w col_w (ne_of_gt hw))).symm), rfl⟩

/-- Every placement of layout_page has the common-scale shape. -/
theorem layout_page_shape (col_w : Frac) (ah g : Int) (cols : Nat)
    (page_tiles : List Tile) (scale : Frac) (hw : ∀ t ∈ page_tiles, 0 < t.w) :
    ∀ q ∈ (layout_page col_w ah g cols page_tiles scale).1, MShape q := by
  intro q hq
  unfold layout_page at hq
  dsimp only at hq
  exact foldl_inv (fun st => ∀ r ∈ st.2, MShape r) (layoutStep col_w ah g scale)
    page_tiles (List.replicate cols (ofInt 0), [])
    (fun r hr => absurd hr (List.not_mem_nil r))
    (fun t ht st hst r hr =>
      (layoutStep_mem col_w ah g scale st t (hw t ht) r hr).elim (hst r) id)
    q hq

/-- Every tile blit of a masonry page satisfies the masonry common-scale
and border-clamp relation. -/
theorem masonryPage_rel (cfg : RenderCfg)
    (canvas_w canvas_h padding gutter aw ah : Int) (col_w : Frac) (cols : Nat)
    (page_tiles : List Tile) (hw : ∀ t ∈ page_tiles, 0 < t.w) :
    ∀ p ∈ (masonryPage cfg canvas_w canvas_h padding gutter aw ah col_w cols page_tiles).1,
      MasonryRel canvas_w canvas_h p := by
  intro p hp
  unfold masonryPage at hp
  dsimp only at hp
  obtain ⟨q, hq, hfq⟩ := List.mem_filterMap.mp hp
  have hshape : MShape q := by
    clear hfq
    repeat' split at hq
    all_goals (try dsimp only at hq)
    all_goals
      first
        | exact layout_page_shape _ _ _ _ _ _ hw q hq
        | (rcases List.mem_singleton.mp hq with rfl
           exact ⟨_, Or.inl rfl, rfl⟩)
  split at hfq
  · rename_i hpos
    obtain ⟨s, hw', hh'⟩ := hshape
    cases Option.some.inj hfq
    exact ⟨s, hw', hh', rfl, rfl⟩
  · exact absurd hfq (Option.noConfusion)

/-- Every tile blit produced by the masonry paging loop satisfies the
masonry relation. -/
theorem masonryLoop_rel (cfg : RenderCfg)
    (canvas_w canvas_h padding gutter aw ah : Int) (col_w : Frac) (cols per_page : Nat) :
    ∀ (fuel : Nat) (ts : List Tile), (∀ t ∈ ts, 0 < t.w) →
      ∀ pg ∈ (masonryLoop cfg canvas_w canvas_h padding gutter aw ah col_w cols
          per_page fuel ts).1,
        ∀ p ∈ pg, MasonryRel canvas_w canvas_h p := by
  intro fuel
  induction fuel with
  | zero =>
    intro ts hts pg hpg
    cases ts with
    | nil => exact absurd hpg (List.not_mem_nil pg)
    | cons a l => exact absurd hpg (List.not_mem_nil pg)
  | succ n ih =>
    intro ts hts pg hpg
    cases ts with
    | nil => exact absurd hpg (List.not_mem_nil pg)
    | cons a l =>
      simp only [masonryLoop] at hpg
      rcases List.mem_cons.mp hpg with h | h
      · intro p hp
        rw [h] at hp
        exact masonryPage_rel cfg canvas_w canvas_h padding gutter aw ah col_w cols
          ((a :: l).take per_page) (fun t ht => hts t (List.take_subset _ _ ht)) p hp
      · exact ih ((a :: l).drop per_page) (fun t ht => hts t (List.drop_subset _ _ ht)) pg h

/-- Every tile blit of a flushed page whose entries have the plan shape
satisfies the render and plan relations. -/
theorem flush_page_spec (fo : FontOracle) (cfg : RenderCfg)
    (canvas_w canvas_h padding gutter : Int) (current : List HybridItem) (used_h : Frac)
    (hcur : ∀ item ∈ current, PlanShape item) (pg : List Paste) (st : Stat)
    (hfl : flush_page fo cfg canvas_w canvas_h padding gutter current used_h = some (pg, st)) :
    ∀ p ∈ pg, RenderRel p ∧ PlanRel p := by
  unfold flush_page at hfl
  dsimp only at hfl
  split at hfl
  · exact absurd hfl Option.noConfusion
  · injection hfl with h
    injection h with h1 h2
    subst h1
    intro p hp
    rcases List.mem_flatten.mp hp with ⟨l, hl, hpl⟩
    rcases List.mem_map.mp hl with ⟨r, hr, rfl⟩
    rcases List.mem_map.mp hr with ⟨item, hitem, rfl⟩
    unfold renderItem at hpl
    obtain ⟨h1, h2, h3, h4, h5⟩ := renderItemCore_spec _ _ _ _ _ _ _ _ _ _ _ p hpl
    obtain ⟨s, wcap, hsh, hsw⟩ := hcur item hitem
    refine ⟨h5, s, wcap, ?_, ?_⟩
    · rw [h4, h2]
      exact hsh
    · rcases hsw with hsw | hsw
      · left
        rw [h3, h1]
        exact hsw
      · right
        rw [h3]
        exact hsw

/-- hybridFlush preserves the loop invariant. -/
theorem hybridFlush_inv (fo : FontOracle) (cfg : RenderCfg)
    (canvas_w canvas_h padding gutter : Int) (st : HybridState) (h : HInv st) :
    HInv (hybridFlush fo cfg canvas_w canvas_h padding gutter st) := by
  unfold hybridFlush
  cases hfl : flush_page fo cfg canvas_w canvas_h padding gutter st.current st.used_h with
  | none => exact h
  | some ps =>
    obtain ⟨pg, s⟩ := ps
    refine ⟨?_, h.2.1, h.2.2⟩
    intro page hpage p hp
    rcases List.mem_append.mp hpage with hh | hh
    · exact h.1 page hh p hp
    · rcases List.mem_singleton.mp hh with rfl
      exact flush_page_spec fo cfg canvas_w canvas_h padding gutter st.current st.used_h
        h.2.1 page s hfl p hp

/-- maybeFlush preserves the loop invariant. -/
theorem maybeFlush_inv (fo : FontOracle) (cfg : RenderCfg)
    (canvas_w canvas_h padding gutter available_h : Int) (st : HybridState) (total_h : Int)
    (h : HInv st) :
    HInv (maybeFlush fo cfg canvas_w canvas_h padding gutter available_h st total_h) := by
  unfold maybeFlush
  split
  · exact ⟨(hybridFlush_inv fo cfg canvas_w canvas_h padding gutter st h).1,
      fun item hitem => absurd hitem (List.not_mem_nil item),
      (hybridFlush_inv fo cfg canvas_w canvas_h padding gutter st h).2.2⟩
  · exact h

/-- placePendingAlone preserves the loop invariant when the placed tile has
positive width. -/
theorem placePendingAlone_inv (fo : FontOracle) (cfg : RenderCfg)
    (canvas_w canvas_h padding gutter available_w available_h : Int) (col_w : Frac)
    (clampW : Bool) (st : HybridState) (ptile : Tile) (pcap : List Char)
    (h : HInv st) (hpw : 0 < ptile.w) :
    HInv (placePendingAlone fo cfg canvas_w canvas_h padding gutter available_w available_h
      col_w clampW st ptile pcap) := by
  unfold placePendingAlone
  dsimp only
  refine ⟨(maybeFlush_inv _ _ _ _ _ _ _ _ _ h).1, ?_,
    fun pc hpc => absurd hpc (Option.not_mem_none pc)⟩
  intro item hitem
  rcases List.mem_append.mp hitem with hh | hh
  · exact (maybeFlush_inv _ _ _ _ _ _ _ _ _ h).2.1 item hh
  · rcases List.mem_singleton.mp hh with rfl
    obtain ⟨hsh, hsw⟩ := scaled_size_spec ptile col_w hpw
    refine ⟨col_w.div (ofInt ptile.w),
      if clampW = true then Frac.pyInt col_w else (scaled_size ptile col_w).1, hsh, ?_⟩
    rcases hsw with hsw | hsw
    · left
      by_cases hcl : clampW = true
      · rw [if_pos hcl, if_pos hcl, hsw]
      · rw [if_neg hcl, if_neg hcl, ← hsw]
        exact (min_self _).symm
    · right
      by_cases hcl : clampW = true
      · rw [if_pos hcl]
        exact le_trans (min_le_left _ _) hsw
      · rw [if_neg hcl]
        exact hsw

/-- One hybridStep preserves the loop invariant when the incoming tile has
positive width. -/
theorem hybridStep_inv (fo : FontOracle) (cfg : RenderCfg)
    (canvas_w canvas_h padding gutter available_w available_h : Int) (col_w : Frac)
    (st : HybridState) (tile : Tile) (caption : List Char)
    (h : HInv st) (htw : 0 < tile.w) :
    HInv (hybridStep fo cfg canvas_w canvas_h padding gutter available_w available_h col_w
      st tile caption) := by
  unfold hybridStep
  dsimp only
  split
  · have h1 : HInv (match st.pending with
        | none => st
        | some (ptile, pcap) =>
          placePendingAlone fo cfg canvas_w canvas_h padding gutter available_w available_h
            col_w false st ptile pcap) := by
      cases hpend : st.pending with
      | none =>
        simp only [hpend]
        exact h
      | some pc =>
        obtain ⟨ptile, pcap⟩ := pc
        simp only [hpend]
        exact placePendingAlone_inv fo cfg canvas_w canvas_h padding gutter available_w
          available_h col_w false st ptile pcap h (h.2.2 (ptile, pcap) hpend)
    refine ⟨(maybeFlush_inv _ _ _ _ _ _ _ _ _ h1).1, ?_,
      (maybeFlush_inv _ _ _ _ _ _ _ _ _ h1).2.2⟩
    intro item hitem
    rcases List.mem_append.mp hitem with hh | hh
    · exact (maybeFlush_inv _ _ _ _ _ _ _ _ _ h1).2.1 item hh
    · rcases List.mem_singleton.mp hh with rfl
      obtain ⟨hsh, hsw⟩ := scaled_size_spec tile (ofInt available_w) htw
      refine ⟨(ofInt available_w).div (ofInt tile.w), available_w, hsh, ?_⟩
      rcases hsw with hsw | hsw
      · left
        rw [hsw]
      · right
        exact le_trans (min_le_left _ _) hsw
  · cases hpend : st.pending with
    | none =>
      simp only [hpend]
      refine ⟨h.1, h.2.1, ?_⟩
      intro pc hpc
      cases Option.some.inj hpc
      exact htw
    | some pc =>
      obtain ⟨ptile, pcap⟩ := pc
      simp only [hpend]
      have hpt : 0 < ptile.w := h.2.2 (ptile, pcap) hpend
      refine ⟨(maybeFlush_inv _ _ _ _ _ _ _ _ _ h).1, ?_,
        fun pc' hpc' => absurd hpc' (Option.not_mem_none pc')⟩
      intro item hitem
      rcases List.mem_append.mp hitem with hh | hh
      · exact (maybeFlush_inv _ _ _ _ _ _ _ _ _ h).2.1 item hh
      · rcases List.mem_cons.mp hh with h1 | h1
        · rw [h1]
          obtain ⟨hsh, hsw⟩ := scaled_size_spec ptile col_w hpt
          refine ⟨col_w.div (ofInt ptile.w), Frac.pyInt col_w, hsh, ?_⟩
          rcases hsw with hsw | hsw
          · left
            rw [hsw]
          · right
            exact le_trans (min_le_left _ _) hsw
        · rcases List.mem_singleton.mp h1 with rfl
          obtain ⟨hsh, hsw⟩ := scaled_size_spec tile col_w htw
          refine ⟨col_w.div (ofInt tile.w), Frac.pyInt col_w, hsh, ?_⟩
          rcases hsw with hsw | hsw
          · left
            rw [hsw]
          · right
            exact le_trans (min_le_left _ _) hsw

/-- The second component of a member of an enumerated list is a member of
the list. -/
theorem enum_snd_mem {α : Type} :
    ∀ (l : List α) (n : Nat) (x : Nat × α), x ∈ l.enumFrom n → x.2 ∈ l := by
  intro l
  induction l with
  | nil => exact fun n x hx => absurd hx (List.not_mem_nil x)
  | cons a l ih =>
    intro n x hx
    rcases List.mem_cons.mp hx with hx | hx
    · rw [hx]
      exact List.mem_cons_self a l
    · exact List.mem_cons_of_mem a (ih (n + 1) x hx)

/-- The full hybrid run (fold, final pending placement, final flush)
establishes the loop invariant. -/
theorem hybrid_run_inv (fo : FontOracle) (cfg : RenderCfg)
    (canvas_w canvas_h padding gutter available_w available_h : Int) (col_w : Frac)
    (tiles : List Tile) (captions : List (List Char)) (hw : ∀ t ∈ tiles, 0 < t.w) :
    HInv (hybridFlush fo cfg canvas_w canvas_h padding gutter
      (match (tiles.enum.foldl
          (fun st p =>
            hybridStep fo cfg canvas_w canvas_h padding gutter available_w available_h col_w
              st p.2 (captions.getD p.1 []))
          ⟨[], [], [], ofInt 0, none⟩).pending with
       | none =>
         tiles.enum.foldl
           (fun st p =>
             hybridStep fo cfg canvas_w canvas_h padding gutter available_w available_h col_w
               st p.2 (captions.getD p.1 []))
           ⟨[], [], [], ofInt 0, none⟩
       | some (ptile, pcap) =>
         placePendingAlone fo cfg canvas_w canvas_h padding gutter available_w available_h
           col_w true
           (tiles.enum.foldl
             (fun st p =>
               hybridStep fo cfg canvas_w canvas_h padding gutter available_w available_h col_w
                 st p.2 (captions.getD p.1 []))
             ⟨[], [], [], ofInt 0, none⟩)
           ptile pcap)) := by
  have hstepped : HInv (tiles.enum.foldl
      (fun st p =>
        hybridStep fo cfg canvas_w canvas_h padding gutter available_w available_h col_w
          st p.2 (captions.getD p.1 []))
      ⟨[], [], [], ofInt 0, none⟩) := by
    refine foldl_inv HInv _ tiles.enum ⟨[], [], [], ofInt 0, none⟩
      ⟨fun pg hpg => absurd hpg (List.not_mem_nil pg),
        fun it hit => absurd hit (List.not_mem_nil it),
        fun pc hpc => absurd hpc (Option.not_mem_none pc)⟩ ?_
    intro a ha t ht
    exact hybridStep_inv fo cfg canvas_w canvas_h padding gutter available_w available_h
      col_w t a.2 (captions.getD a.1 []) ht (hw a.2 (enum_snd_mem tiles 0 a ha))
  apply hybridFlush_inv
  cases hpend : (tiles.enum.foldl
      (fun st p =>
        hybridStep fo cfg canvas_w canvas_h padding gutter available_w available_h col_w
          st p.2 (captions.getD p.1 []))
      ⟨[], [], [], ofInt 0, none⟩).pending with
  | none =>
    simp only [hpend]
    exact hstepped
  | some pc =>
    obtain ⟨ptile, pcap⟩ := pc
    simp only [hpend]
    exact placePendingAlone_inv fo cfg canvas_w canvas_h padding gutter available_w
      available_h col_w true _ ptile pcap hstepped (hstepped.2.2 (ptile, pcap) hpend)

/-- C3 (amended): for tiles of positive width, neither packing strategy
distorts a tile non-uniformly up to integer rounding: in pack_tiles_hybrid
each blit's rendered width is the planned width under one shrink factor
(truncated toward zero, clamped to one pixel minimum) and its rendered
height is at most the planned height under the same factor (the caption
overflow re-blit only lowers the height), while the planned size itself is
the source size under one layout scale factor with the same rounding and a
row or column width cap; in pack_tiles_masonry both planned dimensions
share one scale factor with the same rounding (the width cap skipping the
one-pixel clamp) and rendering only clamps each dimension against the
canvas border.  Exact proportionality fails because the two dimensions are
rounded independently. -/
theorem C3_uniform_scale_amended (fo : FontOracle) (cfg : RenderCfg) (tiles : List Tile)
    (captions : List (List Char)) (canvas_w canvas_h : Int)
    (hw : ∀ t ∈ tiles, 0 < t.w) :
    (∀ pg ∈ (pack_tiles_hybrid fo cfg tiles captions canvas_w canvas_h).1,
      ∀ p ∈ pg, RenderRel p ∧ PlanRel p) ∧
    (∀ pg ∈ (pack_tiles_masonry cfg tiles canvas_w canvas_h).1,
      ∀ p ∈ pg, MasonryRel canvas_w canvas_h p) := by
  constructor
  · intro pg hpg p hp
    unfold pack_tiles_hybrid at hpg
    dsimp only at hpg
    split at hpg
    · exact absurd hpg (List.not_mem_nil pg)
    · exact (hybrid_run_inv fo cfg canvas_w canvas_h _ _ _ _ _ tiles captions hw).1 pg hpg p hp
  · intro pg hpg p hp
    unfold pack_tiles_masonry at hpg
    dsimp only at hpg
    split at hpg
    · exact absurd hpg (List.not_mem_nil pg)
    · exact masonryLoop_rel cfg canvas_w canvas_h _ _ _ _ _ _ _ tiles.length tiles hw
        pg hpg p hp

theorem insertLe_perm {α : Type} (le : α → α → Bool) (x : α) :
    ∀ l : List α, (insertLe le x l).Perm (x :: l) := by
  intro l
  induction l with
  | nil => exact List.Perm.refl _
  | cons y ys ih =>
    unfold insertLe
    split
    · exact List.Perm.refl _
    · exact ((ih.cons y).trans (List.Perm.swap x y ys))

theorem pySort_perm {α : Type} (le : α → α → Bool) :
    ∀ l : List α, (pySort le l).Perm l := by
  intro l
  induction l with
  | nil => exact List.Perm.refl _
  | cons x xs ih => exact (insertLe_perm le x (pySort le xs)).trans (ih.cons x)

theorem dictAppend_flatten {K V : Type} [DecidableEq K] (m : List (K × List V)) (k : K)
    (v : V) :
    (((dictAppend m k v).map Prod.snd).flatten).Perm (((m.map Prod.snd).flatten) ++ [v]) := by
  induction m with
  | nil => exact List.Perm.refl _
  | cons pr rest ih =>
    obtain ⟨k', vs⟩ := pr
    unfold dictAppend
    split
    · simp only [List.map_cons, List.flatten_cons]
      rw [List.append_assoc, List.append_assoc]
      exact (List.Perm.refl vs).append (List.perm_append_comm)
    · simp only [List.map_cons, List.flatten_cons]
      rw [List.append_assoc]
      exact (List.Perm.refl vs).append ih

/-- A stateless bucket-building fold distributes the elements over the
buckets: the concatenation of all buckets is a permutation of the already
bucketed elements followed by the input list. -/
theorem dictFold_flatten {K V : Type} [DecidableEq K] (key : V → K) :
    ∀ (l : List V) (m : List (K × List V)),
      (((l.foldl (fun m e => dictAppend m (key e) e) m).map Prod.snd).flatten).Perm
        (((m.map Prod.snd).flatten) ++ l) := by
  intro l
  induction l with
  | nil => exact fun m => by simp
  | cons e rest ih =>
    intro m
    refine (ih (dictAppend m (key e) e)).trans ?_
    refine ((dictAppend_flatten m (key e) e).append_right rest).trans ?_
    rw [List.append_assoc]
    exact List.Perm.refl _

/-- Membership extraction from the bucket fold: every bucket member is a
bucketed element or an input element. -/
theorem dictFold_mem {K V : Type} [DecidableEq K] (key : V → K) (l : List V)
    (m : List (K × List V)) (pr : K × List V)
    (hpr : pr ∈ l.foldl (fun m e => dictAppend m (key e) e) m) (x : V) (hx : x ∈ pr.2) :
    x ∈ ((m.map Prod.snd).flatten) ++ l := by
  refine (dictFold_flatten key l m).mem_iff.mp ?_
  exact List.mem_flatten.mpr ⟨pr.2, List.mem_map.mpr ⟨pr, hpr, rfl⟩, hx⟩

/-- Every input element of the bucket fold lands in some bucket. -/
theorem dictFold_mem_bucket {K V : Type} [DecidableEq K] (key : V → K) (l : List V)
    (x : V) (hx : x ∈ l) :
    ∃ pr ∈ l.foldl (fun m e => dictAppend m (key e) e) ([] : List (K × List V)), x ∈ pr.2 := by
  have h1 : x ∈ ((((l.foldl (fun m e => dictAppend m (key e) e)
      ([] : List (K × List V)))).map Prod.snd).flatten) :=
    (dictFold_flatten key l []).symm.mem_iff.mp (by simpa using hx)
  obtain ⟨b, hb, hxb⟩ := List.mem_flatten.mp h1
  obtain ⟨pr, hpr, rfl⟩ := List.mem_map.mp hb
  exact ⟨pr, hpr, hxb⟩

theorem dictGet_mem {K V : Type} [DecidableEq K] :
    ∀ (m : List (K × V)) (k : K) (v : V), dictGet m k = some v → (k, v) ∈ m ∨
      ∃ k', k = k' ∧ (k', v) ∈ m := by
  intro m
  induction m with
  | nil => intro k v h; exact absurd h Option.noConfusion
  | cons pr rest ih =>
    intro k v h
    obtain ⟨k', v'⟩ := pr
    unfold dictGet at h
    split at h
    · right
      rename_i heq
      cases Option.some.inj h
      exact ⟨k', heq, List.mem_cons_self _ _⟩
    · rcases ih k v h with h2 | ⟨k2, hk2, h2⟩
      · exact Or.inl (List.mem_cons_of_mem _ h2)
      · exact Or.inr ⟨k2, hk2, List.mem_cons_of_mem _ h2⟩

theorem dictGet_dictSet_ne {K V : Type} [DecidableEq K] (k k' : K) (hk : k ≠ k') (v : V) :
    ∀ m : List (K × V), dictGet (dictSet m k' v) k = dictGet m k := by
  intro m
  induction m with
  | nil =>
    unfold dictSet dictGet
    rw [if_neg hk]
    rfl
  | cons pr rest ih =>
    obtain ⟨k2, v2⟩ := pr
    unfold dictSet
    split
    · rename_i heq
      unfold dictGet
      rw [if_neg (heq ▸ hk), if_neg (heq ▸ hk)]
    · unfold dictGet
      split
      · rfl
      · exact ih

theorem dictGet_dictAppend_ne {K V : Type} [DecidableEq K] (k k' : K) (hk : k ≠ k') (v : V) :
    ∀ m : List (K × List V), dictGet (dictAppend m k' v) k = dictGet m k := by
  intro m
  induction m with
  | nil =>
    unfold dictAppend dictGet
    rw [if_neg hk]
    rfl
  | cons pr rest ih =>
    obtain ⟨k2, v2⟩ := pr
    unfold dictAppend
    split
    · rename_i heq
      unfold dictGet
      rw [if_neg (heq ▸ hk), if_neg (heq ▸ hk)]
    · unfold dictGet
      split
      · rfl
      · exact ih

theorem dictGet_dictAppend_same {K V : Type} [DecidableEq K] (k : K) (v : V) :
    ∀ m : List (K × List V),
      dictGet (dictAppend m k v) k = some ((dictGet m k).getD [] ++ [v]) := by
  intro m
  induction m with
  | nil =>
    unfold dictAppend dictGet
    rw [if_pos rfl]
    rfl
  | cons pr rest ih =>
    obtain ⟨k2, v2⟩ := pr
    unfold dictAppend
    split
    · rename_i heq
      unfold dictGet
      rw [if_pos heq, if_pos heq]
      rfl
    · rename_i hne
      unfold dictGet
      rw [if_neg hne, if_neg hne]
      exact ih

theorem firstValidImageCaption_spec (o : TextOracle) :
    ∀ (l : List (List Char)) (pc : List Char), firstValidImageCaption o l = some pc →
      ∃ t, pc = (purify_caption o t).1 ∧ (purify_caption o t).2 = true := by
  intro l
  induction l with
  | nil => intro pc h; exact absurd h Option.noConfusion
  | cons c rest ih =>
    intro pc h
    unfold firstValidImageCaption at h
    dsimp only at h
    split at h
    · exact ih pc h
    · split at h
      · rename_i hv
        cases Option.some.inj h
        exact ⟨pyStrip c, rfl, hv⟩
      · exact ih pc h

/-- A good caption state that claims a caption parses to a figure
number (sane regex engine). -/
theorem capNumber_good (o : TextOracle) (hs : o.Sane) (cs : CapState)
    (hg : GoodCap o cs) (hh : cs.has = true) : ∃ n, capNumber o cs = some n := by
  obtain ⟨hv, t, hc, hpv⟩ := hg hh
  obtain ⟨n, hx⟩ := purify_valid_extract o hs t hpv
  rw [← hc] at hx
  have hne : cs.caption.isEmpty = false := by
    by_contra hne
    rw [Bool.not_eq_false] at hne
    unfold extract_figure_number at hx
    rw [if_pos hne] at hx
    exact Option.noConfusion hx
  unfold capNumber
  rw [hne, hv]
  exact ⟨n, by simpa using hx⟩

/-- The purified markdown caption state is trustworthy. -/
theorem enrichBase_good (o : TextOracle) (entry : MdEntry) :
    GoodCap o (enrichBase o entry) := by
  unfold enrichBase GoodCap
  dsimp only
  split
  · exact fun hh => ⟨hh, pyStrip entry.caption, rfl, hh⟩
  · exact fun hh => absurd hh Bool.false_ne_true

/-- The image_caption fallback keeps the caption state trustworthy. -/
theorem enrichS1_good (o : TextOracle) (fig : FigItem) (base : CapState)
    (hb : GoodCap o base) : GoodCap o (enrichS1 o fig base) := by
  unfold enrichS1
  split
  · split
    · rename_i pc hpc
      obtain ⟨t, ht1, ht2⟩ := firstValidImageCaption_spec o _ pc hpc
      exact fun _ => ⟨rfl, t, ht1, ht2⟩
    · exact hb
  · exact hb

/-- The matched-caption override keeps the caption state trustworthy. -/
theorem enrichS2_good (o : TextOracle) (matched : List (Nat × CapItem)) (fi : Nat)
    (s1 : CapState) (h1 : GoodCap o s1) : GoodCap o (enrichS2 o matched fi s1) := by
  unfold enrichS2
  split
  · exact h1
  · rename_i cap hcap
    dsimp only
    split
    · rename_i hpv2
      split
      · exact fun _ => ⟨rfl, cap.text, rfl, hpv2⟩
      · exact h1
    · exact h1

/-- The final caption state of the enrichment is trustworthy. -/
theorem enrichCore_good (o : TextOracle) (figures : List FigItem)
    (fbp : List (List Char × Nat)) (matched : List (Nat × CapItem)) (entry : MdEntry) :
    GoodCap o (enrichCore o figures fbp matched entry).2.2.2.2 := by
  unfold enrichCore
  dsimp only
  split
  · exact enrichBase_good o entry
  · exact enrichS2_good o matched _ _ (enrichS1_good o _ _ (enrichBase_good o entry))

/-- A fold that appends blocks equals the flattened map. -/
theorem foldl_append_acc {α β : Type} (g : β → List α) :
    ∀ (l : List β) (acc : List α),
      l.foldl (fun a pr => a ++ g pr) acc = acc ++ (l.map g).flatten := by
  intro l
  induction l with
  | nil => intro acc; simp
  | cons b rest ih =>
    intro acc
    rw [List.foldl_cons, ih (acc ++ g b)]
    simp

/-- A fold whose steps all fix the state returns the initial state. -/
theorem foldl_id {α σ : Type} (f : σ → α → σ) :
    ∀ (l : List α) (s : σ), (∀ a ∈ l, ∀ t, f t a = t) → l.foldl f s = s := by
  intro l
  induction l with
  | nil => intro s _; rfl
  | cons a rest ih =>
    intro s h
    rw [List.foldl_cons, h a (List.mem_cons_self a rest) s]
    exact ih s (fun b hb t => h b (List.mem_cons_of_mem a hb) t)

/-- A trusted entry record parses to a figure number (sane regex engine). -/
theorem enrich_number (o : TextOracle) (hs : o.Sane) (figures : List FigItem)
    (fbp : List (List Char × Nat)) (matched : List (Nat × CapItem)) (i : Nat)
    (entry : MdEntry)
    (hh : (enrichEntry o figures fbp matched i entry).has_caption = true) :
    ∃ n, (enrichEntry o figures fbp matched i entry).figure_number = some n := by
  unfold enrichEntry at hh ⊢
  dsimp only at hh ⊢
  exact capNumber_good o hs _ (enrichCore_good o figures fbp matched entry) hh

/-- The enriched records carry the entry indices 0, 1, ... in order. -/
theorem entryFigures_idx (o : TextOracle) (entries : List MdEntry)
    (figures : List FigItem) (captions : List CapItem) :
    (entryFigures o entries figures captions).map (fun e => e.entry_idx) =
      List.range entries.length := by
  unfold entryFigures
  dsimp only
  rw [List.map_map]
  have h : ∀ p ∈ entries.enum,
      ((fun e => e.entry_idx) ∘ (fun p : Nat × MdEntry =>
        enrichEntry o figures (figure_by_path figures)
          (if figures.isEmpty || captions.isEmpty then []
           else match_figures_to_captions figures captions) p.1 p.2)) p = Prod.fst p :=
    fun p _ => rfl
  rw [List.map_congr_left h]
  exact List.enum_map_fst entries

/-- Every member of the stage-0 output descends from an input record with
the same index, page and caption flag, gaining at most a number. -/
theorem stage0_mem_src (efs : List EntryFig) (x : EntryFig) (hx : x ∈ stage0 efs) :
    ∃ e ∈ efs, x.has_caption = e.has_caption ∧ x.entry_idx = e.entry_idx ∧
      x.page_idx = e.page_idx ∧ (x.figure_number = none → e.figure_number = none) := by
  unfold stage0 at hx
  obtain ⟨e, he, rfl⟩ := List.mem_map.mp hx
  refine ⟨e, he, ?_⟩
  cases hget : dictGet (stage0Assigns efs) e.entry_idx <;> simp [hget]

/-- The stage-0 output keeps the entry indices of its input. -/
theorem stage0_idx (efs : List EntryFig) :
    (stage0 efs).map (fun e => e.entry_idx) = efs.map (fun e => e.entry_idx) := by
  unfold stage0
  rw [List.map_map]
  refine List.map_congr_left ?_
  intro e _
  show (match dictGet (stage0Assigns efs) e.entry_idx with
    | some n => { e with figure_number := some n }
    | none => e).entry_idx = e.entry_idx
  cases dictGet (stage0Assigns efs) e.entry_idx <;> rfl

/-- Every assignment of the stage-0 scan names an unnumbered entry of the
scanned list. -/
theorem stage0Page_src (pes : List EntryFig) (pr : Nat × Nat) (hpr : pr ∈ stage0Page pes) :
    ∃ e ∈ pes, e.entry_idx = pr.1 ∧ e.figure_number = none := by
  unfold stage0Page at hpr
  dsimp only at hpr
  have key : ∀ (l : List EntryFig) (st : Option (Nat × BBox) × List (Nat × Nat)),
      ∀ mvg : Frac,
      pr ∈ (l.foldl
        (fun (st : Option (Nat × BBox) × List (Nat × Nat)) e =>
          match e.figure_bbox with
          | none => st
          | some bbox =>
            match e.figure_number with
            | some n => (some (n, bbox), st.2)
            | none =>
              if e.caption_valid then (none, st.2)
              else
                match st.1 with
                | some (n, lb) =>
                  let vd := vertical_distance lb bbox
                  if (ofInt 0).le vd && vd.le mvg &&
                      (F 18 100).le (horizontal_overlap lb bbox) then
                    (st.1, st.2 ++ [(e.entry_idx, n)])
                  else st
                | none => st)
        st).2 →
      pr ∈ st.2 ∨ ∃ e ∈ l, e.entry_idx = pr.1 ∧ e.figure_number = none := by
    intro l
    induction l with
    | nil => exact fun st mvg h => Or.inl h
    | cons e rest ih =>
      intro st mvg h
      rw [List.foldl_cons] at h
      rcases ih _ mvg h with h2 | ⟨e2, he2, hp⟩
      · cases hbb : e.figure_bbox with
        | none =>
          rw [hbb] at h2
          exact Or.inl h2
        | some bbox =>
          rw [hbb] at h2
          cases hfn : e.figure_number with
          | some n =>
            rw [hfn] at h2
            exact Or.inl h2
          | none =>
            rw [hfn] at h2
            dsimp only at h2
            split at h2
            · exact Or.inl h2
            · split at h2
              · split at h2
                · rcases List.mem_append.mp h2 with h3 | h3
                  · exact Or.inl h3
                  · rcases List.mem_singleton.mp h3 with rfl
                    exact Or.inr ⟨e, List.mem_cons_self e rest, rfl, hfn⟩
                · exact Or.inl h2
              · exact Or.inl h2
      · exact Or.inr ⟨e2, List.mem_cons_of_mem e he2, hp⟩
  rcases key _ _ _ hpr with h | ⟨e, he, hp⟩
  · exact absurd h (List.not_mem_nil pr)
  · exact ⟨e, (pySort_perm (fun a b => (sortKeyY a).le (sortKeyY b)) pes).mem_iff.mp he, hp⟩

/-- Every stage-0 assignment names an unnumbered entry of the input. -/
theorem stage0Assigns_src (efs : List EntryFig) (pr : Nat × Nat)
    (hpr : pr ∈ stage0Assigns efs) :
    ∃ e ∈ efs, e.entry_idx = pr.1 ∧ e.figure_number = none := by
  unfold stage0Assigns at hpr
  dsimp only at hpr
  rw [foldl_append_acc] at hpr
  rcases List.mem_append.mp hpr with h | h
  · exact absurd h (List.not_mem_nil pr)
  · obtain ⟨b, hb, hprb⟩ := List.mem_flatten.mp h
    obtain ⟨bk, hbk, rfl⟩ := List.mem_map.mp hb
    obtain ⟨e, he, hp⟩ := stage0Page_src bk.2 pr hprb
    have he2 : e ∈ efs := by
      have := dictFold_mem (fun e : EntryFig => e.page_idx.getD 0) efs [] bk hbk e he
      simpa using this
    exact ⟨e, he2, hp⟩

/-- Entries that already carry a figure number pass through stage 0
untouched (their index being unique). -/
theorem stage0_keeps_number (efs : List EntryFig)
    (hnd : (efs.map (fun e => e.entry_idx)).Nodup) (e : EntryFig) (he : e ∈ efs)
    (n : Nat) (hn : e.figure_number = some n) : e ∈ stage0 efs := by
  have hget : dictGet (stage0Assigns efs) e.entry_idx = none := by
    by_contra h
    obtain ⟨m, hm⟩ := Option.ne_none_iff_exists'.mp h
    have hmem := dictGet_mem _ _ _ hm
    have hpair : (e.entry_idx, m) ∈ stage0Assigns efs := by
      rcases hmem with h2 | ⟨k', hk', h2⟩
      · exact h2
      · exact hk' ▸ h2
    obtain ⟨e0, he0, hidx, hnone⟩ := stage0Assigns_src efs _ hpair
    have : e0 = e := List.inj_on_of_nodup_map hnd he0 he hidx
    rw [this, hn] at hnone
    exact Option.noConfusion hnone
  unfold stage0
  have heq : (match dictGet (stage0Assigns efs) e.entry_idx with
      | some n => { e with figure_number := some n }
      | none => e) = e := by
    rw [hget]
  exact heq ▸ List.mem_map_of_mem _ he

/-- Stage 1 distributes its input over the buckets and the ungrouped
list: nothing is lost or duplicated. -/
theorem stage1_perm (efs : List EntryFig) :
    ((((stage1 efs).1.map Prod.snd).flatten) ++ (stage1 efs).2).Perm efs := by
  unfold stage1
  have key : ∀ (l : List EntryFig) (st : List (GroupKey × List EntryFig) × List EntryFig),
      (((l.foldl (fun st e =>
          match e.figure_number with
          | some num => (dictAppend st.1 (Sum.inl (e.page_idx.getD 0, num)) e, st.2)
          | none => (st.1, st.2 ++ [e])) st).1.map Prod.snd).flatten ++
        (l.foldl (fun st e =>
          match e.figure_number with
          | some num => (dictAppend st.1 (Sum.inl (e.page_idx.getD 0, num)) e, st.2)
          | none => (st.1, st.2 ++ [e])) st).2).Perm
        (((st.1.map Prod.snd).flatten ++ st.2) ++ l) := by
    intro l
    induction l with
    | nil => intro st; simp
    | cons e rest ih =>
      intro st
      rw [List.foldl_cons]
      refine (ih _).trans ?_
      have hstep : ((((match e.figure_number with
          | some num => (dictAppend st.1 (Sum.inl (e.page_idx.getD 0, num)) e, st.2)
          | none => (st.1, st.2 ++ [e]) : List (GroupKey × List EntryFig) ×
            List EntryFig)).1.map Prod.snd).flatten ++
          ((match e.figure_number with
          | some num => (dictAppend st.1 (Sum.inl (e.page_idx.getD 0, num)) e, st.2)
          | none => (st.1, st.2 ++ [e]) : List (GroupKey × List EntryFig) ×
            List EntryFig)).2).Perm
          (((st.1.map Prod.snd).flatten ++ st.2) ++ [e]) := by
        cases e.figure_number with
        | some num =>
          dsimp only
          refine ((dictAppend_flatten st.1 _ e).append_right st.2).trans ?_
          rw [List.append_assoc, List.append_assoc]
          exact (List.Perm.refl _).append List.perm_append_comm
        | none =>
          dsimp only
          rw [List.append_assoc]
      exact (hstep.append_right rest).trans (by rw [List.append_assoc]; exact List.Perm.refl _)
  have h := key efs ([], [])
  simpa using h

/-- Every stage-1 ungrouped entry is an unnumbered input entry. -/
theorem stage1_ung_src (efs : List EntryFig) (x : EntryFig) (hx : x ∈ (stage1 efs).2) :
    x ∈ efs ∧ x.figure_number = none := by
  unfold stage1 at hx
  have key : ∀ (l : List EntryFig) (st : List (GroupKey × List EntryFig) × List EntryFig),
      x ∈ (l.foldl (fun st e =>
          match e.figure_number with
          | some num => (dictAppend st.1 (Sum.inl (e.page_idx.getD 0, num)) e, st.2)
          | none => (st.1, st.2 ++ [e])) st).2 →
      x ∈ st.2 ∨ (x ∈ l ∧ x.figure_number = none) := by
    intro l
    induction l with
    | nil => exact fun st h => Or.inl h
    | cons e rest ih =>
      intro st h
      rw [List.foldl_cons] at h
      rcases ih _ h with h2 | ⟨h2, h3⟩
      · cases hfn : e.figure_number with
        | some num =>
          rw [hfn] at h2
          exact Or.inl h2
        | none =>
          rw [hfn] at h2
          dsimp only at h2
          rcases List.mem_append.mp h2 with h3 | h3
          · exact Or.inl h3
          · rcases List.mem_singleton.mp h3 with rfl
            exact Or.inr ⟨List.mem_cons_self x rest, hfn⟩
      · exact Or.inr ⟨List.mem_cons_of_mem e h2, h3⟩
  rcases key efs ([], []) hx with h | ⟨h1, h2⟩
  · exact absurd h (List.not_mem_nil x)
  · exact ⟨h1, h2⟩

/-- Bucket contents only grow along the stage-1 fold. -/
theorem stage1_bucket_mono (q : GroupKey) (x : EntryFig) :
    ∀ (l : List EntryFig) (st : List (GroupKey × List EntryFig) × List EntryFig)
      (vs : List EntryFig), dictGet st.1 q = some vs → x ∈ vs →
      ∃ vs2, dictGet (l.foldl (fun st e =>
          match e.figure_number with
          | some num => (dictAppend st.1 (Sum.inl (e.page_idx.getD 0, num)) e, st.2)
          | none => (st.1, st.2 ++ [e])) st).1 q = some vs2 ∧ x ∈ vs2 := by
  intro l
  induction l with
  | nil => exact fun st vs h hx => ⟨vs, h, hx⟩
  | cons e rest ih =>
    intro st vs h hx
    rw [List.foldl_cons]
    cases hfn : e.figure_number with
    | some num =>
      dsimp only
      by_cases hk : q = Sum.inl (e.page_idx.getD 0, num)
      · subst hk
        refine ih _ (vs ++ [e]) ?_ (List.mem_append.mpr (Or.inl hx))
        dsimp only
        rw [dictGet_dictAppend_same, h]
        rfl
      · refine ih _ vs ?_ hx
        dsimp only
        rw [dictGet_dictAppend_ne _ _ hk]
        exact h
    | none =>
      dsimp only
      exact ih _ vs h hx

/-- The stage-1 step inserts a numbered entry into its bucket. -/
theorem stage1_step_bucket (st : List (GroupKey × List EntryFig) × List EntryFig)
    (e : EntryFig) (n : Nat) (hn : e.figure_number = some n) :
    ∃ vs, dictGet ((match e.figure_number with
      | some num => (dictAppend st.1 (Sum.inl (e.page_idx.getD 0, num)) e, st.2)
      | none => (st.1, st.2 ++ [e]) : List (GroupKey × List EntryFig) ×
        List EntryFig)).1 (Sum.inl (e.page_idx.getD 0, n)) = some vs ∧ e ∈ vs := by
  rw [hn]
  dsimp only
  exact ⟨_, dictGet_dictAppend_same _ _ _,
    List.mem_append.mpr (Or.inr (List.mem_singleton.mpr rfl))⟩

/-- A numbered entry lands in its (page, number) bucket of stage 1. -/
theorem stage1_bucket (efs : List EntryFig) (e : EntryFig) (he : e ∈ efs) (n : Nat)
    (hn : e.figure_number = some n) :
    ∃ vs, dictGet (stage1 efs).1 (Sum.inl (e.page_idx.getD 0, n)) = some vs ∧ e ∈ vs := by
  unfold stage1
  obtain ⟨l1, l2, rfl⟩ := List.append_of_mem he
  rw [List.foldl_append, List.foldl_cons]
  obtain ⟨vs0, h0, hx0⟩ := stage1_step_bucket (l1.foldl (fun st e =>
      match e.figure_number with
      | some num => (dictAppend st.1 (Sum.inl (e.page_idx.getD 0, num)) e, st.2)
      | none => (st.1, st.2 ++ [e])) ([], [])) e n hn
  exact stage1_bucket_mono _ e l2 _ vs0 h0 hx0

/-- The stage-2 merge decision fails when neither side has a caption. -/
theorem stage2Merge_false (cur : EntryFig) (cb : BBox) (cand : EntryFig) (candb : BBox)
    (h1 : cur.has_caption = false) (h2 : cand.has_caption = false) :
    stage2Merge cur cb cand candb = false := by
  unfold stage2Merge
  simp [h1, h2]

/-- The stage-3 merge decision fails when neither side has a caption. -/
theorem stage3Merge_false (cur : EntryFig) (cb : BBox) (cand : EntryFig) (candb : BBox)
    (h1 : cur.has_caption = false) (h2 : cand.has_caption = false) :
    stage3Merge cur cb cand candb = false := by
  unfold stage3Merge
  simp [h1, h2]

/-- With only captionless entries, the stage-2 inner loop absorbs nothing. -/
theorem stage2Inner_skip (cur : EntryFig) (cb : BBox) (grp : List EntryFig)
    (hc : cur.has_caption = false) :
    ∀ rest : List EntryFig, (∀ e ∈ rest, e.has_caption = false) →
      ∃ rest2, stage2Inner cur cb grp rest = (grp, rest2) ∧ ∀ e ∈ rest2, e ∈ rest := by
  intro rest
  induction rest with
  | nil => exact fun _ => ⟨[], rfl, fun e he => absurd he (List.not_mem_nil e)⟩
  | cons cand r2 ih =>
    intro hall
    unfold stage2Inner
    cases hbb : cand.figure_bbox with
    | none =>
      obtain ⟨rest2, heq, hsub⟩ := ih (fun e he => hall e (List.mem_cons_of_mem cand he))
      exact ⟨rest2, heq, fun e he => List.mem_cons_of_mem cand (hsub e he)⟩
    | some candb =>
      dsimp only
      rw [stage2Merge_false cur cb cand candb hc
        (hall cand (List.mem_cons_self cand r2)), if_neg Bool.false_ne_true]
      exact ⟨cand :: r2, rfl, fun e he => he⟩

/-- With only captionless entries, the stage-3 inner loop absorbs nothing. -/
theorem stage3Inner_skip (cur : EntryFig) (cb : BBox) (grp : List EntryFig)
    (hc : cur.has_caption = false) :
    ∀ rest : List EntryFig, (∀ e ∈ rest, e.has_caption = false) →
      ∃ rest2, stage3Inner cur cb grp rest = (grp, rest2) ∧ ∀ e ∈ rest2, e ∈ rest := by
  intro rest
  induction rest with
  | nil => exact fun _ => ⟨[], rfl, fun e he => absurd he (List.not_mem_nil e)⟩
  | cons cand r2 ih =>
    intro hall
    unfold stage3Inner
    cases hbb : cand.figure_bbox with
    | none =>
      obtain ⟨rest2, heq, hsub⟩ := ih (fun e he => hall e (List.mem_cons_of_mem cand he))
      exact ⟨rest2, heq, fun e he => List.mem_cons_of_mem cand (hsub e he)⟩
    | some candb =>
      dsimp only
      rw [stage3Merge_false cur cb cand candb hc
        (hall cand (List.mem_cons_self cand r2)), if_neg Bool.false_ne_true]
      exact ⟨cand :: r2, rfl, fun e he => he⟩

/-- With only captionless entries, stage 2 forms no group. -/
theorem stage2Outer_nil :
    ∀ (fuel : Nat) (l : List EntryFig), (∀ e ∈ l, e.has_caption = false) →
      stage2Outer fuel l = [] := by
  intro fuel
  induction fuel with
  | zero =>
    intro l _
    cases l <;> rfl
  | succ n ih =>
    intro l hall
    cases l with
    | nil => rfl
    | cons e rest =>
      unfold stage2Outer
      cases hbb : e.figure_bbox with
      | none => exact ih rest (fun x hx => hall x (List.mem_cons_of_mem e hx))
      | some b =>
        obtain ⟨rest2, heq, hsub⟩ := stage2Inner_skip e b [e]
          (hall e (List.mem_cons_self e rest)) rest
          (fun x hx => hall x (List.mem_cons_of_mem e hx))
        dsimp only
        rw [heq]
        dsimp only
        rw [if_neg (by simp)]
        exact ih rest2 (fun x hx => hall x (List.mem_cons_of_mem e (hsub x hx)))

/-- With only captionless entries, stage 3 forms no group. -/
theorem stage3Outer_nil :
    ∀ (fuel : Nat) (l : List EntryFig), (∀ e ∈ l, e.has_caption = false) →
      stage3Outer fuel l = [] := by
  intro fuel
  induction fuel with
  | zero =>
    intro l _
    cases l <;> rfl
  | succ n ih =>
    intro l hall
    cases l with
    | nil => rfl
    | cons e rest =>
      unfold stage3Outer
      cases hbb : e.figure_bbox with
      | none => exact ih rest (fun x hx => hall x (List.mem_cons_of_mem e hx))
      | some b =>
        obtain ⟨rest2, heq, hsub⟩ := stage3Inner_skip e b [e]
          (hall e (List.mem_cons_self e rest)) rest
          (fun x hx => hall x (List.mem_cons_of_mem e hx))
        dsimp only
        rw [heq]
        dsimp only
        rw [if_neg (by simp)]
        exact ih rest2 (fun x hx => hall x (List.mem_cons_of_mem e (hsub x hx)))

/-- With only captionless ungrouped entries, stage 2 changes nothing. -/
theorem stage2_inert (gbn0 : List (GroupKey × List EntryFig)) (ung0 : List EntryFig)
    (hall : ∀ e ∈ ung0, e.has_caption = false) : stage2 gbn0 ung0 = (gbn0, ung0) := by
  unfold stage2
  dsimp only
  refine foldl_id _ _ _ ?_
  intro pr hpr st
  dsimp only
  split
  · rfl
  · rw [stage2Outer_nil _ _ ?_]
    · rfl
    · intro x hx
      refine hall x ?_
      have hx2 : x ∈ pr.2 :=
        (pySort_perm (fun a b => (sortKeyY a).le (sortKeyY b)) pr.2).mem_iff.mp hx
      have := dictFold_mem (fun e : EntryFig => e.page_idx) ung0 [] pr hpr x hx2
      simpa using this

/-- With only captionless ungrouped entries, stage 3 changes nothing. -/
theorem stage3_inert (gbn0 : List (GroupKey × List EntryFig)) (ung0 : List EntryFig)
    (hall : ∀ e ∈ ung0, e.has_caption = false) : stage3 gbn0 ung0 = (gbn0, ung0) := by
  unfold stage3
  dsimp only
  refine foldl_id _ _ _ ?_
  intro pr hpr st
  dsimp only
  split
  · rfl
  · rw [stage3Outer_nil _ _ ?_]
    · rfl
    · intro x hx
      refine hall x ?_
      have hx2 : x ∈ pr.2 :=
        (pySort_perm (fun a b => (sortKeyX a).le (sortKeyX b)) pr.2).mem_iff.mp hx
      have := dictFold_mem (fun e : EntryFig => e.page_idx) ung0 [] pr hpr x hx2
      simpa using this

/-- With a sane regex engine, every stage-1 ungrouped entry of the
pipeline is captionless. -/
theorem ung_captionless (o : TextOracle) (hs : o.Sane) (entries : List MdEntry)
    (figures : List FigItem) (captions : List CapItem) (x : EntryFig)
    (hx : x ∈ (stage1 (stage0 (entryFigures o entries figures captions))).2) :
    x.has_caption = false := by
  obtain ⟨hx0, hxn⟩ := stage1_ung_src _ x hx
  obtain ⟨e, he, hhas, _, _, hnum⟩ := stage0_mem_src _ x hx0
  obtain ⟨p, hp, rfl⟩ := List.mem_map.mp he
  by_contra hne
  rw [Bool.not_eq_false] at hne
  obtain ⟨n, hn⟩ := enrich_number o hs _ _ _ p.1 p.2 (hhas ▸ hne)
  rw [hnum hxn] at hn
  exact Option.noConfusion hn

/-- The images of the built result groups are exactly the bucket contents
followed by the ungrouped singles. -/
theorem buildResults_flatten (gbn : List (GroupKey × List EntryFig))
    (ung : List EntryFig) :
    ((buildResults gbn ung).map (fun g => g.images)).flatten =
      ((gbn.map Prod.snd).flatten) ++ ung := by
  unfold buildResults
  dsimp only
  have hsingles : ∀ (l : List EntryFig) (acc : List FigureGroup),
      ((l.foldl (fun acc e =>
        acc ++ [⟨GroupId.single (acc.length + 3000), [e], e.caption, e.caption_bbox,
          e.page_idx⟩]) acc).map (fun g => g.images)).flatten =
        ((acc.map (fun g => g.images)).flatten) ++ l := by
    intro l
    induction l with
    | nil => intro acc; simp
    | cons e rest ih =>
      intro acc
      rw [List.foldl_cons, ih]
      simp
  rw [hsingles]
  congr 1
  rw [List.map_map]
  rfl

/-- Elements already accumulated survive an append-only fold. -/
theorem mem_foldl_append_keep {α β : Type} (h : List β → α → β) (x : β) :
    ∀ (l : List α) (acc : List β), x ∈ acc →
      x ∈ l.foldl (fun acc e => acc ++ [h acc e]) acc := by
  intro l
  induction l with
  | nil => exact fun acc hx => hx
  | cons e rest ih =>
    intro acc hx
    rw [List.foldl_cons]
    exact ih _ (List.mem_append.mpr (Or.inl hx))

/-- The bucket group of a groups_by_number entry is a built result group. -/
theorem buildResults_mem (gbn : List (GroupKey × List EntryFig)) (ung : List EntryFig)
    (pr : GroupKey × List EntryFig) (hpr : pr ∈ gbn) :
    (⟨GroupId.keyed pr.1, pr.2, (groupCaptionPick pr.2).1, (groupCaptionPick pr.2).2,
      groupPagePick pr.2⟩ : FigureGroup) ∈ buildResults gbn ung := by
  unfold buildResults
  dsimp only
  exact mem_foldl_append_keep _ _ ung _ (List.mem_map.mpr ⟨pr, hpr, rfl⟩)

/-- Flattening distributes over blockwise flattening. -/
theorem flatten_map_flatten {α β : Type} (f : α → List β) :
    ∀ L : List (List α),
      ((L.map (fun b => (b.map f).flatten)).flatten) = (((L.flatten).map f).flatten) := by
  intro L
  induction L with
  | nil => rfl
  | cons b rest ih => simp [ih]

/-- Pointwise permutations of the blocks give a permutation of the
flattened map. -/
theorem map_flatten_perm_pointwise {β γ : Type} (f g : β → List γ) :
    ∀ L : List β, (∀ b ∈ L, (f b).Perm (g b)) →
      ((L.map f).flatten).Perm ((L.map g).flatten) := by
  intro L
  induction L with
  | nil => exact fun _ => List.Perm.refl _
  | cons b rest ih =>
    intro h
    simp only [List.map_cons, List.flatten_cons]
    exact (h b (List.mem_cons_self b rest)).append
      (ih (fun x hx => h x (List.mem_cons_of_mem b hx)))

/-- The stage-0-length list recovered from indexed reads. -/
theorem map_getD_range {α : Type} (d : α) :
    ∀ l : List α, (List.range l.length).map (fun i => l.getD i d) = l := by
  intro l
  induction l with
  | nil => rfl
  | cons a t ih =>
    rw [List.length_cons, List.range_succ_eq_map, List.map_cons, List.map_map]
    congr 1

/-- Membership gives an enumerated membership. -/
theorem mem_enum_of_mem {α : Type} (x : α) :
    ∀ (l : List α) (n : Nat), x ∈ l → ∃ k, (k, x) ∈ l.enumFrom n := by
  intro l
  induction l with
  | nil => exact fun n hx => absurd hx (List.not_mem_nil x)
  | cons a t ih =>
    intro n hx
    rcases List.mem_cons.mp hx with rfl | hx
    · exact ⟨n, List.mem_cons_self _ _⟩
    · obtain ⟨k, hk⟩ := ih (n + 1) hx
      exact ⟨k, List.mem_cons_of_mem _ hk⟩

/-- The images of the merged component groups, blockwise. -/
theorem images_of_comps_enumFrom (p : Int) (gs : List FigureGroup) :
    ∀ (cps : List (Nat × List Nat)) (n : Nat),
      ((((cps.enumFrom n).map (fun pr =>
        let images := pr.2.2.foldl
          (fun acc i => acc ++ (gs.getD i ⟨GroupId.single 0, [], [], none, none⟩).images) []
        let bc := mergedCaptionPick images
        (⟨GroupId.merged p (pr.1 + 1), images, bc.1, bc.2, some p⟩ : FigureGroup))).map
          (fun g => g.images)).flatten)
      = (((cps.map Prod.snd).flatten).map
          (fun i => (gs.getD i ⟨GroupId.single 0, [], [], none, none⟩).images)).flatten := by
  intro cps
  induction cps with
  | nil => intro n; rfl
  | cons b rest ih =>
    intro n
    rw [List.enumFrom_cons]
    simp only [List.map_cons, List.flatten_cons]
    rw [ih (n + 1)]
    rw [foldl_append_acc]
    simp

/-- The comps fold distributes the group indices over the components. -/
theorem comps_fold_flatten :
    ∀ (l : List Nat) (s : List Nat) (m : List (Nat × List Nat)),
      ((((l.foldl (fun (st : List Nat × List (Nat × List Nat)) i =>
        let f := ufFind st.1.length st.1 i
        (f.2, dictAppend st.2 f.1 i)) (s, m)).2).map Prod.snd).flatten).Perm
        (((m.map Prod.snd).flatten) ++ l) := by
  intro l
  induction l with
  | nil => intro s m; simp
  | cons v rest ih =>
    intro s m
    rw [List.foldl_cons]
    refine (ih _ _).trans ?_
    refine ((dictAppend_flatten m _ v).append_right rest).trans ?_
    rw [List.append_assoc]
    exact List.Perm.refl _

/-- The merged component groups of a page redistribute the images of the
page's groups. -/
theorem stage4_merged_perm (p : Int) (gs : List FigureGroup)
    (cps : List (Nat × List Nat))
    (hcperm : ((cps.map Prod.snd).flatten).Perm (List.range gs.length)) :
    (((cps.enum.map (fun pr =>
      let images := pr.2.2.foldl
        (fun acc i => acc ++ (gs.getD i ⟨GroupId.single 0, [], [], none, none⟩).images) []
      let bc := mergedCaptionPick images
      (⟨GroupId.merged p (pr.1 + 1), images, bc.1, bc.2, some p⟩ : FigureGroup))).map
        (fun g => g.images)).flatten).Perm
      ((gs.map (fun g => g.images)).flatten) := by
  refine (List.Perm.of_eq (images_of_comps_enumFrom p gs cps 0)).trans ?_
  refine ((hcperm.map _).flatten).trans ?_
  have h3 : (List.range gs.length).map
      (fun i => (gs.getD i ⟨GroupId.single 0, [], [], none, none⟩).images) =
      ((List.range gs.length).map
        (fun i => gs.getD i ⟨GroupId.single 0, [], [], none, none⟩)).map
        (fun g => g.images) := (List.map_map _ _ _).symm
  rw [h3, map_getD_range]

/-- Every image list of a page's group survives inside some merged
component group. -/
theorem stage4_merged_keep (p : Int) (gs : List FigureGroup)
    (cps : List (Nat × List Nat))
    (hcperm : ((cps.map Prod.snd).flatten).Perm (List.range gs.length))
    (i : Nat) (hi : i < gs.length) :
    ∃ g2 ∈ cps.enum.map (fun pr =>
      let images := pr.2.2.foldl
        (fun acc i => acc ++ (gs.getD i ⟨GroupId.single 0, [], [], none, none⟩).images) []
      let bc := mergedCaptionPick images
      (⟨GroupId.merged p (pr.1 + 1), images, bc.1, bc.2, some p⟩ : FigureGroup)),
      ∀ x ∈ gs[i].images, x ∈ g2.images := by
  have hiflat : i ∈ ((cps.map Prod.snd).flatten) :=
    hcperm.symm.mem_iff.mp (List.mem_range.mpr hi)
  obtain ⟨b, hb, hib⟩ := List.mem_flatten.mp hiflat
  obtain ⟨pr, hpr, rfl⟩ := List.mem_map.mp hb
  obtain ⟨k, hk⟩ := mem_enum_of_mem pr _ 0 hpr
  refine ⟨_, List.mem_map.mpr ⟨(k, pr), hk, rfl⟩, ?_⟩
  intro x hx
  dsimp only
  rw [foldl_append_acc, List.nil_append]
  refine List.mem_flatten.mpr ⟨(gs.getD i ⟨GroupId.single 0, [], [], none, none⟩).images,
    List.mem_map.mpr ⟨i, hib, rfl⟩, ?_⟩
  rw [List.getD_eq_getElem gs _ hi]
  exact hx

/-- One page of stage 4 only redistributes its groups' images. -/
theorem stage4Page_perm (p : Int) (gs : List FigureGroup) :
    (((stage4Page p gs).map (fun g => g.images)).flatten).Perm
      ((gs.map (fun g => g.images)).flatten) := by
  unfold stage4Page
  split
  · exact List.Perm.refl _
  · dsimp only
    refine stage4_merged_perm p gs _ ?_
    refine (comps_fold_flatten (List.range gs.length) _ []).trans ?_
    simp

/-- Every group of a page keeps its images inside one merged group. -/
theorem stage4Page_keep (p : Int) (gs : List FigureGroup) (g : FigureGroup)
    (hg : g ∈ gs) :
    ∃ g2 ∈ stage4Page p gs, ∀ x ∈ g.images, x ∈ g2.images := by
  unfold stage4Page
  split
  · exact ⟨g, hg, fun x hx => hx⟩
  · dsimp only
    obtain ⟨i, hi, rfl⟩ := List.mem_iff_getElem.mp hg
    refine stage4_merged_keep p gs _ ?_ i hi
    refine (comps_fold_flatten (List.range gs.length) _ []).trans ?_
    simp

/-- Stage 4 only redistributes the images of the result groups. -/
theorem stage4_perm (rgs : List FigureGroup) :
    (((stage4 rgs).map (fun g => g.images)).flatten).Perm
      ((rgs.map (fun g => g.images)).flatten) := by
  unfold stage4
  dsimp only
  rw [foldl_append_acc, List.nil_append]
  rw [← flatten_map_flatten (fun g : FigureGroup => g.images)]
  rw [List.map_map]
  refine (map_flatten_perm_pointwise _
    (fun pr : Int × List FigureGroup => (pr.2.map (fun g => g.images)).flatten) _
    (fun pr _ => stage4Page_perm pr.1 pr.2)).trans ?_
  have h2 : (rgs.foldl (fun m g => dictAppend m (g.page_idx.getD 0) g)
      ([] : List (Int × List FigureGroup))).map
      (fun pr => (pr.2.map (fun g => g.images)).flatten) =
      ((rgs.foldl (fun m g => dictAppend m (g.page_idx.getD 0) g)
      ([] : List (Int × List FigureGroup))).map Prod.snd).map
      (fun b => (b.map (fun g => g.images)).flatten) :=
    (List.map_map (fun b : List FigureGroup => (b.map (fun g => g.images)).flatten)
      Prod.snd _).symm
  rw [h2, flatten_map_flatten]
  exact (((dictFold_flatten (fun g : FigureGroup => g.page_idx.getD 0) rgs []).trans
    (by simp)).map _).flatten

/-- Every result group keeps its images inside one stage-4 group. -/
theorem stage4_keep (rgs : List FigureGroup) (g : FigureGroup) (hg : g ∈ rgs) :
    ∃ g2 ∈ stage4 rgs, ∀ x ∈ g.images, x ∈ g2.images := by
  obtain ⟨pr, hpr, hgpr⟩ :=
    dictFold_mem_bucket (fun g : FigureGroup => g.page_idx.getD 0) rgs g hg
  obtain ⟨g2, hg2, hsub⟩ := stage4Page_keep pr.1 pr.2 g hgpr
  refine ⟨g2, ?_, hsub⟩
  unfold stage4
  dsimp only
  rw [foldl_append_acc, List.nil_append]
  exact List.mem_flatten.mpr ⟨stage4Page pr.1 pr.2,
    List.mem_map.mpr ⟨pr, hpr, rfl⟩, hg2⟩

/-- Stage 2 never touches the tuple-keyed stage-1 buckets (its synthesized
keys are integers). -/
theorem stage2_inl (gbn0 : List (GroupKey × List EntryFig)) (ung0 : List EntryFig)
    (q : Int × Nat) :
    dictGet (stage2 gbn0 ung0).1 (Sum.inl q) = dictGet gbn0 (Sum.inl q) := by
  unfold stage2
  dsimp only
  refine foldl_inv (fun st : List (GroupKey × List EntryFig) × List EntryFig =>
    dictGet st.1 (Sum.inl q) = dictGet gbn0 (Sum.inl q)) _ _ _ rfl ?_
  intro pr hpr st hst
  dsimp only
  split
  · exact hst
  · refine foldl_inv (fun st2 : List (GroupKey × List EntryFig) × List EntryFig =>
      dictGet st2.1 (Sum.inl q) = dictGet gbn0 (Sum.inl q)) _ _ _ hst ?_
    intro grp hgrp st2 hst2
    dsimp only
    rw [dictGet_dictSet_ne _ _ (fun h => Sum.noConfusion h), hst2]

/-- Stage 3 never touches the tuple-keyed stage-1 buckets. -/
theorem stage3_inl (gbn0 : List (GroupKey × List EntryFig)) (ung0 : List EntryFig)
    (q : Int × Nat) :
    dictGet (stage3 gbn0 ung0).1 (Sum.inl q) = dictGet gbn0 (Sum.inl q) := by
  unfold stage3
  dsimp only
  refine foldl_inv (fun st : List (GroupKey × List EntryFig) × List EntryFig =>
    dictGet st.1 (Sum.inl q) = dictGet gbn0 (Sum.inl q)) _ _ _ rfl ?_
  intro pr hpr st hst
  dsimp only
  split
  · exact hst
  · refine foldl_inv (fun st2 : List (GroupKey × List EntryFig) × List EntryFig =>
      dictGet st2.1 (Sum.inl q) = dictGet gbn0 (Sum.inl q)) _ _ _ hst ?_
    intro grp hgrp st2 hst2
    dsimp only
    rw [dictGet_dictSet_ne _ _ (fun h => Sum.noConfusion h), hst2]

/-- C1: with a sane regex engine, the entry indices found across the
final groups of group_figures_by_proximity are exactly 0, ...,
len(entries)-1, each exactly once: no entry is lost and none is a member
of two groups.  (Under regex sanity the untrusted-caption invariant makes
stages 2 and 3 inert, so their synthesized group keys never collide with
anything.) -/
theorem C1_entries_partition (o : TextOracle) (hs : o.Sane) (entries : List MdEntry)
    (figures : List FigItem) (captions : List CapItem) :
    ((((group_figures_by_proximity o entries figures captions).map
      (fun g => g.images)).flatten).map (fun e => e.entry_idx)).Perm
      (List.range entries.length) := by
  unfold group_figures_by_proximity
  by_cases he : entries.isEmpty = true
  · rw [if_pos he]
    rw [List.isEmpty_iff] at he
    subst he
    exact List.Perm.refl _
  · rw [if_neg he]
    dsimp only
    have hcapt : ∀ x ∈ (stage1 (stage0 (entryFigures o entries figures captions))).2,
        x.has_caption = false := ung_captionless o hs entries figures captions
    rw [stage2_inert _ _ hcapt]
    dsimp only
    rw [stage3_inert _ _ hcapt]
    dsimp only
    have hperm : (((pySort groupSortLe (stage4 (buildResults
        (stage1 (stage0 (entryFigures o entries figures captions))).1
        (stage1 (stage0 (entryFigures o entries figures captions))).2))).map
          (fun g => g.images)).flatten).Perm
        (stage0 (entryFigures o entries figures captions)) := by
      refine (((pySort_perm groupSortLe _).map _).flatten).trans ?_
      refine (stage4_perm _).trans ?_
      rw [buildResults_flatten]
      exact stage1_perm _
    refine (hperm.map _).trans ?_
    rw [stage0_idx, entryFigures_idx]

/-- C4: any two enriched entries on the same page (None counting as page
0) that carry the same parsed figure number end up, with their entry
indices, inside one and the same final group: stage 1 buckets them under
one key, stages 2 and 3 only add integer keys, result building keeps each
bucket whole, and the stage-4 merge only concatenates groups. -/
theorem C4_same_page_same_number_same_group (o : TextOracle) (entries : List MdEntry)
    (figures : List FigItem) (captions : List CapItem) (ei ej : EntryFig) (n : Nat)
    (hei : ei ∈ entryFigures o entries figures captions)
    (hej : ej ∈ entryFigures o entries figures captions)
    (hpage : ei.page_idx.getD 0 = ej.page_idx.getD 0)
    (hni : ei.figure_number = some n) (hnj : ej.figure_number = some n) :
    ∃ g ∈ group_figures_by_proximity o entries figures captions,
      ei.entry_idx ∈ g.images.map (fun e => e.entry_idx) ∧
      ej.entry_idx ∈ g.images.map (fun e => e.entry_idx) := by
  have hne : ¬entries.isEmpty = true := by
    intro habs
    rw [List.isEmpty_iff] at habs
    subst habs
    exact absurd (by simpa [entryFigures] using hei) (List.not_mem_nil ei)
  have hnd : ((entryFigures o entries figures captions).map
      (fun e => e.entry_idx)).Nodup := by
    rw [entryFigures_idx]
    exact List.nodup_range _
  have hei0 : ei ∈ stage0 (entryFigures o entries figures captions) :=
    stage0_keeps_number _ hnd ei hei n hni
  have hej0 : ej ∈ stage0 (entryFigures o entries figures captions) :=
    stage0_keeps_number _ hnd ej hej n hnj
  obtain ⟨vsi, hgi, hmi⟩ := stage1_bucket _ ei hei0 n hni
  obtain ⟨vsj, hgj, hmj⟩ := stage1_bucket _ ej hej0 n hnj
  rw [← hpage] at hgj
  rw [hgi] at hgj
  cases Option.some.inj hgj
  set S1 := stage1 (stage0 (entryFigures o entries figures captions))
  have hget3 : dictGet (stage3 (stage2 S1.1 S1.2).1 (stage2 S1.1 S1.2).2).1
      (Sum.inl (ei.page_idx.getD 0, n)) = some vsi := by
    rw [stage3_inl, stage2_inl]
    exact hgi
  have hpr : ∃ pr ∈ (stage3 (stage2 S1.1 S1.2).1 (stage2 S1.1 S1.2).2).1,
      pr.2 = vsi := by
    rcases dictGet_mem _ _ _ hget3 with hmem | ⟨k', hk', hmem⟩
    · exact ⟨_, hmem, rfl⟩
    · exact ⟨_, hmem, rfl⟩
  obtain ⟨pr, hprm, hpr2⟩ := hpr
  have hg0 := buildResults_mem _ (stage3 (stage2 S1.1 S1.2).1 (stage2 S1.1 S1.2).2).2
    pr hprm
  obtain ⟨g2, hg2, hsub⟩ := stage4_keep _ _ hg0
  refine ⟨g2, ?_, ?_, ?_⟩
  · unfold group_figures_by_proximity
    rw [if_neg hne]
    dsimp only
    exact (pySort_perm groupSortLe _).symm.mem_iff.mp hg2
  · exact List.mem_map.mpr ⟨ei, hsub ei (show ei ∈ pr.2 by rw [hpr2]; exact hmi), rfl⟩
  · exact List.mem_map.mpr ⟨ej, hsub ej (show ej ∈ pr.2 by rw [hpr2]; exact hmj), rfl⟩

theorem C1_entries_partition_witness :
    ((((group_figures_by_proximity threeCharOracle wEntries [] []).map
      (fun g => g.images)).flatten).map (fun e => e.entry_idx)).Perm (List.range 3) :=
  C1_entries_partition threeCharOracle
    (fun s p h habs => by subst habs; simp [threeCharOracle] at h) wEntries [] []

theorem C4_same_page_same_number_same_group_witness :
    wEF0 ∈ entryFigures threeCharOracle wEntries [] [] ∧
    wEF1 ∈ entryFigures threeCharOracle wEntries [] [] ∧
    wEF0.page_idx.getD 0 = wEF1.page_idx.getD 0 ∧
    wEF0.figure_number = some 7 ∧ wEF1.figure_number = some 7 ∧
    ∃ g ∈ group_figures_by_proximity threeCharOracle wEntries [] [],
      wEF0.entry_idx ∈ g.images.map (fun e => e.entry_idx) ∧
      wEF1.entry_idx ∈ g.images.map (fun e => e.entry_idx) :=
  ⟨by decide, by decide, by decide, by decide, by decide,
    C4_same_page_same_number_same_group threeCharOracle wEntries [] [] wEF0 wEF1 7
      (by decide) (by decide) (by decide) (by decide) (by decide)⟩

theorem C3_uniform_scale_amended_witness :
    (∀ t ∈ [(⟨70, 50⟩ : Tile)], 0 < t.w) ∧
    ((∀ pg ∈ (pack_tiles_hybrid zeroFont defaultCfg [⟨70, 50⟩] [[]] 100 60).1,
      ∀ p ∈ pg, RenderRel p ∧ PlanRel p) ∧
    (∀ pg ∈ (pack_tiles_masonry defaultCfg [⟨70, 50⟩] 100 60).1,
      ∀ p ∈ pg, MasonryRel 100 60 p)) :=
  ⟨by decide,
    C3_uniform_scale_amended zeroFont defaultCfg [⟨70, 50⟩] [[]] 100 60 (by decide)⟩

theorem dictGet_dictSet_same {K V : Type} [DecidableEq K] (k : K) (v : V) :
    ∀ m : List (K × V), dictGet (dictSet m k v) k = some v := by
  intro m
  induction m with
  | nil =>
    unfold dictSet dictGet
    rw [if_pos rfl]
  | cons pr rest ih =>
    obtain ⟨k2, v2⟩ := pr
    unfold dictSet
    split
    · rename_i heq
      unfold dictGet
      rw [if_pos heq]
    · rename_i hne
      unfold dictGet
      rw [if_neg hne]
      exact ih

theorem bumpCount_spec (m : List (Reason × Nat)) (r0 r : Reason) :
    (dictGet (bumpCount m r0) r).getD 0 =
      (dictGet m r).getD 0 + (if r = r0 then 1 else 0) := by
  unfold bumpCount
  by_cases h : r = r0
  · subst h
    rw [dictGet_dictSet_same, if_pos rfl]
    rfl
  · rw [dictGet_dictSet_ne _ _ h, if_neg h]
    rfl

/-- Processing one further group preserves the one-extra-error relation. -/
theorem processGroup_rel (o : TextOracle) (po : PilOracle) (kc : KeepCfg)
    (st st2 : ProcState) (h : SkipRel st st2) (g : FigureGroup) :
    SkipRel (processGroup o po kc st g) (processGroup o po kc st2 g) := by
  obtain ⟨h1, h2, h3, h4, h5⟩ := h
  unfold processGroup
  dsimp only
  split
  · exact ⟨h1, h2, h3, h4, h5⟩
  · split
    · refine ⟨h1, h2, h3, h4, ?_⟩
      intro r
      rw [bumpCount_spec, bumpCount_spec, h5 r]
      omega
    · split
      · refine ⟨h1, h2, h3, h4, ?_⟩
        intro r
        rw [bumpCount_spec, bumpCount_spec, h5 r]
        try omega
      · split
        · refine ⟨h1, h2, h3, h4, ?_⟩
          intro r
          rw [bumpCount_spec, bumpCount_spec, h5 r]
          try omega
        · exact ⟨by rw [h1], by rw [h2], by rw [h3], by rw [h4], h5⟩

/-- The one-extra-error relation survives the rest of the loop. -/
theorem processFold_rel (o : TextOracle) (po : PilOracle) (kc : KeepCfg) :
    ∀ (gs : List FigureGroup) (st st2 : ProcState), SkipRel st st2 →
      SkipRel (gs.foldl (processGroup o po kc) st) (gs.foldl (processGroup o po kc) st2) := by
  intro gs
  induction gs with
  | nil => exact fun st st2 h => h
  | cons g rest ih =>
    intro st st2 h
    rw [List.foldl_cons, List.foldl_cons]
    exact ih _ _ (processGroup_rel o po kc st st2 h g)

/-- compose_figure_group fails whenever no member's backing image can be
opened. -/
theorem compose_fails_when_unopenable (po : PilOracle) (group : FigureGroup)
    (hop : ∀ ef ∈ group.images, po.openImage (composePath ef) = none) :
    ∃ err, compose_figure_group po group = Except.error err := by
  have hop2 : ∀ ef ∈ (if 2 < group.images.length then group.images.take 1
      else group.images), po.openImage (composePath ef) = none := by
    intro ef hef
    split at hef
    · exact hop ef (List.take_subset _ _ hef)
    · exact hop ef hef
  have hfm : (if 2 < group.images.length then group.images.take 1
      else group.images).filterMap (loadMember po) = [] := by
    rw [List.filterMap_eq_nil]
    intro ef hef
    unfold loadMember
    dsimp only
    split
    · rfl
    · rw [hop2 ef hef]
      rfl
  by_cases h0 : group.images.isEmpty
  · exact ⟨.no_images, by unfold compose_figure_group; rw [if_pos h0]⟩
  · unfold compose_figure_group
    dsimp only
    rw [if_neg h0]
    by_cases h1 : (if 2 < group.images.length then group.images.take 1
        else group.images).length = 1
    · rw [if_pos h1]
      obtain ⟨ef, hef⟩ := List.length_eq_one.mp h1
      have hmem : ef ∈ (if 2 < group.images.length then group.images.take 1
          else group.images) := by
        rw [hef]
        exact List.mem_cons_self ef []
      rw [hef]
      dsimp only
      by_cases hp : (composePath ef).isEmpty
      · exact ⟨.no_path, by rw [if_pos hp]⟩
      · rw [if_neg hp, hop2 ef hmem]
        exact ⟨.not_found, rfl⟩
    · rw [if_neg h1, hfm]
      exact ⟨.no_valid_images, rfl⟩

/-- C9: a group none of whose member images can be opened makes
compose_figure_group fail with an error, and the group loop of
process_paper records exactly one extra group_compose_error for it while
producing the very same tiles, captions, metadata and used count as the
run without that group: one group's compose failure never aborts the run
or affects the other groups. -/
theorem C9_compose_failure_isolated (o : TextOracle) (po : PilOracle) (kc : KeepCfg)
    (gs1 gs2 : List FigureGroup) (g : FigureGroup)
    (hne : ¬g.images.isEmpty = true)
    (hkeep : (keep_entry kc (g.images.headD wDummyEF).entry).1 = true)
    (hop : ∀ ef ∈ g.images, po.openImage (composePath ef) = none) :
    (∃ err, compose_figure_group po g = Except.error err) ∧
    (process_groups o po kc (gs1 ++ g :: gs2)).tiles =
      (process_groups o po kc (gs1 ++ gs2)).tiles ∧
    (process_groups o po kc (gs1 ++ g :: gs2)).captions_list =
      (process_groups o po kc (gs1 ++ gs2)).captions_list ∧
    (process_groups o po kc (gs1 ++ g :: gs2)).matched_meta =
      (process_groups o po kc (gs1 ++ gs2)).matched_meta ∧
    (process_groups o po kc (gs1 ++ g :: gs2)).used =
      (process_groups o po kc (gs1 ++ gs2)).used ∧
    ∀ r, (dictGet (process_groups o po kc (gs1 ++ g :: gs2)).skipped r).getD 0 =
      (dictGet (process_groups o po kc (gs1 ++ gs2)).skipped r).getD 0 +
      (if r = Reason.group_compose_error then 1 else 0) := by
  obtain ⟨err, herr⟩ := compose_fails_when_unopenable po g hop
  refine ⟨⟨err, herr⟩, ?_⟩
  have hrel : SkipRel (process_groups o po kc (gs1 ++ gs2))
      (process_groups o po kc (gs1 ++ g :: gs2)) := by
    unfold process_groups
    rw [List.foldl_append, List.foldl_append, List.foldl_cons]
    refine processFold_rel o po kc gs2 _ _ ?_
    set st1 := gs1.foldl (processGroup o po kc) ⟨[], [], [], [], 0⟩
    have hstep : processGroup o po kc st1 g =
        { st1 with skipped := bumpCount st1.skipped Reason.group_compose_error } := by
      unfold processGroup
      dsimp only
      rw [if_neg hne, if_neg (by rw [hkeep]; exact Bool.false_ne_true), herr]
    rw [hstep]
    refine ⟨rfl, rfl, rfl, rfl, ?_⟩
    intro r
    rw [bumpCount_spec]
  obtain ⟨h1, h2, h3, h4, h5⟩ := hrel
  exact ⟨h1, h2, h3, h4, h5⟩

theorem C9_compose_failure_isolated_witness :
    (¬wGroupBad.images.isEmpty = true) ∧
    (keep_entry wKeepAll (wGroupBad.images.headD wDummyEF).entry).1 = true ∧
    ((∃ err, compose_figure_group wPilNone wGroupBad = Except.error err) ∧
     (process_groups threeCharOracle wPilNone wKeepAll ([] ++ wGroupBad :: [wGroupBad])).tiles =
       (process_groups threeCharOracle wPilNone wKeepAll ([] ++ [wGroupBad])).tiles ∧
     (process_groups threeCharOracle wPilNone wKeepAll
         ([] ++ wGroupBad :: [wGroupBad])).captions_list =
       (process_groups threeCharOracle wPilNone wKeepAll ([] ++ [wGroupBad])).captions_list ∧
     (process_groups threeCharOracle wPilNone wKeepAll
         ([] ++ wGroupBad :: [wGroupBad])).matched_meta =
       (process_groups threeCharOracle wPilNone wKeepAll ([] ++ [wGroupBad])).matched_meta ∧
     (process_groups threeCharOracle wPilNone wKeepAll ([] ++ wGroupBad :: [wGroupBad])).used =
       (process_groups threeCharOracle wPilNone wKeepAll ([] ++ [wGroupBad])).used ∧
     ∀ r, (dictGet (process_groups threeCharOracle wPilNone wKeepAll
           ([] ++ wGroupBad :: [wGroupBad])).skipped r).getD 0 =
       (dictGet (process_groups threeCharOracle wPilNone wKeepAll
           ([] ++ [wGroupBad])).skipped r).getD 0 +
       (if r = Reason.group_compose_error then 1 else 0)) :=
  ⟨by decide, by decide,
   C9_compose_failure_isolated threeCharOracle wPilNone wKeepAll [] [wGroupBad] wGroupBad
     (by decide) (by decide) (fun ef _ => rfl)⟩

end SelectImage
